import Mathlib

/-!
# `quantity_ext.c`: reconstruction, limiting and update kernel

A shallow embedding of the C kernel of
`anuga/abstract_2d_finite_volumes/quantity_ext.c` and proofs about it.

Modelling conventions
* the arithmetic is embedded twice. In the main embedding a C `double` is a rational
  number and every operation is exact: its theorems are statements over exact arithmetic.
  In the double-precision embedding (the type `Double` and the definitions whose names end
  in `_double`) a `double` is an IEEE 754 binary64 value and every operation rounds its exact
  result to nearest, ties to even, overflowing to an infinity and producing NaNs as the
  standard says (no fused multiply-add, no extended precision); it serves to show where
  rounding or overflow makes the compiled code depart from a statement that holds over exact
  arithmetic, and to state what the compiled code guarantees where that depends on rounding
  or overflow;
* a `double*` buffer is a total map `Nat → ℚ`, a `long*` buffer a map `Nat → Int`;
  a store `p[i] = x` is `Function.update p i x`;
* the length `N` (a C `int`) is a natural number; a negative `N` runs no
  iteration, exactly like `0`; index arithmetic is exact, the buffers of a call having
  `3*N` addressable entries;
* a division is checked (`fdiv`): dividing by zero makes the whole run `none`,
  so a result `some _` certifies that no division by zero was executed;
* a statement maps a store to `Exec store`: it falls through (`Ctl.next`), or the
  function has executed `return code` (`Ctl.ret`);
* locals that live across loop iterations are fields of the store; they are
  uninitialised in C, so the theorems quantify over their initial contents.
-/

namespace QuantityExt

/-! ## Execution model -/

/-- How a statement ends: control falls through to the next statement with store `s`,
or the function has returned `code` leaving store `s`. -/
inductive Ctl (σ : Type) where
  | next (s : σ) : Ctl σ
  | ret (code : Int) (s : σ) : Ctl σ

/-- Result of running a statement: `none` when a division by zero was executed. -/
abbrev Exec (σ : Type) := Option (Ctl σ)

/-- Sequencing `r; f`: `f` runs only when `r` fell through. -/
def andThen {σ : Type} (r : Exec σ) (f : σ → Exec σ) : Exec σ :=
  match r with
  | some (Ctl.next s) => f s
  | some (Ctl.ret code s) => some (Ctl.ret code s)
  | none => none

/-- The loop `for (k = 0; k < N; k++) body`: iterations `0 .. N-1` in order, stopping at
the first one that returns or faults. -/
def forLoop {σ : Type} (body : Nat → σ → Exec σ) : Nat → σ → Exec σ
  | 0, s => some (Ctl.next s)
  | n + 1, s => andThen (forLoop body n s) (body n)

/-- Checked division of doubles: `none` when the divisor is zero. -/
def fdiv (x y : ℚ) : Option ℚ :=
  if y = 0 then none else some (x / y)

/-- Modelled from the spec: the helper `min` of the missing header `util_ext.h`,
the smaller of two doubles. -/
def min (x y : ℚ) : ℚ := if x < y then x else y

/-- Modelled from the spec: the helper `max` of the missing header `util_ext.h`,
the larger of two doubles. -/
def max (x y : ℚ) : ℚ := if x > y then x else y

/-! ## Stores -/

/-- The two buffers written by the interpolators. -/
structure VEMem where
  vertex_values : Nat → ℚ
  edge_values : Nat → ℚ

/-- The three buffers of `_update`. -/
structure UpdateMem where
  centroid_values : Nat → ℚ
  explicit_update : Nat → ℚ
  semi_implicit_update : Nat → ℚ

/-- Store of a limiter: the two buffers it writes and its locals `qmin`, `qmax`, `phi`,
`dqa` that live across loop iterations. The buffers `centroid_values` and `neighbours` are
only read and are parameters. -/
structure LimitState where
  vertex_values : Nat → ℚ
  edge_values : Nat → ℚ
  qmin : ℚ
  qmax : ℚ
  phi : ℚ
  dqa : Nat → ℚ

/-- Store of `_limit_gradient_by_neighbour`: the buffers and locals of a limiter and the two
gradient buffers the function is handed. -/
structure GradientLimitState where
  vertex_values : Nat → ℚ
  edge_values : Nat → ℚ
  x_gradient : Nat → ℚ
  y_gradient : Nat → ℚ
  qmin : ℚ
  qmax : ℚ
  phi : ℚ
  dqa : Nat → ℚ

/-- The two buffers written by `_compute_gradients`. -/
structure GradientMem where
  a : Nat → ℚ
  b : Nat → ℚ

/-- The two buffers of `_backup_centroid_values` and `_saxpy_centroid_values`. -/
structure CentroidMem where
  centroid_values : Nat → ℚ
  centroid_backup_values : Nat → ℚ

/-- Store of `_average_vertex_values`: the output buffer `A` and the locals `k`,
`current_node`, `total`. -/
structure AverageState where
  A : Nat → ℚ
  k : Nat
  current_node : Nat
  total : ℚ

/-! ## Vertex/edge interpolators -/

/-- Body of the loop of `_interpolate_from_vertices_to_edges` for triangle `k`. -/
def interpolate_from_vertices_to_edges_body (k : Nat) (m : VEMem) : Exec VEMem :=
  let k3 := 3 * k
  let q0 := m.vertex_values (k3 + 0)
  let q1 := m.vertex_values (k3 + 1)
  let q2 := m.vertex_values (k3 + 2)
  let m := { m with edge_values := Function.update m.edge_values (k3 + 0) (0.5 * (q1 + q2)) }
  let m := { m with edge_values := Function.update m.edge_values (k3 + 1) (0.5 * (q0 + q2)) }
  let m := { m with edge_values := Function.update m.edge_values (k3 + 2) (0.5 * (q0 + q1)) }
  some (Ctl.next m)

/-- The C function `_interpolate_from_vertices_to_edges(N, vertex_values, edge_values)`. -/
def _interpolate_from_vertices_to_edges (N : Nat) (m : VEMem) : Exec VEMem :=
  andThen (forLoop interpolate_from_vertices_to_edges_body N m) fun m =>
  some (Ctl.ret 0 m)

/-- Body of the loop of `_interpolate_from_edges_to_vertices` for triangle `k`. -/
def interpolate_from_edges_to_vertices_body (k : Nat) (m : VEMem) : Exec VEMem :=
  let k3 := 3 * k
  let e0 := m.edge_values (k3 + 0)
  let e1 := m.edge_values (k3 + 1)
  let e2 := m.edge_values (k3 + 2)
  let m := { m with vertex_values := Function.update m.vertex_values (k3 + 0) (e1 + e2 - e0) }
  let m := { m with vertex_values := Function.update m.vertex_values (k3 + 1) (e2 + e0 - e1) }
  let m := { m with vertex_values := Function.update m.vertex_values (k3 + 2) (e0 + e1 - e2) }
  some (Ctl.next m)

/-- The C function `_interpolate_from_edges_to_vertices(N, vertex_values, edge_values)`. -/
def _interpolate_from_edges_to_vertices (N : Nat) (m : VEMem) : Exec VEMem :=
  andThen (forLoop interpolate_from_edges_to_vertices_body N m) fun m =>
  some (Ctl.ret 0 m)

/-! ## Time integrator -/

/-- First loop of `_update`: divide `semi_implicit_update[k]` by the conserved quantity,
or force it to zero when the conserved quantity is zero. -/
def update_normalise_body (k : Nat) (m : UpdateMem) : Exec UpdateMem :=
  let x := m.centroid_values k
  if x = 0 then
    some (Ctl.next { m with semi_implicit_update := Function.update m.semi_implicit_update k 0 })
  else
    match fdiv (m.semi_implicit_update k) x with
    | none => none
    | some q =>
      some (Ctl.next { m with semi_implicit_update := Function.update m.semi_implicit_update k q })

/-- Second loop of `_update`: the semi-implicit update, returning -1 at a zero
denominator. -/
def update_semi_implicit_body (timestep : ℚ) (k : Nat) (m : UpdateMem) : Exec UpdateMem :=
  let denominator := 1 - timestep * m.semi_implicit_update k
  if denominator = 0 then
    some (Ctl.ret (-1) m)
  else
    match fdiv (m.centroid_values k) denominator with
    | none => none
    | some q =>
      some (Ctl.next { m with centroid_values := Function.update m.centroid_values k q })

/-- Third loop of `_update`: the explicit update. -/
def update_explicit_body (timestep : ℚ) (k : Nat) (m : UpdateMem) : Exec UpdateMem :=
  let q := m.centroid_values k + timestep * m.explicit_update k
  some (Ctl.next { m with centroid_values := Function.update m.centroid_values k q })

/-- Fourth loop of `_update`: reset `semi_implicit_update[k]` to zero. -/
def update_reset_body (k : Nat) (m : UpdateMem) : Exec UpdateMem :=
  some (Ctl.next { m with semi_implicit_update := Function.update m.semi_implicit_update k 0 })

/-- The C function
`_update(N, timestep, centroid_values, explicit_update, semi_implicit_update)`. -/
def _update (N : Nat) (timestep : ℚ) (m : UpdateMem) : Exec UpdateMem :=
  andThen (forLoop update_normalise_body N m) fun m =>
  andThen (forLoop (update_semi_implicit_body timestep) N m) fun m =>
  andThen (forLoop (update_explicit_body timestep) N m) fun m =>
  andThen (forLoop update_reset_body N m) fun m =>
  some (Ctl.ret 0 m)

/-! ## Limiters with the envelope of all neighbours -/

/-- Body of the loop over the three neighbours that widens `qmin`, `qmax` by the centroid
value of every neighbour `n >= 0` (the same code in both `_by_all_neighbours` limiters). -/
def envelope_body (centroid_values : Nat → ℚ) (neighbours : Nat → Int) (k3 i : Nat)
    (s : LimitState) : Exec LimitState :=
  let n := neighbours (k3 + i)
  if n ≥ 0 then
    let qn := centroid_values n.toNat
    let s := { s with qmin := min s.qmin qn }
    let s := { s with qmax := max s.qmax qn }
    some (Ctl.next s)
  else
    some (Ctl.next s)

/-- Body of the loop of `_limit_vertices_by_all_neighbours` that accumulates `phi` over the
three vertex deviations. -/
def limit_vertices_phi_body (beta qc : ℚ) (k3 i : Nat) (s : LimitState) : Exec LimitState :=
  let r : ℚ := 1
  let dq := s.vertex_values (k3 + i) - qc
  let s := { s with dqa := Function.update s.dqa i dq }
  match (if dq > 0 then fdiv (s.qmax - qc) dq else some r) with
  | none => none
  | some r =>
    match (if dq < 0 then fdiv (s.qmin - qc) dq else some r) with
    | none => none
    | some r => some (Ctl.next { s with phi := min (min (r * beta) 1) s.phi })

/-- Body of the loop over triangles of `_limit_vertices_by_all_neighbours`. -/
def limit_vertices_by_all_neighbours_body (beta : ℚ) (centroid_values : Nat → ℚ)
    (neighbours : Nat → Int) (k : Nat) (s : LimitState) : Exec LimitState :=
  let k3 := 3 * k
  let qc := centroid_values k
  let s := { s with qmin := qc }
  let s := { s with qmax := qc }
  andThen (forLoop (envelope_body centroid_values neighbours k3) 3 s) fun s =>
  let s := { s with phi := 1 }
  andThen (forLoop (limit_vertices_phi_body beta qc k3) 3 s) fun s =>
  let s := { s with vertex_values := Function.update s.vertex_values (k3 + 0) (qc + s.phi * s.dqa 0) }
  let s := { s with vertex_values := Function.update s.vertex_values (k3 + 1) (qc + s.phi * s.dqa 1) }
  let s := { s with vertex_values := Function.update s.vertex_values (k3 + 2) (qc + s.phi * s.dqa 2) }
  let x := 0.5 * (s.vertex_values (k3 + 1) + s.vertex_values (k3 + 2))
  let s := { s with edge_values := Function.update s.edge_values (k3 + 0) x }
  let x := 0.5 * (s.vertex_values (k3 + 2) + s.vertex_values (k3 + 0))
  let s := { s with edge_values := Function.update s.edge_values (k3 + 1) x }
  let x := 0.5 * (s.vertex_values (k3 + 0) + s.vertex_values (k3 + 1))
  let s := { s with edge_values := Function.update s.edge_values (k3 + 2) x }
  some (Ctl.next s)

/-- The C function `_limit_vertices_by_all_neighbours(N, beta, centroid_values,
vertex_values, edge_values, neighbours)`. -/
def _limit_vertices_by_all_neighbours (N : Nat) (beta : ℚ) (centroid_values : Nat → ℚ)
    (neighbours : Nat → Int) (s : LimitState) : Exec LimitState :=
  andThen (forLoop (limit_vertices_by_all_neighbours_body beta centroid_values neighbours) N s)
    fun s =>
  some (Ctl.ret 0 s)

/-- Body of the loop of `_limit_edges_by_all_neighbours` that accumulates `phi` over the
three edge deviations. -/
def limit_edges_phi_body (beta qc : ℚ) (k3 i : Nat) (s : LimitState) : Exec LimitState :=
  let r : ℚ := 1
  let dq := s.edge_values (k3 + i) - qc
  let s := { s with dqa := Function.update s.dqa i dq }
  match (if dq > 0 then fdiv (s.qmax - qc) dq else some r) with
  | none => none
  | some r =>
    match (if dq < 0 then fdiv (s.qmin - qc) dq else some r) with
    | none => none
    | some r => some (Ctl.next { s with phi := min (min (r * beta) 1) s.phi })

/-- Body of the loop over triangles of `_limit_edges_by_all_neighbours`. -/
def limit_edges_by_all_neighbours_body (beta : ℚ) (centroid_values : Nat → ℚ)
    (neighbours : Nat → Int) (k : Nat) (s : LimitState) : Exec LimitState :=
  let k3 := 3 * k
  let qc := centroid_values k
  let s := { s with qmin := qc }
  let s := { s with qmax := qc }
  andThen (forLoop (envelope_body centroid_values neighbours k3) 3 s) fun s =>
  let s := { s with phi := 1 }
  andThen (forLoop (limit_edges_phi_body beta qc k3) 3 s) fun s =>
  let s := { s with edge_values := Function.update s.edge_values (k3 + 0) (qc + s.phi * s.dqa 0) }
  let s := { s with edge_values := Function.update s.edge_values (k3 + 1) (qc + s.phi * s.dqa 1) }
  let s := { s with edge_values := Function.update s.edge_values (k3 + 2) (qc + s.phi * s.dqa 2) }
  let x := s.edge_values (k3 + 1) + s.edge_values (k3 + 2) - s.edge_values (k3 + 0)
  let s := { s with vertex_values := Function.update s.vertex_values (k3 + 0) x }
  let x := s.edge_values (k3 + 2) + s.edge_values (k3 + 0) - s.edge_values (k3 + 1)
  let s := { s with vertex_values := Function.update s.vertex_values (k3 + 1) x }
  let x := s.edge_values (k3 + 0) + s.edge_values (k3 + 1) - s.edge_values (k3 + 2)
  let s := { s with vertex_values := Function.update s.vertex_values (k3 + 2) x }
  some (Ctl.next s)

/-- The C function `_limit_edges_by_all_neighbours(N, beta, centroid_values,
vertex_values, edge_values, neighbours)`. -/
def _limit_edges_by_all_neighbours (N : Nat) (beta : ℚ) (centroid_values : Nat → ℚ)
    (neighbours : Nat → Int) (s : LimitState) : Exec LimitState :=
  andThen (forLoop (limit_edges_by_all_neighbours_body beta centroid_values neighbours) N s)
    fun s =>
  some (Ctl.ret 0 s)

/-! ## Gradient reconstructor -/

/-- Type of the helper `_gradient` of the missing header `util_ext.h`, a parameter of the
model: the pair it stores through `&a[k]`, `&b[k]` as a function of its value arguments
`x0 y0 x1 y1 x2 y2 q0 q1 q2`. -/
abbrev Gradient3 := ℚ → ℚ → ℚ → ℚ → ℚ → ℚ → ℚ → ℚ → ℚ → ℚ × ℚ

/-- Type of the helper `_gradient2` of the missing header `util_ext.h`, a parameter of the
model: the pair it stores through `&a[k]`, `&b[k]` as a function of its value arguments
`x0 y0 x1 y1 q0 q1`. -/
abbrev Gradient2 := ℚ → ℚ → ℚ → ℚ → ℚ → ℚ → ℚ × ℚ

/-- The loop `while (i<3 && k0==k) { k0 = surrogate_neighbours[index3 + i]; i++; }` on the
locals `(i, k0)`. -/
def find_neighbour (surrogate_neighbours : Nat → Int) (index3 : Nat) (k : Int) (i : Nat)
    (k0 : Int) : Nat × Int :=
  if i < 3 ∧ k0 = k then
    find_neighbour surrogate_neighbours index3 k (i + 1) (surrogate_neighbours (index3 + i))
  else
    (i, k0)
termination_by 3 - i

/-- Body of the loop over triangles of `_compute_gradients`. The surrogate indices are
`long` values stored in `int` locals; for valid triangle ids the conversion is exact. -/
def compute_gradients_body (_gradient : Gradient3) (_gradient2 : Gradient2)
    (centroids centroid_values : Nat → ℚ) (number_of_boundaries surrogate_neighbours : Nat → Int)
    (k : Nat) (m : GradientMem) : Exec GradientMem :=
  let index3 := 3 * k
  if number_of_boundaries k < 2 then
    let k0 := surrogate_neighbours (index3 + 0)
    let k1 := surrogate_neighbours (index3 + 1)
    let k2 := surrogate_neighbours (index3 + 2)
    if k0 = k1 ∨ k1 = k2 then
      some (Ctl.ret (-1) m)
    else
      let q0 := centroid_values k0.toNat
      let q1 := centroid_values k1.toNat
      let q2 := centroid_values k2.toNat
      let x0 := centroids (k0 * 2).toNat
      let y0 := centroids (k0 * 2 + 1).toNat
      let x1 := centroids (k1 * 2).toNat
      let y1 := centroids (k1 * 2 + 1).toNat
      let x2 := centroids (k2 * 2).toNat
      let y2 := centroids (k2 * 2 + 1).toNat
      let g := _gradient x0 y0 x1 y1 x2 y2 q0 q1 q2
      let m := { m with a := Function.update m.a k g.1 }
      let m := { m with b := Function.update m.b k g.2 }
      some (Ctl.next m)
  else if number_of_boundaries k = 2 then
    let k0 := (find_neighbour surrogate_neighbours index3 k 0 k).2
    if k0 = k then
      some (Ctl.ret (-1) m)
    else
      let k1 : Int := k
      let q0 := centroid_values k0.toNat
      let q1 := centroid_values k1.toNat
      let x0 := centroids (k0 * 2).toNat
      let y0 := centroids (k0 * 2 + 1).toNat
      let x1 := centroids (k1 * 2).toNat
      let y1 := centroids (k1 * 2 + 1).toNat
      let g := _gradient2 x0 y0 x1 y1 q0 q1
      let m := { m with a := Function.update m.a k g.1 }
      let m := { m with b := Function.update m.b k g.2 }
      some (Ctl.next m)
  else
    some (Ctl.next m)

/-- The C function `_compute_gradients(N, centroids, centroid_values,
number_of_boundaries, surrogate_neighbours, a, b)`. -/
def _compute_gradients (_gradient : Gradient3) (_gradient2 : Gradient2) (N : Nat)
    (centroids centroid_values : Nat → ℚ) (number_of_boundaries surrogate_neighbours : Nat → Int)
    (m : GradientMem) : Exec GradientMem :=
  andThen (forLoop (compute_gradients_body _gradient _gradient2 centroids centroid_values
    number_of_boundaries surrogate_neighbours) N m) fun m =>
  some (Ctl.ret 0 m)

/-! ## Extrapolator -/

/-- Body of the loop over triangles of `_extrapolate_from_gradient`. -/
def extrapolate_from_gradient_body (centroids centroid_values vertex_coordinates a b : Nat → ℚ)
    (k : Nat) (m : VEMem) : Exec VEMem :=
  let k6 := 6 * k
  let k3 := 3 * k
  let k2 := 2 * k
  let x := centroids k2
  let y := centroids (k2 + 1)
  let x0 := vertex_coordinates (k6 + 0)
  let y0 := vertex_coordinates (k6 + 1)
  let x1 := vertex_coordinates (k6 + 2)
  let y1 := vertex_coordinates (k6 + 3)
  let x2 := vertex_coordinates (k6 + 4)
  let y2 := vertex_coordinates (k6 + 5)
  let q := centroid_values k + a k * (x0 - x) + b k * (y0 - y)
  let m := { m with vertex_values := Function.update m.vertex_values (k3 + 0) q }
  let q := centroid_values k + a k * (x1 - x) + b k * (y1 - y)
  let m := { m with vertex_values := Function.update m.vertex_values (k3 + 1) q }
  let q := centroid_values k + a k * (x2 - x) + b k * (y2 - y)
  let m := { m with vertex_values := Function.update m.vertex_values (k3 + 2) q }
  let q := 0.5 * (m.vertex_values (k3 + 1) + m.vertex_values (k3 + 2))
  let m := { m with edge_values := Function.update m.edge_values (k3 + 0) q }
  let q := 0.5 * (m.vertex_values (k3 + 2) + m.vertex_values (k3 + 0))
  let m := { m with edge_values := Function.update m.edge_values (k3 + 1) q }
  let q := 0.5 * (m.vertex_values (k3 + 0) + m.vertex_values (k3 + 1))
  let m := { m with edge_values := Function.update m.edge_values (k3 + 2) q }
  some (Ctl.next m)

/-- The C function `_extrapolate_from_gradient(N, centroids, centroid_values,
vertex_coordinates, vertex_values, edge_values, a, b)`. -/
def _extrapolate_from_gradient (N : Nat)
    (centroids centroid_values vertex_coordinates a b : Nat → ℚ) (m : VEMem) : Exec VEMem :=
  andThen (forLoop (extrapolate_from_gradient_body centroids centroid_values
    vertex_coordinates a b) N m) fun m =>
  some (Ctl.ret 0 m)

/-! ## Limiters with the envelope of one neighbour per edge -/

/-- Body of the loop over the three edges of `_limit_edges_by_neighbour`. -/
def limit_edges_by_neighbour_phi_body (beta qc : ℚ) (centroid_values : Nat → ℚ)
    (neighbours : Nat → Int) (k3 i : Nat) (s : LimitState) : Exec LimitState :=
  let dq := s.edge_values (k3 + i) - qc
  let s := { s with dqa := Function.update s.dqa i dq }
  let n := neighbours (k3 + i)
  if n ≥ 0 then
    let qn := centroid_values n.toNat
    let s := { s with qmin := min qc qn }
    let s := { s with qmax := max qc qn }
    let r : ℚ := 1
    match (if dq > 0 then fdiv (s.qmax - qc) dq else some r) with
    | none => none
    | some r =>
      match (if dq < 0 then fdiv (s.qmin - qc) dq else some r) with
      | none => none
      | some r => some (Ctl.next { s with phi := min (min (r * beta) 1) s.phi })
  else
    some (Ctl.next s)

/-- Body of the loop over triangles of `_limit_edges_by_neighbour`. -/
def limit_edges_by_neighbour_body (beta : ℚ) (centroid_values : Nat → ℚ)
    (neighbours : Nat → Int) (k : Nat) (s : LimitState) : Exec LimitState :=
  let k3 := 3 * k
  let qc := centroid_values k
  let s := { s with phi := 1 }
  andThen (forLoop (limit_edges_by_neighbour_phi_body beta qc centroid_values neighbours k3) 3 s)
    fun s =>
  let s := { s with edge_values := Function.update s.edge_values (k3 + 0) (qc + s.phi * s.dqa 0) }
  let s := { s with edge_values := Function.update s.edge_values (k3 + 1) (qc + s.phi * s.dqa 1) }
  let s := { s with edge_values := Function.update s.edge_values (k3 + 2) (qc + s.phi * s.dqa 2) }
  let x := s.edge_values (k3 + 1) + s.edge_values (k3 + 2) - s.edge_values (k3 + 0)
  let s := { s with vertex_values := Function.update s.vertex_values (k3 + 0) x }
  let x := s.edge_values (k3 + 2) + s.edge_values (k3 + 0) - s.edge_values (k3 + 1)
  let s := { s with vertex_values := Function.update s.vertex_values (k3 + 1) x }
  let x := s.edge_values (k3 + 0) + s.edge_values (k3 + 1) - s.edge_values (k3 + 2)
  let s := { s with vertex_values := Function.update s.vertex_values (k3 + 2) x }
  some (Ctl.next s)

/-- The C function `_limit_edges_by_neighbour(N, beta, centroid_values, vertex_values,
edge_values, neighbours)`. -/
def _limit_edges_by_neighbour (N : Nat) (beta : ℚ) (centroid_values : Nat → ℚ)
    (neighbours : Nat → Int) (s : LimitState) : Exec LimitState :=
  andThen (forLoop (limit_edges_by_neighbour_body beta centroid_values neighbours) N s)
    fun s =>
  some (Ctl.ret 0 s)

/-- Body of the loop over the three edges of `_limit_gradient_by_neighbour`. -/
def limit_gradient_by_neighbour_phi_body (beta qc : ℚ) (centroid_values : Nat → ℚ)
    (neighbours : Nat → Int) (k3 i : Nat) (s : GradientLimitState) : Exec GradientLimitState :=
  let dq := s.edge_values (k3 + i) - qc
  let s := { s with dqa := Function.update s.dqa i dq }
  let n := neighbours (k3 + i)
  if n ≥ 0 then
    let qn := centroid_values n.toNat
    let s := { s with qmin := min qc qn }
    let s := { s with qmax := max qc qn }
    let r : ℚ := 1
    match (if dq > 0 then fdiv (s.qmax - qc) dq else some r) with
    | none => none
    | some r =>
      match (if dq < 0 then fdiv (s.qmin - qc) dq else some r) with
      | none => none
      | some r => some (Ctl.next { s with phi := min (min (r * beta) 1) s.phi })
  else
    some (Ctl.next s)

/-- Body of the loop over triangles of `_limit_gradient_by_neighbour`. -/
def limit_gradient_by_neighbour_body (beta : ℚ) (centroid_values : Nat → ℚ)
    (neighbours : Nat → Int) (k : Nat) (s : GradientLimitState) : Exec GradientLimitState :=
  let k3 := 3 * k
  let qc := centroid_values k
  let s := { s with phi := 1 }
  andThen
    (forLoop (limit_gradient_by_neighbour_phi_body beta qc centroid_values neighbours k3) 3 s)
    fun s =>
  let s := { s with edge_values := Function.update s.edge_values (k3 + 0) (qc + s.phi * s.dqa 0) }
  let s := { s with edge_values := Function.update s.edge_values (k3 + 1) (qc + s.phi * s.dqa 1) }
  let s := { s with edge_values := Function.update s.edge_values (k3 + 2) (qc + s.phi * s.dqa 2) }
  let x := s.edge_values (k3 + 1) + s.edge_values (k3 + 2) - s.edge_values (k3 + 0)
  let s := { s with vertex_values := Function.update s.vertex_values (k3 + 0) x }
  let x := s.edge_values (k3 + 2) + s.edge_values (k3 + 0) - s.edge_values (k3 + 1)
  let s := { s with vertex_values := Function.update s.vertex_values (k3 + 1) x }
  let x := s.edge_values (k3 + 0) + s.edge_values (k3 + 1) - s.edge_values (k3 + 2)
  let s := { s with vertex_values := Function.update s.vertex_values (k3 + 2) x }
  some (Ctl.next s)

/-- The C function `_limit_gradient_by_neighbour(N, beta, centroid_values, vertex_values,
edge_values, x_gradient, y_gradient, neighbours)`. -/
def _limit_gradient_by_neighbour (N : Nat) (beta : ℚ) (centroid_values : Nat → ℚ)
    (neighbours : Nat → Int) (s : GradientLimitState) : Exec GradientLimitState :=
  andThen (forLoop (limit_gradient_by_neighbour_body beta centroid_values neighbours) N s)
    fun s =>
  some (Ctl.ret 0 s)

/-! ## Node averaging -/

/-- Body of the loop of `_average_vertex_values` over the index list. The counters `k`
and `current_node` only count up from 0 and are natural numbers. -/
def average_vertex_values_body (vertex_value_indices number_of_triangles_per_node : Nat → Int)
    (vertex_values : Nat → ℚ) (i : Nat) (s : AverageState) : Exec AverageState :=
  let index := vertex_value_indices i
  let s := { s with k := s.k + 1 }
  let s := { s with total := s.total + vertex_values index.toNat }
  if number_of_triangles_per_node s.current_node = (s.k : Int) then
    match fdiv s.total (s.k : ℚ) with
    | none => none
    | some q =>
      let s := { s with A := Function.update s.A s.current_node q }
      let s := { s with total := 0 }
      let s := { s with k := 0 }
      let s := { s with current_node := s.current_node + 1 }
      some (Ctl.next s)
  else
    some (Ctl.next s)

/-- The C function `_average_vertex_values(N, vertex_value_indices,
number_of_triangles_per_node, vertex_values, A)`. -/
def _average_vertex_values (N : Nat) (vertex_value_indices number_of_triangles_per_node : Nat → Int)
    (vertex_values A : Nat → ℚ) : Exec AverageState :=
  let s : AverageState := { A := A, k := 0, current_node := 0, total := 0 }
  andThen (forLoop (average_vertex_values_body vertex_value_indices
    number_of_triangles_per_node vertex_values) N s) fun s =>
  some (Ctl.ret 0 s)

/-! ## Backup and blend -/

/-- Body of the loop of `_backup_centroid_values`. -/
def backup_centroid_values_body (k : Nat) (m : CentroidMem) : Exec CentroidMem :=
  let q := m.centroid_values k
  some (Ctl.next { m with centroid_backup_values := Function.update m.centroid_backup_values k q })

/-- The C function `_backup_centroid_values(N, centroid_values, centroid_backup_values)`. -/
def _backup_centroid_values (N : Nat) (m : CentroidMem) : Exec CentroidMem :=
  andThen (forLoop backup_centroid_values_body N m) fun m =>
  some (Ctl.ret 0 m)

/-- Body of the loop of `_saxpy_centroid_values`. -/
def saxpy_centroid_values_body (a b : ℚ) (k : Nat) (m : CentroidMem) : Exec CentroidMem :=
  let q := a * m.centroid_values k + b * m.centroid_backup_values k
  some (Ctl.next { m with centroid_values := Function.update m.centroid_values k q })

/-- The C function
`_saxpy_centroid_values(N, a, b, centroid_values, centroid_backup_values)`. -/
def _saxpy_centroid_values (N : Nat) (a b : ℚ) (m : CentroidMem) : Exec CentroidMem :=
  andThen (forLoop (saxpy_centroid_values_body a b) N m) fun m =>
  some (Ctl.ret 0 m)

/-! ## Closed forms used in the proofs -/

/-- Edge value `i` of triangle `k` as `_interpolate_from_vertices_to_edges` computes it
from the vertex buffer `v`. -/
def edgeOfVertices (v : Nat → ℚ) (k i : Nat) : ℚ :=
  match i with
  | 0 => 0.5 * (v (3 * k + 1) + v (3 * k + 2))
  | 1 => 0.5 * (v (3 * k + 0) + v (3 * k + 2))
  | _ => 0.5 * (v (3 * k + 0) + v (3 * k + 1))

/-- Vertex value `i` of triangle `k` as `_interpolate_from_edges_to_vertices` computes it
from the edge buffer `e`. -/
def vertexOfEdges (e : Nat → ℚ) (k i : Nat) : ℚ :=
  match i with
  | 0 => e (3 * k + 1) + e (3 * k + 2) - e (3 * k + 0)
  | 1 => e (3 * k + 2) + e (3 * k + 0) - e (3 * k + 1)
  | _ => e (3 * k + 0) + e (3 * k + 1) - e (3 * k + 2)

/-- The normalised semi-implicit rate `h[k]` of the entry store: 0 when
`centroid_values[k] = 0`, else `semi_implicit_update[k] / centroid_values[k]`. -/
def rate (m : UpdateMem) (k : Nat) : ℚ :=
  if m.centroid_values k = 0 then 0 else m.semi_implicit_update k / m.centroid_values k

/-- The denominator `1 - timestep * h[k]` of cell `k` for the entry store. -/
def denom (timestep : ℚ) (m : UpdateMem) (k : Nat) : ℚ :=
  1 - timestep * rate m k

/-- The store after a completed step of `_update` from the entry store `m`. -/
def updateStepped (N : Nat) (timestep : ℚ) (m : UpdateMem) : UpdateMem :=
  { centroid_values := fun k =>
      if k < N then m.centroid_values k / denom timestep m k + timestep * m.explicit_update k
      else m.centroid_values k
    explicit_update := m.explicit_update
    semi_implicit_update := fun k => if k < N then 0 else m.semi_implicit_update k }

/-- The store `_update` leaves behind when it returns -1 at cell `j`, from the entry
store `m`. -/
def updateAborted (N : Nat) (timestep : ℚ) (m : UpdateMem) (j : Nat) : UpdateMem :=
  { centroid_values := fun k =>
      if k < j then m.centroid_values k / denom timestep m k else m.centroid_values k
    explicit_update := m.explicit_update
    semi_implicit_update := fun k => if k < N then rate m k else m.semi_implicit_update k }

/-- One iteration of the envelope loop on the pair `(qmin, qmax)`. -/
def envStep (c : Nat → ℚ) (nb : Nat → Int) (k3 i : Nat) (p : ℚ × ℚ) : ℚ × ℚ :=
  if nb (k3 + i) ≥ 0 then
    (min p.1 (c (nb (k3 + i)).toNat), max p.2 (c (nb (k3 + i)).toNat))
  else p

/-- The pair `(qmin, qmax)` of triangle `k` after the envelope loop. -/
def envAll (c : Nat → ℚ) (nb : Nat → Int) (k : Nat) : ℚ × ℚ :=
  envStep c nb (3 * k) 2 (envStep c nb (3 * k) 1 (envStep c nb (3 * k) 0 (c k, c k)))

/-- The ratio `r` of one deviation `dq`: 1 when `dq = 0`. -/
def ratio (lo hi qc dq : ℚ) : ℚ :=
  if dq > 0 then (hi - qc) / dq else if dq < 0 then (lo - qc) / dq else 1

/-- One iteration of the `phi` loop on `phi`. -/
def phiStep (beta lo hi qc dq phi : ℚ) : ℚ :=
  min (min (ratio lo hi qc dq * beta) 1) phi

/-- The multiplier `phi` after the three deviations `d0`, `d1`, `d2`, seeded at 1. -/
def phiAll (beta lo hi qc d0 d1 d2 : ℚ) : ℚ :=
  phiStep beta lo hi qc d2 (phiStep beta lo hi qc d1 (phiStep beta lo hi qc d0 1))

/-- The multiplier `phi` of triangle `k` in a `_by_all_neighbours` limiter whose limited
buffer is `q` on entry. -/
def phiOf (beta : ℚ) (c : Nat → ℚ) (nb : Nat → Int) (q : Nat → ℚ) (k : Nat) : ℚ :=
  phiAll beta (envAll c nb k).1 (envAll c nb k).2 (c k)
    (q (3 * k + 0) - c k) (q (3 * k + 1) - c k) (q (3 * k + 2) - c k)

/-- The limited value `qc + phi * dq` at local index `i` of triangle `k`. -/
def limited (beta : ℚ) (c : Nat → ℚ) (nb : Nat → Int) (q : Nat → ℚ) (k i : Nat) : ℚ :=
  c k + phiOf beta c nb q k * (q (3 * k + i) - c k)

/-- Edge value `i` of triangle `k` written by `_limit_vertices_by_all_neighbours`: half the
sum of the two limited vertex values at the other local indices. -/
def edgesOfLimited (beta : ℚ) (c : Nat → ℚ) (nb : Nat → Int) (v : Nat → ℚ) (k i : Nat) : ℚ :=
  match i with
  | 0 => 0.5 * (limited beta c nb v k 1 + limited beta c nb v k 2)
  | 1 => 0.5 * (limited beta c nb v k 2 + limited beta c nb v k 0)
  | _ => 0.5 * (limited beta c nb v k 0 + limited beta c nb v k 1)

/-- Vertex value `i` of triangle `k` written by `_limit_edges_by_all_neighbours`, re-derived
from the three limited edge values. -/
def verticesOfLimited (beta : ℚ) (c : Nat → ℚ) (nb : Nat → Int) (e : Nat → ℚ) (k i : Nat) : ℚ :=
  match i with
  | 0 => limited beta c nb e k 1 + limited beta c nb e k 2 - limited beta c nb e k 0
  | 1 => limited beta c nb e k 2 + limited beta c nb e k 0 - limited beta c nb e k 1
  | _ => limited beta c nb e k 0 + limited beta c nb e k 1 - limited beta c nb e k 2

/-! ## The envelope of the specification -/

/-- The set made of `centroid_values[k]` and the centroid values of the non-negative
neighbours of triangle `k`. -/
def envelope (c : Nat → ℚ) (nb : Nat → Int) (k : Nat) : Finset ℚ :=
  insert (c k)
    (((Finset.range 3).filter fun i => 0 ≤ nb (3 * k + i)).image fun i => c (nb (3 * k + i)).toNat)

/-- The value `qmin_k` of the specification: the minimum of `centroid_values[k]` and the centroid
values of the non-negative neighbours of `k`. -/
def qminOf (c : Nat → ℚ) (nb : Nat → Int) (k : Nat) : ℚ :=
  (envelope c nb k).min' (Finset.insert_nonempty _ _)

/-- The value `qmax_k` of the specification: the maximum of `centroid_values[k]` and the centroid
values of the non-negative neighbours of `k`. -/
def qmaxOf (c : Nat → ℚ) (nb : Nat → Int) (k : Nat) : ℚ :=
  (envelope c nb k).max' (Finset.insert_nonempty _ _)

/-- The number of true (non-negative) neighbours of triangle `k`. -/
def trueNeighbours (nb : Nat → Int) (k : Nat) : Nat :=
  ((Finset.range 3).filter fun i => 0 ≤ nb (3 * k + i)).card

/-! ## Concrete stores -/

/-- Two cells, the second of zero mass: with `timestep = 1` no denominator vanishes. -/
def exUpdateOk : UpdateMem :=
  { centroid_values := fun k => [1, 0].getD k 0
    explicit_update := fun k => [3, 5].getD k 0
    semi_implicit_update := fun k => [1 / 2, 7].getD k 0 }

/-- Two cells: with `timestep = 1` the denominator of cell 0 is 1/2 and that of cell 1
is 0. -/
def exUpdateFail : UpdateMem :=
  { centroid_values := fun k => [1, 2].getD k 0
    explicit_update := fun k => [3, 5].getD k 0
    semi_implicit_update := fun k => [1 / 2, 2].getD k 0 }

/-- Two cells, the first of zero mass: with `timestep = 1` the denominator of cell 1 is 0. -/
def exUpdateZeroFail : UpdateMem :=
  { centroid_values := fun k => [0, 2].getD k 0
    explicit_update := fun k => [3, 5].getD k 0
    semi_implicit_update := fun k => [7, 2].getD k 0 }

/-- Two cells, the first with centroid value 2, semi-implicit term 1 and no explicit
update. -/
def exUpdateScheme : UpdateMem :=
  { centroid_values := fun k => [2, 0].getD k 0
    explicit_update := fun k => [0, 5].getD k 0
    semi_implicit_update := fun k => [1, 7].getD k 0 }

/-- Two cells with centroid value 2 and no explicit update: with `timestep = 1` the
denominator of cell 0 is 0 and that of cell 1 is 1/2. -/
def exUpdateUnreached : UpdateMem :=
  { centroid_values := fun k => [2, 2].getD k 0
    explicit_update := fun _ => 0
    semi_implicit_update := fun k => [2, 1].getD k 0 }

/-- Two cells with no semi-implicit term and the constant explicit update 3. -/
def exUpdateExplicit : UpdateMem :=
  { centroid_values := fun k => [1, 2].getD k 0
    explicit_update := fun _ => 3
    semi_implicit_update := fun _ => 0 }

/-- Centroid values of a three-triangle mesh. -/
def exCentroids : Nat → ℚ := fun k => [0, 1, -1].getD k 0

/-- Neighbours of the three-triangle mesh: triangle 0 has the true neighbours 1 and 2. -/
def exNeighbours : Nat → Int := fun j => [1, 2, -1, 0, -1, -1, 0, -1, -1].getD j (-1)

/-- A limiter store on the three-triangle mesh: triangle 0 carries the planar
reconstruction with vertex values `2, -1, -1` and edge values `-1, 1/2, 1/2` around its
centroid value 0. -/
def exLimitState : LimitState :=
  { vertex_values := fun j => [2, -1, -1, 1, 1, 1, -1, -1, -1].getD j 0
    edge_values := fun j => [-1, 1 / 2, 1 / 2, 1, 1, 1, -1, -1, -1].getD j 0
    qmin := 0
    qmax := 0
    phi := 0
    dqa := fun _ => 0 }

/-! ## Closed forms of the extrapolator -/

/-- Vertex value `i` of triangle `k` as `_extrapolate_from_gradient` computes it. -/
def extrapolatedVertex (centroids c X a b : Nat → ℚ) (k i : Nat) : ℚ :=
  c k + a k * (X (6 * k + 2 * i) - centroids (2 * k)) +
    b k * (X (6 * k + 2 * i + 1) - centroids (2 * k + 1))

/-- Edge value `i` of triangle `k` as `_extrapolate_from_gradient` computes it. -/
def extrapolatedEdge (centroids c X a b : Nat → ℚ) (k i : Nat) : ℚ :=
  match i with
  | 0 => 0.5 * (extrapolatedVertex centroids c X a b k 1 + extrapolatedVertex centroids c X a b k 2)
  | 1 => 0.5 * (extrapolatedVertex centroids c X a b k 2 + extrapolatedVertex centroids c X a b k 0)
  | _ => 0.5 * (extrapolatedVertex centroids c X a b k 0 + extrapolatedVertex centroids c X a b k 1)

/-! ## Gradient reconstructor: the degenerate test and concrete inputs -/

/-- The degenerate-topology test of `_compute_gradients` at triangle `k`: with fewer than 2
boundaries, slots 0 and 1 or slots 1 and 2 of the surrogate neighbours coincide; with exactly
2 boundaries, all three slots are `k` itself. -/
def degenerate (nob sn : Nat → Int) (k : Nat) : Prop :=
  (nob k < 2 ∧ (sn (3 * k + 0) = sn (3 * k + 1) ∨ sn (3 * k + 1) = sn (3 * k + 2))) ∨
  (nob k = 2 ∧ sn (3 * k + 0) = k ∧ sn (3 * k + 1) = k ∧ sn (3 * k + 2) = k)

instance degenerateDecidable (nob sn : Nat → Int) (k : Nat) :
    Decidable (degenerate nob sn k) := by
  unfold degenerate
  infer_instance

/-- Modelled from the spec: the helper `_gradient` of the missing header `util_ext.h`, the
plane through three points by Cramer's rule on the differences to the first point. Used only
in concrete runs. -/
def exGradient3 : Gradient3 := fun x0 y0 x1 y1 x2 y2 q0 q1 q2 =>
  let det := (y2 - y0) * (x1 - x0) - (y1 - y0) * (x2 - x0)
  (((y2 - y0) * (q1 - q0) - (y1 - y0) * (q2 - q0)) / det,
    ((x1 - x0) * (q2 - q0) - (x2 - x0) * (q1 - q0)) / det)

/-- Modelled from the spec: the helper `_gradient2` of the missing header `util_ext.h`, the
gradient along the line through two points, with no component across it. Used only in
concrete runs. -/
def exGradient2 : Gradient2 := fun x0 y0 x1 y1 q0 q1 =>
  let det := (x1 - x0) * (x1 - x0) + (y1 - y0) * (y1 - y0)
  ((x1 - x0) * (q1 - q0) / det, (y1 - y0) * (q1 - q0) / det)

/-- Boundary counts of a two-triangle mesh: triangle 0 has one boundary edge, triangle 1
is isolated. -/
def exBoundaries : Nat → Int := fun k => [1, 3].getD k 3

/-- Surrogate neighbours of the two-triangle mesh: triangle 0 has triangle 1 in slots 0
and 2 and itself in slot 1. -/
def exSurrogates : Nat → Int := fun j => [1, 0, 1, 1, 1, 1].getD j 0

/-- Surrogate neighbours of the two-triangle mesh with slots 0 and 1 of triangle 0 equal. -/
def exSurrogatesBad : Nat → Int := fun j => [1, 1, 0, 1, 1, 1].getD j 0

/-- Centroid coordinates of the two-triangle mesh. -/
def exCentroidCoordinates : Nat → ℚ := fun j => [0, 0, 1, 1].getD j 0

/-- Gradient buffers holding 7 and 9 everywhere. -/
def exGradientMem : GradientMem := { a := fun _ => 7, b := fun _ => 9 }

/-! ## Node averaging: groups and a concrete input -/

/-- Position in the index list where the group of node `m` starts: the sum of the counts of
the nodes before `m`. -/
def groupStart (cnt : Nat → Int) (m : Nat) : Nat :=
  Finset.sum (Finset.range m) fun j => (cnt j).toNat

/-- Sum of the vertex values referenced by the `len` indices from position `start` on. -/
def groupSum (vii : Nat → Int) (vv : Nat → ℚ) (start len : Nat) : ℚ :=
  Finset.sum (Finset.range len) fun j => vv (vii (start + j)).toNat

/-- Average of the vertex values of the group of node `m`. -/
def groupAverage (vii cnt : Nat → Int) (vv : Nat → ℚ) (m : Nat) : ℚ :=
  groupSum vii vv (groupStart cnt m) (cnt m).toNat / (cnt m : ℚ)

/-- One node whose group references the three vertex values 1, 2, 3. -/
def exVertexValueIndices : Nat → Int := fun i => [0, 1, 2].getD i 0

/-- The count 3 for the one node. -/
def exTrianglesPerNode : Nat → Int := fun m => [3].getD m 0

/-- Vertex values 1, 2, 3. -/
def exVertexValues : Nat → ℚ := fun j => [1, 2, 3].getD j 0

/-! ## Closed forms of the per-edge limiters -/

/-- One iteration of the `phi` loop of a `_by_neighbour` limiter on `phi`: edge `i` constrains
`phi` only when its neighbour is non-negative, with the envelope of `qc` and that neighbour's
centroid value. -/
def phiStepNb (beta qc : ℚ) (c : Nat → ℚ) (nb : Nat → Int) (k3 i : Nat) (dq phi : ℚ) : ℚ :=
  if nb (k3 + i) ≥ 0 then
    phiStep beta (min qc (c (nb (k3 + i)).toNat)) (max qc (c (nb (k3 + i)).toNat)) qc dq phi
  else phi

/-- The multiplier `phi` of triangle `k` in a `_by_neighbour` limiter whose edge buffer is
`e` on entry. -/
def phiNb (beta : ℚ) (c : Nat → ℚ) (nb : Nat → Int) (e : Nat → ℚ) (k : Nat) : ℚ :=
  phiStepNb beta (c k) c nb (3 * k) 2 (e (3 * k + 2) - c k)
    (phiStepNb beta (c k) c nb (3 * k) 1 (e (3 * k + 1) - c k)
      (phiStepNb beta (c k) c nb (3 * k) 0 (e (3 * k + 0) - c k) 1))

/-- The limited edge value `qc + phi * dq` at local index `i` of triangle `k` in a
`_by_neighbour` limiter. -/
def limitedNb (beta : ℚ) (c : Nat → ℚ) (nb : Nat → Int) (e : Nat → ℚ) (k i : Nat) : ℚ :=
  c k + phiNb beta c nb e k * (e (3 * k + i) - c k)

/-- Vertex value `i` of triangle `k` written by a `_by_neighbour` limiter, re-derived from
the three limited edge values. -/
def verticesOfLimitedNb (beta : ℚ) (c : Nat → ℚ) (nb : Nat → Int) (e : Nat → ℚ) (k i : Nat) : ℚ :=
  match i with
  | 0 => limitedNb beta c nb e k 1 + limitedNb beta c nb e k 2 - limitedNb beta c nb e k 0
  | 1 => limitedNb beta c nb e k 2 + limitedNb beta c nb e k 0 - limitedNb beta c nb e k 1
  | _ => limitedNb beta c nb e k 0 + limitedNb beta c nb e k 1 - limitedNb beta c nb e k 2

/-- The store handed to a limiter after a reconstruction: the two buffers of `m` and the
locals of `l`. -/
def limitStoreOf (m : VEMem) (l : LimitState) : LimitState :=
  { l with vertex_values := m.vertex_values, edge_values := m.edge_values }

/-- The store of `_limit_gradient_by_neighbour` with the buffers and locals of `s` and the
gradient buffers `xg`, `yg`. -/
def gradientLimitStoreOf (s : LimitState) (xg yg : Nat → ℚ) : GradientLimitState :=
  { vertex_values := s.vertex_values
    edge_values := s.edge_values
    x_gradient := xg
    y_gradient := yg
    qmin := s.qmin
    qmax := s.qmax
    phi := s.phi
    dqa := s.dqa }

/-! ## Concrete inputs for the limiters -/

/-- A neighbours table without any true neighbour. -/
def exNoNeighbours : Nat → Int := fun _ => -1

/-- Neighbours of a two-triangle mesh: the triangles are each other's neighbour on edge 0. -/
def exNeighboursPair : Nat → Int := fun j => [1, -1, -1, 0, -1, -1].getD j (-1)

/-- Vertex coordinates of the two-triangle mesh. -/
def exVertexCoordinates : Nat → ℚ :=
  fun j => [1, 0, -1 / 2, 1, -1 / 2, -1, 3, 0, 3 / 2, 1, 3 / 2, -1].getD j 0

/-- Centroid coordinates of the two-triangle mesh: `(0, 0)` and `(2, 0)`. -/
def exCentroidsPair : Nat → ℚ := fun j => [0, 0, 2, 0].getD j 0

/-- Gradient buffer `a` with slope 1 on triangle 0. -/
def exSlope : Nat → ℚ := fun k => [1, 0].getD k 0

/-- Vertex and edge buffers holding 0 everywhere. -/
def exVEMem : VEMem := { vertex_values := fun _ => 0, edge_values := fun _ => 0 }

/-! ## Vertex/edge consistency -/

/-- Vertex/edge consistency of triangle `k`: each edge value is half the sum of the two
vertex values at the other local indices, and each vertex value is the sum of the two edge
values at the other local indices minus its own edge value. -/
def consistent (v e : Nat → ℚ) (k : Nat) : Prop :=
  (e (3 * k + 0) = (v (3 * k + 1) + v (3 * k + 2)) / 2 ∧
    e (3 * k + 1) = (v (3 * k + 2) + v (3 * k + 0)) / 2 ∧
    e (3 * k + 2) = (v (3 * k + 0) + v (3 * k + 1)) / 2) ∧
  (v (3 * k + 0) = e (3 * k + 1) + e (3 * k + 2) - e (3 * k + 0) ∧
    v (3 * k + 1) = e (3 * k + 2) + e (3 * k + 0) - e (3 * k + 1) ∧
    v (3 * k + 2) = e (3 * k + 0) + e (3 * k + 1) - e (3 * k + 2))

/-! ## Comparing two runs of a limiter -/

/-- The centroid coordinate of triangle `k` is the mean of its three vertex coordinates. -/
def centroidIsMean (centroids X : Nat → ℚ) (k : Nat) : Prop :=
  centroids (2 * k) = (X (6 * k + 0) + X (6 * k + 2) + X (6 * k + 4)) / 3 ∧
  centroids (2 * k + 1) = (X (6 * k + 1) + X (6 * k + 3) + X (6 * k + 5)) / 3

/-- The mean of the three vertex values and the mean of the three edge values of triangle
`k` are both `qc`. -/
def meanIs (qc : ℚ) (v e : Nat → ℚ) (k : Nat) : Prop :=
  (v (3 * k + 0) + v (3 * k + 1) + v (3 * k + 2)) / 3 = qc ∧
  (e (3 * k + 0) + e (3 * k + 1) + e (3 * k + 2)) / 3 = qc

/-- Counts of a mesh whose second node has no triangle. -/
def exStalledCounts : Nat → Int := fun m => [1, 0, 2].getD m 0

/-! ## Double-precision execution

The arithmetic of a C `double` and, statement by statement, the same loop bodies as above
run on it. -/

/-- A C `double` (IEEE 754 binary64). A finite value carries its exact rational value; the
sign of a zero is dropped, which no statement modelled here can observe (every division is
guarded by a test that its divisor is not zero). -/
inductive Double where
  | fin (q : ℚ) : Double
  | inf (negative : Bool) : Double
  | nan : Double
deriving DecidableEq

/-- Number of binary digits of `n`, by repeated halving; `fuel` bounds the number of
halvings and `bitLength n n` is the length of `n`. -/
def bitLength : Nat → Nat → Nat
  | 0, _ => 0
  | fuel + 1, n => if n = 0 then 0 else bitLength fuel (n / 2) + 1

/-- The integer nearest to `n / d`, a tie going to the even one. -/
def nearestEven (n d : Nat) : Nat :=
  let q := n / d
  let r := n % d
  if 2 * r < d then q else if d < 2 * r then q + 1 else if q % 2 = 0 then q else q + 1

/-- Floor of the binary logarithm of `n / d`, for positive `n` and `d`. -/
def floorLog2 (n d : Nat) : Int :=
  let k : Int := (bitLength n n : Int) - (bitLength d d : Int)
  if 0 ≤ k then (if d * 2 ^ k.toNat ≤ n then k else k - 1)
  else (if d ≤ n * 2 ^ (-k).toNat then k else k - 1)

/-- Rounding of an exact result to binary64 in the default mode (to nearest, ties to even):
the significand has 53 bits, the exponent of the last bit is at least -1074 (subnormals),
and a result that rounds to `2^1024` or more overflows to an infinity. -/
def Double.round (q : ℚ) : Double :=
  if q = 0 then Double.fin 0
  else
    let n := q.num.natAbs
    let d := q.den
    let e : Int := Max.max (floorLog2 n d - 52) (-1074)
    let m := if 0 ≤ e then nearestEven n (d * 2 ^ e.toNat) else nearestEven (n * 2 ^ (-e).toNat) d
    let v : ℚ := if 0 ≤ e then mkRat ((m * 2 ^ e.toNat : Nat) : Int) 1
      else mkRat (m : Int) (2 ^ (-e).toNat)
    if mkRat ((2 ^ 1024 : Nat) : Int) 1 ≤ v then Double.inf (decide (q < 0))
    else if q < 0 then Double.fin (-v)
    else Double.fin v

/-- The double written as the decimal literal `q` in C source or in printed output. -/
def dbl (q : ℚ) : Double := Double.round q

/-- Negation of a double. -/
def Double.neg : Double → Double
  | Double.fin a => Double.fin (-a)
  | Double.inf s => Double.inf (!s)
  | Double.nan => Double.nan

/-- The C operator `+` on doubles: the exact sum, rounded. -/
def Double.add : Double → Double → Double
  | Double.fin a, Double.fin b => Double.round (a + b)
  | Double.fin _, Double.inf s => Double.inf s
  | Double.inf s, Double.fin _ => Double.inf s
  | Double.inf s, Double.inf t => if s = t then Double.inf s else Double.nan
  | _, _ => Double.nan

/-- The C operator `-` on doubles: the exact difference, rounded. -/
def Double.sub (x y : Double) : Double := Double.add x (Double.neg y)

/-- The C operator `*` on doubles: the exact product, rounded; an infinity times zero is a
NaN. -/
def Double.mul : Double → Double → Double
  | Double.fin a, Double.fin b => Double.round (a * b)
  | Double.fin a, Double.inf s => if a = 0 then Double.nan else Double.inf (xor s (decide (a < 0)))
  | Double.inf s, Double.fin b => if b = 0 then Double.nan else Double.inf (xor s (decide (b < 0)))
  | Double.inf s, Double.inf t => Double.inf (xor s t)
  | _, _ => Double.nan

/-- The C operator `<` on doubles: false whenever an operand is a NaN. -/
def Double.lt : Double → Double → Bool
  | Double.fin a, Double.fin b => decide (a < b)
  | Double.fin _, Double.inf s => !s
  | Double.inf s, Double.fin _ => s
  | Double.inf s, Double.inf t => s && !t
  | _, _ => false

/-- The exact value of a finite double (0 for an infinity or a NaN). -/
def Double.value : Double → ℚ
  | Double.fin a => a
  | _ => 0

/-- The C operator `/` on doubles for a divisor other than zero: the exact quotient,
rounded. (A zero divisor is never passed: `fdiv_double` faults first.) -/
def Double.div : Double → Double → Double
  | Double.fin a, Double.fin b => Double.round (a / b)
  | Double.fin _, Double.inf _ => Double.fin 0
  | Double.inf s, Double.fin b => Double.inf (xor s (decide (b < 0)))
  | _, _ => Double.nan

/-- Checked division of doubles, the counterpart of `fdiv`: `none` when the divisor is
zero. -/
def fdiv_double (x y : Double) : Option Double :=
  if y = Double.fin 0 then none else some (Double.div x y)

/-- Modelled from the spec: the helper `min` of the missing header `util_ext.h` run on
doubles; the comparison is false on a NaN, so `min(NaN, y)` is `y`. -/
def min_double (x y : Double) : Double := if Double.lt x y then x else y

/-- Modelled from the spec: the helper `max` of the missing header `util_ext.h` run on
doubles. -/
def max_double (x y : Double) : Double := if Double.lt y x then x else y

/-- The two buffers written by `_extrapolate_from_gradient`, holding doubles. -/
structure DoubleVEMem where
  vertex_values : Nat → Double
  edge_values : Nat → Double

/-- The store `vertex_values[j] = x`. -/
def DoubleVEMem.setVertex (m : DoubleVEMem) (j : Nat) (x : Double) : DoubleVEMem :=
  { m with vertex_values := Function.update m.vertex_values j x }

/-- The store `edge_values[j] = x`. -/
def DoubleVEMem.setEdge (m : DoubleVEMem) (j : Nat) (x : Double) : DoubleVEMem :=
  { m with edge_values := Function.update m.edge_values j x }

/-- Store of a limiter run on doubles: the fields of `LimitState`. -/
structure DoubleLimitState where
  vertex_values : Nat → Double
  edge_values : Nat → Double
  qmin : Double
  qmax : Double
  phi : Double
  dqa : Nat → Double

/-- The store `vertex_values[j] = x`. -/
def DoubleLimitState.setVertex (s : DoubleLimitState) (j : Nat) (x : Double) :
    DoubleLimitState :=
  { s with vertex_values := Function.update s.vertex_values j x }

/-- The store `edge_values[j] = x`. -/
def DoubleLimitState.setEdge (s : DoubleLimitState) (j : Nat) (x : Double) : DoubleLimitState :=
  { s with edge_values := Function.update s.edge_values j x }

/-- The statements of `envelope_body`, run on doubles. -/
def envelope_body_double (centroid_values : Nat → Double) (neighbours : Nat → Int) (k3 i : Nat)
    (s : DoubleLimitState) : Exec DoubleLimitState :=
  let n := neighbours (k3 + i)
  if n ≥ 0 then
    let qn := centroid_values n.toNat
    let s := { s with qmin := min_double s.qmin qn }
    let s := { s with qmax := max_double s.qmax qn }
    some (Ctl.next s)
  else
    some (Ctl.next s)

/-- The statements of `limit_vertices_phi_body`, run on doubles. -/
def limit_vertices_phi_body_double (beta qc : Double) (k3 i : Nat) (s : DoubleLimitState) :
    Exec DoubleLimitState :=
  let r : Double := Double.fin 1
  let dq := Double.sub (s.vertex_values (k3 + i)) qc
  let s := { s with dqa := Function.update s.dqa i dq }
  match (if Double.lt (Double.fin 0) dq then fdiv_double (Double.sub s.qmax qc) dq
      else some r) with
  | none => none
  | some r =>
    match (if Double.lt dq (Double.fin 0) then fdiv_double (Double.sub s.qmin qc) dq
        else some r) with
    | none => none
    | some r =>
      let x := min_double (min_double (Double.mul r beta) (Double.fin 1)) s.phi
      some (Ctl.next { s with phi := x })

/-- The statements of `limit_vertices_by_all_neighbours_body`, run on doubles. -/
def limit_vertices_by_all_neighbours_body_double (beta : Double)
    (centroid_values : Nat → Double) (neighbours : Nat → Int) (k : Nat)
    (s : DoubleLimitState) : Exec DoubleLimitState :=
  let k3 := 3 * k
  let qc := centroid_values k
  let s := { s with qmin := qc }
  let s := { s with qmax := qc }
  andThen (forLoop (envelope_body_double centroid_values neighbours k3) 3 s) fun s =>
  let s := { s with phi := Double.fin 1 }
  andThen (forLoop (limit_vertices_phi_body_double beta qc k3) 3 s) fun s =>
  let s := s.setVertex (k3 + 0) (Double.add qc (Double.mul s.phi (s.dqa 0)))
  let s := s.setVertex (k3 + 1) (Double.add qc (Double.mul s.phi (s.dqa 1)))
  let s := s.setVertex (k3 + 2) (Double.add qc (Double.mul s.phi (s.dqa 2)))
  let s := s.setEdge (k3 + 0)
    (Double.mul (Double.fin 0.5) (Double.add (s.vertex_values (k3 + 1)) (s.vertex_values (k3 + 2))))
  let s := s.setEdge (k3 + 1)
    (Double.mul (Double.fin 0.5) (Double.add (s.vertex_values (k3 + 2)) (s.vertex_values (k3 + 0))))
  let s := s.setEdge (k3 + 2)
    (Double.mul (Double.fin 0.5) (Double.add (s.vertex_values (k3 + 0)) (s.vertex_values (k3 + 1))))
  some (Ctl.next s)

/-- The C function `_limit_vertices_by_all_neighbours`, run on doubles. -/
def _limit_vertices_by_all_neighbours_double (N : Nat) (beta : Double)
    (centroid_values : Nat → Double) (neighbours : Nat → Int) (s : DoubleLimitState) :
    Exec DoubleLimitState :=
  andThen (forLoop (limit_vertices_by_all_neighbours_body_double beta centroid_values
    neighbours) N s) fun s =>
  some (Ctl.ret 0 s)

/-- The statements of `limit_edges_phi_body`, run on doubles. -/
def limit_edges_phi_body_double (beta qc : Double) (k3 i : Nat) (s : DoubleLimitState) :
    Exec DoubleLimitState :=
  let r : Double := Double.fin 1
  let dq := Double.sub (s.edge_values (k3 + i)) qc
  let s := { s with dqa := Function.update s.dqa i dq }
  match (if Double.lt (Double.fin 0) dq then fdiv_double (Double.sub s.qmax qc) dq
      else some r) with
  | none => none
  | some r =>
    match (if Double.lt dq (Double.fin 0) then fdiv_double (Double.sub s.qmin qc) dq
        else some r) with
    | none => none
    | some r =>
      let x := min_double (min_double (Double.mul r beta) (Double.fin 1)) s.phi
      some (Ctl.next { s with phi := x })

/-- The statements of `limit_edges_by_all_neighbours_body`, run on doubles. -/
def limit_edges_by_all_neighbours_body_double (beta : Double)
    (centroid_values : Nat → Double) (neighbours : Nat → Int) (k : Nat)
    (s : DoubleLimitState) : Exec DoubleLimitState :=
  let k3 := 3 * k
  let qc := centroid_values k
  let s := { s with qmin := qc }
  let s := { s with qmax := qc }
  andThen (forLoop (envelope_body_double centroid_values neighbours k3) 3 s) fun s =>
  let s := { s with phi := Double.fin 1 }
  andThen (forLoop (limit_edges_phi_body_double beta qc k3) 3 s) fun s =>
  let s := s.setEdge (k3 + 0) (Double.add qc (Double.mul s.phi (s.dqa 0)))
  let s := s.setEdge (k3 + 1) (Double.add qc (Double.mul s.phi (s.dqa 1)))
  let s := s.setEdge (k3 + 2) (Double.add qc (Double.mul s.phi (s.dqa 2)))
  let s := s.setVertex (k3 + 0)
    (Double.sub (Double.add (s.edge_values (k3 + 1)) (s.edge_values (k3 + 2)))
      (s.edge_values (k3 + 0)))
  let s := s.setVertex (k3 + 1)
    (Double.sub (Double.add (s.edge_values (k3 + 2)) (s.edge_values (k3 + 0)))
      (s.edge_values (k3 + 1)))
  let s := s.setVertex (k3 + 2)
    (Double.sub (Double.add (s.edge_values (k3 + 0)) (s.edge_values (k3 + 1)))
      (s.edge_values (k3 + 2)))
  some (Ctl.next s)

/-- The C function `_limit_edges_by_all_neighbours`, run on doubles. -/
def _limit_edges_by_all_neighbours_double (N : Nat) (beta : Double)
    (centroid_values : Nat → Double) (neighbours : Nat → Int) (s : DoubleLimitState) :
    Exec DoubleLimitState :=
  andThen (forLoop (limit_edges_by_all_neighbours_body_double beta centroid_values
    neighbours) N s) fun s =>
  some (Ctl.ret 0 s)

/-- The statements of `limit_edges_by_neighbour_phi_body`, run on doubles. -/
def limit_edges_by_neighbour_phi_body_double (beta qc : Double)
    (centroid_values : Nat → Double) (neighbours : Nat → Int) (k3 i : Nat)
    (s : DoubleLimitState) : Exec DoubleLimitState :=
  let dq := Double.sub (s.edge_values (k3 + i)) qc
  let s := { s with dqa := Function.update s.dqa i dq }
  let n := neighbours (k3 + i)
  if n ≥ 0 then
    let qn := centroid_values n.toNat
    let s := { s with qmin := min_double qc qn }
    let s := { s with qmax := max_double qc qn }
    let r : Double := Double.fin 1
    match (if Double.lt (Double.fin 0) dq then fdiv_double (Double.sub s.qmax qc) dq
        else some r) with
    | none => none
    | some r =>
      match (if Double.lt dq (Double.fin 0) then fdiv_double (Double.sub s.qmin qc) dq
          else some r) with
      | none => none
      | some r =>
        let x := min_double (min_double (Double.mul r beta) (Double.fin 1)) s.phi
        some (Ctl.next { s with phi := x })
  else
    some (Ctl.next s)

/-- The statements of `limit_edges_by_neighbour_body`, run on doubles. -/
def limit_edges_by_neighbour_body_double (beta : Double) (centroid_values : Nat → Double)
    (neighbours : Nat → Int) (k : Nat) (s : DoubleLimitState) : Exec DoubleLimitState :=
  let k3 := 3 * k
  let qc := centroid_values k
  let s := { s with phi := Double.fin 1 }
  andThen (forLoop (limit_edges_by_neighbour_phi_body_double beta qc centroid_values
    neighbours k3) 3 s) fun s =>
  let s := s.setEdge (k3 + 0) (Double.add qc (Double.mul s.phi (s.dqa 0)))
  let s := s.setEdge (k3 + 1) (Double.add qc (Double.mul s.phi (s.dqa 1)))
  let s := s.setEdge (k3 + 2) (Double.add qc (Double.mul s.phi (s.dqa 2)))
  let s := s.setVertex (k3 + 0)
    (Double.sub (Double.add (s.edge_values (k3 + 1)) (s.edge_values (k3 + 2)))
      (s.edge_values (k3 + 0)))
  let s := s.setVertex (k3 + 1)
    (Double.sub (Double.add (s.edge_values (k3 + 2)) (s.edge_values (k3 + 0)))
      (s.edge_values (k3 + 1)))
  let s := s.setVertex (k3 + 2)
    (Double.sub (Double.add (s.edge_values (k3 + 0)) (s.edge_values (k3 + 1)))
      (s.edge_values (k3 + 2)))
  some (Ctl.next s)

/-- The C function `_limit_edges_by_neighbour`, run on doubles. -/
def _limit_edges_by_neighbour_double (N : Nat) (beta : Double)
    (centroid_values : Nat → Double) (neighbours : Nat → Int) (s : DoubleLimitState) :
    Exec DoubleLimitState :=
  andThen (forLoop (limit_edges_by_neighbour_body_double beta centroid_values neighbours) N s)
    fun s =>
  some (Ctl.ret 0 s)

/-- The statements of `extrapolate_from_gradient_body`, run on doubles; the C expression
`c + a*(xv - x) + b*(yv - y)` is the sum `(c + a*(xv - x)) + b*(yv - y)`. -/
def extrapolate_from_gradient_body_double
    (centroids centroid_values vertex_coordinates a b : Nat → Double) (k : Nat)
    (m : DoubleVEMem) : Exec DoubleVEMem :=
  let k6 := 6 * k
  let k3 := 3 * k
  let k2 := 2 * k
  let x := centroids k2
  let y := centroids (k2 + 1)
  let x0 := vertex_coordinates (k6 + 0)
  let y0 := vertex_coordinates (k6 + 1)
  let x1 := vertex_coordinates (k6 + 2)
  let y1 := vertex_coordinates (k6 + 3)
  let x2 := vertex_coordinates (k6 + 4)
  let y2 := vertex_coordinates (k6 + 5)
  let m := m.setVertex (k3 + 0)
    (Double.add (Double.add (centroid_values k) (Double.mul (a k) (Double.sub x0 x)))
      (Double.mul (b k) (Double.sub y0 y)))
  let m := m.setVertex (k3 + 1)
    (Double.add (Double.add (centroid_values k) (Double.mul (a k) (Double.sub x1 x)))
      (Double.mul (b k) (Double.sub y1 y)))
  let m := m.setVertex (k3 + 2)
    (Double.add (Double.add (centroid_values k) (Double.mul (a k) (Double.sub x2 x)))
      (Double.mul (b k) (Double.sub y2 y)))
  let m := m.setEdge (k3 + 0)
    (Double.mul (Double.fin 0.5) (Double.add (m.vertex_values (k3 + 1)) (m.vertex_values (k3 + 2))))
  let m := m.setEdge (k3 + 1)
    (Double.mul (Double.fin 0.5) (Double.add (m.vertex_values (k3 + 2)) (m.vertex_values (k3 + 0))))
  let m := m.setEdge (k3 + 2)
    (Double.mul (Double.fin 0.5) (Double.add (m.vertex_values (k3 + 0)) (m.vertex_values (k3 + 1))))
  some (Ctl.next m)

/-- The C function `_extrapolate_from_gradient`, run on doubles. -/
def _extrapolate_from_gradient_double (N : Nat)
    (centroids centroid_values vertex_coordinates a b : Nat → Double) (m : DoubleVEMem) :
    Exec DoubleVEMem :=
  andThen (forLoop (extrapolate_from_gradient_body_double centroids centroid_values
    vertex_coordinates a b) N m) fun m =>
  some (Ctl.ret 0 m)

/-- Whether a run ended in `return code` with a store that passes the test `p`. -/
def returnsWith {σ : Type} (r : Exec σ) (code : Int) (p : σ → Bool) : Bool :=
  match r with
  | some (Ctl.ret c s) => decide (c = code) && p s
  | _ => false

/-- A buffer of doubles given by the decimal literals of its first entries, 0 elsewhere. -/
def doubles (l : List ℚ) : Nat → Double := fun j => (l.map dbl).getD j (Double.fin 0)

/-- A limiter store on doubles with the given vertex and edge buffers. -/
def doubleLimitStore (v e : List ℚ) : DoubleLimitState :=
  { vertex_values := doubles v
    edge_values := doubles e
    qmin := Double.fin 0
    qmax := Double.fin 0
    phi := Double.fin 0
    dqa := fun _ => Double.fin 0 }

/-- Centroid values `1.76, -0.06, -0.3` of the three-triangle mesh. -/
def exRoundingCentroids : Nat → Double := doubles [1.76, -0.06, -0.3]

/-- A limiter store on the three-triangle mesh whose vertex buffer and edge buffer both hold
`0.231, 1.72, -0.3` for triangle 0 and the centroid value for the two other triangles. -/
def exRoundingStore : DoubleLimitState :=
  doubleLimitStore [0.231, 1.72, -0.3, -0.06, -0.06, -0.06, -0.3, -0.3, -0.3]
    [0.231, 1.72, -0.3, -0.06, -0.06, -0.06, -0.3, -0.3, -0.3]

/-- Centroid values `0.745, 1.801, 1.257` of the three-triangle mesh. -/
def exRoundingCentroidsUp : Nat → Double := doubles [0.745, 1.801, 1.257]

/-- A limiter store on the three-triangle mesh with the edge values `0.745, 1.801, 1.801`
for triangle 0 and the centroid value for the two other triangles. -/
def exRoundingStoreUp : DoubleLimitState :=
  doubleLimitStore [] [0.745, 1.801, 1.801, 1.801, 1.801, 1.801, 1.257, 1.257, 1.257]

/-- Centroid values `1.76, -0.3` of the two-triangle mesh. -/
def exRoundingCentroidsPair : Nat → Double := doubles [1.76, -0.3]

/-- A limiter store on the two-triangle mesh: edge 0 of triangle 0 holds the centroid value
`-0.3` of the neighbour across it, every other edge the centroid value of its triangle. -/
def exRoundingStorePair : DoubleLimitState :=
  doubleLimitStore [] [-0.3, 1.76, 1.76, -0.3, -0.3, -0.3]

/-- A limiter store for one triangle with the edge values `0.231, 1.72, -0.3`. -/
def exRoundingStoreOne : DoubleLimitState := doubleLimitStore [] [0.231, 1.72, -0.3]

/-- Centroid values `0, 1e300, -1e300` of the three-triangle mesh. -/
def exOverflowCentroids : Nat → Double := doubles [0, 1e300, -1e300]

/-- A limiter store on the three-triangle mesh whose vertex buffer and edge buffer both hold
`1e-300, -1e-300, 1e-300` for triangle 0 and the centroid value for the two other
triangles. -/
def exOverflowStore : DoubleLimitState :=
  doubleLimitStore [1e-300, -1e-300, 1e-300, 1e300, 1e300, 1e300, -1e300, -1e300, -1e300]
    [1e-300, -1e-300, 1e-300, 1e300, 1e300, 1e300, -1e300, -1e300, -1e300]

/-- The triangle with vertices `(0,0)`, `(3,0)`, `(0,3)`. -/
def exTriangleCoordinates : Nat → Double := doubles [0, 0, 3, 0, 0, 3]

/-- A cleared store for the extrapolator on doubles. -/
def exDoubleVEMem : DoubleVEMem :=
  { vertex_values := fun _ => Double.fin 0, edge_values := fun _ => Double.fin 0 }

/-! ## Double-precision execution: the gradient limiter and closed forms -/

/-- Store of `_limit_gradient_by_neighbour` run on doubles: the fields of
`GradientLimitState`. -/
structure DoubleGradientLimitState where
  vertex_values : Nat → Double
  edge_values : Nat → Double
  x_gradient : Nat → Double
  y_gradient : Nat → Double
  qmin : Double
  qmax : Double
  phi : Double
  dqa : Nat → Double

/-- The store `vertex_values[j] = x`. -/
def DoubleGradientLimitState.setVertex (s : DoubleGradientLimitState) (j : Nat) (x : Double) :
    DoubleGradientLimitState :=
  { s with vertex_values := Function.update s.vertex_values j x }

/-- The store `edge_values[j] = x`. -/
def DoubleGradientLimitState.setEdge (s : DoubleGradientLimitState) (j : Nat) (x : Double) :
    DoubleGradientLimitState :=
  { s with edge_values := Function.update s.edge_values j x }

/-- The statements of `limit_gradient_by_neighbour_phi_body`, run on doubles. -/
def limit_gradient_by_neighbour_phi_body_double (beta qc : Double)
    (centroid_values : Nat → Double) (neighbours : Nat → Int) (k3 i : Nat)
    (s : DoubleGradientLimitState) : Exec DoubleGradientLimitState :=
  let dq := Double.sub (s.edge_values (k3 + i)) qc
  let s := { s with dqa := Function.update s.dqa i dq }
  let n := neighbours (k3 + i)
  if n ≥ 0 then
    let qn := centroid_values n.toNat
    let s := { s with qmin := min_double qc qn }
    let s := { s with qmax := max_double qc qn }
    let r : Double := Double.fin 1
    match (if Double.lt (Double.fin 0) dq then fdiv_double (Double.sub s.qmax qc) dq
        else some r) with
    | none => none
    | some r =>
      match (if Double.lt dq (Double.fin 0) then fdiv_double (Double.sub s.qmin qc) dq
          else some r) with
      | none => none
      | some r =>
        let x := min_double (min_double (Double.mul r beta) (Double.fin 1)) s.phi
        some (Ctl.next { s with phi := x })
  else
    some (Ctl.next s)

/-- The statements of `limit_gradient_by_neighbour_body`, run on doubles. -/
def limit_gradient_by_neighbour_body_double (beta : Double) (centroid_values : Nat → Double)
    (neighbours : Nat → Int) (k : Nat) (s : DoubleGradientLimitState) :
    Exec DoubleGradientLimitState :=
  let k3 := 3 * k
  let qc := centroid_values k
  let s := { s with phi := Double.fin 1 }
  andThen (forLoop (limit_gradient_by_neighbour_phi_body_double beta qc centroid_values
    neighbours k3) 3 s) fun s =>
  let s := s.setEdge (k3 + 0) (Double.add qc (Double.mul s.phi (s.dqa 0)))
  let s := s.setEdge (k3 + 1) (Double.add qc (Double.mul s.phi (s.dqa 1)))
  let s := s.setEdge (k3 + 2) (Double.add qc (Double.mul s.phi (s.dqa 2)))
  let s := s.setVertex (k3 + 0)
    (Double.sub (Double.add (s.edge_values (k3 + 1)) (s.edge_values (k3 + 2)))
      (s.edge_values (k3 + 0)))
  let s := s.setVertex (k3 + 1)
    (Double.sub (Double.add (s.edge_values (k3 + 2)) (s.edge_values (k3 + 0)))
      (s.edge_values (k3 + 1)))
  let s := s.setVertex (k3 + 2)
    (Double.sub (Double.add (s.edge_values (k3 + 0)) (s.edge_values (k3 + 1)))
      (s.edge_values (k3 + 2)))
  some (Ctl.next s)

/-- The C function `_limit_gradient_by_neighbour`, run on doubles. -/
def _limit_gradient_by_neighbour_double (N : Nat) (beta : Double)
    (centroid_values : Nat → Double) (neighbours : Nat → Int) (s : DoubleGradientLimitState) :
    Exec DoubleGradientLimitState :=
  andThen (forLoop (limit_gradient_by_neighbour_body_double beta centroid_values neighbours)
    N s) fun s =>
  some (Ctl.ret 0 s)

/-- On doubles: the edge values of triangle `k` are the half-sums `0.5*(v_j + v_l)` of its
vertex values, each as the two C operations compute it. -/
def edgesHalfSums (v e : Nat → Double) (k : Nat) : Prop :=
  e (3 * k + 0) = Double.mul (Double.fin 0.5) (Double.add (v (3 * k + 1)) (v (3 * k + 2))) ∧
  e (3 * k + 1) = Double.mul (Double.fin 0.5) (Double.add (v (3 * k + 2)) (v (3 * k + 0))) ∧
  e (3 * k + 2) = Double.mul (Double.fin 0.5) (Double.add (v (3 * k + 0)) (v (3 * k + 1)))

/-- On doubles: the vertex values of triangle `k` are `e_j + e_l - e_i` of its edge values,
each as the two C operations compute it. -/
def verticesFromEdges (v e : Nat → Double) (k : Nat) : Prop :=
  v (3 * k + 0) = Double.sub (Double.add (e (3 * k + 1)) (e (3 * k + 2))) (e (3 * k + 0)) ∧
  v (3 * k + 1) = Double.sub (Double.add (e (3 * k + 2)) (e (3 * k + 0))) (e (3 * k + 1)) ∧
  v (3 * k + 2) = Double.sub (Double.add (e (3 * k + 0)) (e (3 * k + 1))) (e (3 * k + 2))

/-- On doubles: each value `new[3k+i]` of triangle `k` is `qc + phi*(old[3k+i] - qc)` as the
three C operations compute it. -/
def scaledBy_double (phi qc : Double) (old new : Nat → Double) (k : Nat) : Prop :=
  ∀ i, i < 3 → new (3 * k + i) =
    Double.add qc (Double.mul phi (Double.sub (old (3 * k + i)) qc))

/-- One iteration of the envelope loop on the pair `(qmin, qmax)`, on doubles. -/
def envStep_double (c : Nat → Double) (nb : Nat → Int) (k3 i : Nat) (p : Double × Double) :
    Double × Double :=
  if nb (k3 + i) ≥ 0 then
    (min_double p.1 (c (nb (k3 + i)).toNat), max_double p.2 (c (nb (k3 + i)).toNat))
  else p

/-- The pair `(qmin, qmax)` of triangle `k` after the envelope loop, on doubles. -/
def envAll_double (c : Nat → Double) (nb : Nat → Int) (k : Nat) : Double × Double :=
  envStep_double c nb (3 * k) 2
    (envStep_double c nb (3 * k) 1 (envStep_double c nb (3 * k) 0 (c k, c k)))

/-- The ratio `r` of one deviation `dq` after the two guarded assignments, on doubles: 1
when neither `dq > 0.0` nor `dq < 0.0` holds. -/
def ratio_double (lo hi qc dq : Double) : Double :=
  if Double.lt dq (Double.fin 0) then Double.div (Double.sub lo qc) dq
  else if Double.lt (Double.fin 0) dq then Double.div (Double.sub hi qc) dq
  else Double.fin 1

/-- One iteration of the `phi` loop on `phi`, on doubles. -/
def phiStep_double (beta lo hi qc dq phi : Double) : Double :=
  min_double (min_double (Double.mul (ratio_double lo hi qc dq) beta) (Double.fin 1)) phi

/-- The multiplier `phi` of triangle `k` in a `_by_all_neighbours` limiter run on doubles
whose limited buffer is `q` on entry. -/
def phiOf_double (beta : Double) (c : Nat → Double) (nb : Nat → Int) (q : Nat → Double)
    (k : Nat) : Double :=
  phiStep_double beta (envAll_double c nb k).1 (envAll_double c nb k).2 (c k)
    (Double.sub (q (3 * k + 2)) (c k))
    (phiStep_double beta (envAll_double c nb k).1 (envAll_double c nb k).2 (c k)
      (Double.sub (q (3 * k + 1)) (c k))
      (phiStep_double beta (envAll_double c nb k).1 (envAll_double c nb k).2 (c k)
        (Double.sub (q (3 * k + 0)) (c k)) (Double.fin 1)))

/-- One iteration of the `phi` loop of a `_by_neighbour` limiter on `phi`, on doubles. -/
def phiStepNb_double (beta qc : Double) (c : Nat → Double) (nb : Nat → Int) (k3 i : Nat)
    (dq phi : Double) : Double :=
  if nb (k3 + i) ≥ 0 then
    phiStep_double beta (min_double qc (c (nb (k3 + i)).toNat))
      (max_double qc (c (nb (k3 + i)).toNat)) qc dq phi
  else phi

/-- The multiplier `phi` of triangle `k` in a `_by_neighbour` limiter run on doubles whose
edge buffer is `e` on entry. -/
def phiNb_double (beta : Double) (c : Nat → Double) (nb : Nat → Int) (e : Nat → Double)
    (k : Nat) : Double :=
  phiStepNb_double beta (c k) c nb (3 * k) 2 (Double.sub (e (3 * k + 2)) (c k))
    (phiStepNb_double beta (c k) c nb (3 * k) 1 (Double.sub (e (3 * k + 1)) (c k))
      (phiStepNb_double beta (c k) c nb (3 * k) 0 (Double.sub (e (3 * k + 0)) (c k))
        (Double.fin 1)))

/-- Whether a double is finite. -/
def Double.isFinite : Double → Bool
  | Double.fin _ => true
  | _ => false

/-- No overflow when a `_by_all_neighbours` limiter run on doubles processes triangle `k`
with the values `q`: the centroid value `qc` is a finite double, `qc + qc` does not
overflow, and the three deviations `q[3k+i] - qc` and the three ratios `r` computed from them
are finite. -/
def noOverflow (c : Nat → Double) (nb : Nat → Int) (q : Nat → Double) (k : Nat) : Prop :=
  Double.round (c k).value = c k ∧
  (Double.add (c k) (c k)).isFinite = true ∧
  ∀ i, i < 3 →
    (Double.sub (q (3 * k + i)) (c k)).isFinite = true ∧
    (ratio_double (envAll_double c nb k).1 (envAll_double c nb k).2 (c k)
      (Double.sub (q (3 * k + i)) (c k))).isFinite = true

/-- No overflow when a `_by_neighbour` limiter run on doubles processes triangle `k` with
the edge values `e`: the centroid value `qc` is a finite double, `qc + qc` does not
overflow, the three deviations `e[3k+i] - qc` are finite, and so is the ratio `r` of every
edge that has a neighbour. -/
def noOverflowNb (c : Nat → Double) (nb : Nat → Int) (e : Nat → Double) (k : Nat) : Prop :=
  Double.round (c k).value = c k ∧
  (Double.add (c k) (c k)).isFinite = true ∧
  ∀ i, i < 3 →
    (Double.sub (e (3 * k + i)) (c k)).isFinite = true ∧
    (nb (3 * k + i) ≥ 0 →
      (ratio_double (min_double (c k) (c (nb (3 * k + i)).toNat))
        (max_double (c k) (c (nb (3 * k + i)).toNat)) (c k)
        (Double.sub (e (3 * k + i)) (c k))).isFinite = true)

/-! ## Double-precision execution: the time integrator -/

/-- The three buffers of `_update`, holding doubles. -/
structure DoubleUpdateMem where
  centroid_values : Nat → Double
  explicit_update : Nat → Double
  semi_implicit_update : Nat → Double

/-- First loop of `_update` on doubles. -/
def update_normalise_body_double (k : Nat) (m : DoubleUpdateMem) : Exec DoubleUpdateMem :=
  let x := m.centroid_values k
  if x = Double.fin 0 then
    some (Ctl.next { m with
      semi_implicit_update := Function.update m.semi_implicit_update k (Double.fin 0) })
  else
    match fdiv_double (m.semi_implicit_update k) x with
    | none => none
    | some q =>
      some (Ctl.next { m with semi_implicit_update := Function.update m.semi_implicit_update k q })

/-- Second loop of `_update` on doubles. -/
def update_semi_implicit_body_double (timestep : Double) (k : Nat) (m : DoubleUpdateMem) :
    Exec DoubleUpdateMem :=
  let denominator := Double.sub (Double.fin 1) (Double.mul timestep (m.semi_implicit_update k))
  if denominator = Double.fin 0 then
    some (Ctl.ret (-1) m)
  else
    match fdiv_double (m.centroid_values k) denominator with
    | none => none
    | some q =>
      some (Ctl.next { m with centroid_values := Function.update m.centroid_values k q })

/-- Third loop of `_update` on doubles. -/
def update_explicit_body_double (timestep : Double) (k : Nat) (m : DoubleUpdateMem) :
    Exec DoubleUpdateMem :=
  let q := Double.add (m.centroid_values k) (Double.mul timestep (m.explicit_update k))
  some (Ctl.next { m with centroid_values := Function.update m.centroid_values k q })

/-- Fourth loop of `_update` on doubles. -/
def update_reset_body_double (k : Nat) (m : DoubleUpdateMem) : Exec DoubleUpdateMem :=
  some (Ctl.next { m with
    semi_implicit_update := Function.update m.semi_implicit_update k (Double.fin 0) })

/-- The C function `_update` run on doubles. -/
def _update_double (N : Nat) (timestep : Double) (m : DoubleUpdateMem) : Exec DoubleUpdateMem :=
  andThen (forLoop update_normalise_body_double N m) fun m =>
  andThen (forLoop (update_semi_implicit_body_double timestep) N m) fun m =>
  andThen (forLoop (update_explicit_body_double timestep) N m) fun m =>
  andThen (forLoop update_reset_body_double N m) fun m =>
  some (Ctl.ret 0 m)

/-- One cell with centroid value 3, semi-implicit term 1 and no explicit update. -/
def exDoubleUpdate : DoubleUpdateMem :=
  { centroid_values := doubles [3]
    explicit_update := fun _ => Double.fin 0
    semi_implicit_update := doubles [1] }

/-- A limiter store for one triangle whose vertex buffer and edge buffer both hold
`0, 1e308, 1e308`. -/
def exDoublingStore : DoubleLimitState :=
  doubleLimitStore [0, 1e308, 1e308] [0, 1e308, 1e308]

/-! ## Generic facts about the execution model -/

theorem forLoop_succ {σ : Type} (body : Nat → σ → Exec σ) (n : Nat) (s : σ) :
    forLoop body (n + 1) s = andThen (forLoop body n s) (body n) := rfl

/-- Loop rule for a loop whose iterations all fall through: an invariant indexed by the
number of completed iterations is carried to the end. -/
theorem forLoop_invariant {σ : Type} (body : Nat → σ → Exec σ) (Inv : Nat → σ → Prop)
    (N : Nat) (s : σ) (h0 : Inv 0 s)
    (hstep : ∀ k, k < N → ∀ t, Inv k t → ∃ t', body k t = some (Ctl.next t') ∧ Inv (k + 1) t') :
    ∃ t, forLoop body N s = some (Ctl.next t) ∧ Inv N t := by
  induction N with
  | zero => exact ⟨s, rfl, h0⟩
  | succ n ih =>
    obtain ⟨t, ht, hInv⟩ := ih (fun k hk => hstep k (Nat.lt_succ_of_lt hk))
    obtain ⟨t', hb, hInv'⟩ := hstep n (Nat.lt_succ_self n) t hInv
    exact ⟨t', by rw [forLoop_succ, ht]; exact hb, hInv'⟩

/-- Every buffer index is `3*k + i` for a triangle `k` and a local index `i < 3`. -/
theorem index_split (j : Nat) : ∃ k i, i < 3 ∧ j = 3 * k + i :=
  ⟨j / 3, j % 3, Nat.mod_lt j (by decide), (Nat.div_add_mod j 3).symm⟩

/-! ## Interpolators: closed forms -/

theorem vertices_to_edges_loop (n : Nat) (m : VEMem) :
    ∃ t, forLoop interpolate_from_vertices_to_edges_body n m = some (Ctl.next t) ∧
      t.vertex_values = m.vertex_values ∧
      ∀ k i, i < 3 → t.edge_values (3 * k + i) =
        if k < n then edgeOfVertices m.vertex_values k i else m.edge_values (3 * k + i) := by
  refine forLoop_invariant interpolate_from_vertices_to_edges_body
    (fun n t => t.vertex_values = m.vertex_values ∧
      ∀ k i, i < 3 → t.edge_values (3 * k + i) =
        if k < n then edgeOfVertices m.vertex_values k i else m.edge_values (3 * k + i))
    n m ⟨rfl, fun k i _ => by simp⟩ ?_
  intro k _ t ht
  obtain ⟨hv, he⟩ := ht
  refine ⟨_, rfl, hv, ?_⟩
  intro k1 i hi
  have h0 := he k1 i hi
  rcases Nat.lt_trichotomy k1 k with hlt | heq | hgt
  · have e0 : 3 * k1 + i ≠ 3 * k + 0 := by omega
    have e1 : 3 * k1 + i ≠ 3 * k + 1 := by omega
    have e2 : 3 * k1 + i ≠ 3 * k + 2 := by omega
    simp only [Function.update_noteq e0, Function.update_noteq e1, Function.update_noteq e2, h0,
      if_pos hlt, if_pos (Nat.lt_succ_of_lt hlt)]
  · subst heq
    rw [if_pos (Nat.lt_succ_self k1), hv]
    interval_cases i <;> simp [edgeOfVertices, Function.update_apply]
  · have e0 : 3 * k1 + i ≠ 3 * k + 0 := by omega
    have e1 : 3 * k1 + i ≠ 3 * k + 1 := by omega
    have e2 : 3 * k1 + i ≠ 3 * k + 2 := by omega
    have n1 : ¬ k1 < k := by omega
    have n2 : ¬ k1 < k + 1 := by omega
    simp only [Function.update_noteq e0, Function.update_noteq e1, Function.update_noteq e2, h0,
      if_neg n1, if_neg n2]

theorem edges_to_vertices_loop (n : Nat) (m : VEMem) :
    ∃ t, forLoop interpolate_from_edges_to_vertices_body n m = some (Ctl.next t) ∧
      t.edge_values = m.edge_values ∧
      ∀ k i, i < 3 → t.vertex_values (3 * k + i) =
        if k < n then vertexOfEdges m.edge_values k i else m.vertex_values (3 * k + i) := by
  refine forLoop_invariant interpolate_from_edges_to_vertices_body
    (fun n t => t.edge_values = m.edge_values ∧
      ∀ k i, i < 3 → t.vertex_values (3 * k + i) =
        if k < n then vertexOfEdges m.edge_values k i else m.vertex_values (3 * k + i))
    n m ⟨rfl, fun k i _ => by simp⟩ ?_
  intro k _ t ht
  obtain ⟨he, hv⟩ := ht
  refine ⟨_, rfl, he, ?_⟩
  intro k1 i hi
  have h0 := hv k1 i hi
  rcases Nat.lt_trichotomy k1 k with hlt | heq | hgt
  · have e0 : 3 * k1 + i ≠ 3 * k + 0 := by omega
    have e1 : 3 * k1 + i ≠ 3 * k + 1 := by omega
    have e2 : 3 * k1 + i ≠ 3 * k + 2 := by omega
    simp only [Function.update_noteq e0, Function.update_noteq e1, Function.update_noteq e2, h0,
      if_pos hlt, if_pos (Nat.lt_succ_of_lt hlt)]
  · subst heq
    rw [if_pos (Nat.lt_succ_self k1), he]
    interval_cases i <;> simp [vertexOfEdges, Function.update_apply]
  · have e0 : 3 * k1 + i ≠ 3 * k + 0 := by omega
    have e1 : 3 * k1 + i ≠ 3 * k + 1 := by omega
    have e2 : 3 * k1 + i ≠ 3 * k + 2 := by omega
    have n1 : ¬ k1 < k := by omega
    have n2 : ¬ k1 < k + 1 := by omega
    simp only [Function.update_noteq e0, Function.update_noteq e1, Function.update_noteq e2, h0,
      if_neg n1, if_neg n2]

theorem interpolate_from_vertices_to_edges_spec (N : Nat) (m : VEMem) :
    ∃ t, _interpolate_from_vertices_to_edges N m = some (Ctl.ret 0 t) ∧
      t.vertex_values = m.vertex_values ∧
      ∀ k i, i < 3 → t.edge_values (3 * k + i) =
        if k < N then edgeOfVertices m.vertex_values k i else m.edge_values (3 * k + i) := by
  obtain ⟨t, ht, h⟩ := vertices_to_edges_loop N m
  exact ⟨t, by simp [_interpolate_from_vertices_to_edges, ht, andThen], h⟩

theorem interpolate_from_edges_to_vertices_spec (N : Nat) (m : VEMem) :
    ∃ t, _interpolate_from_edges_to_vertices N m = some (Ctl.ret 0 t) ∧
      t.edge_values = m.edge_values ∧
      ∀ k i, i < 3 → t.vertex_values (3 * k + i) =
        if k < N then vertexOfEdges m.edge_values k i else m.vertex_values (3 * k + i) := by
  obtain ⟨t, ht, h⟩ := edges_to_vertices_loop N m
  exact ⟨t, by simp [_interpolate_from_edges_to_vertices, ht, andThen], h⟩

/-! ## Properties of the interpolators -/

/-- C9: for every `N` and every vertex buffer, `_interpolate_from_vertices_to_edges` returns
0, and `_interpolate_from_edges_to_vertices`, run on the edge values just produced and
handed any vertex buffer `w` to write into, returns 0 and writes back exactly the original
vertex values of every triangle `k < N` (over exact arithmetic); it leaves the entries of
`w` from `3*N` on and the edge values alone. -/
theorem vertices_edges_vertices_roundtrip (N : Nat) (m : VEMem) (w : Nat → ℚ) :
    ∃ m1 m2, _interpolate_from_vertices_to_edges N m = some (Ctl.ret 0 m1) ∧
      _interpolate_from_edges_to_vertices N { m1 with vertex_values := w } =
        some (Ctl.ret 0 m2) ∧
      (∀ j, j < 3 * N → m2.vertex_values j = m.vertex_values j) ∧
      (∀ j, 3 * N ≤ j → m2.vertex_values j = w j) ∧
      m2.edge_values = m1.edge_values := by
  obtain ⟨m1, h1, _, he1⟩ := interpolate_from_vertices_to_edges_spec N m
  obtain ⟨m2, h2, he2, hv2⟩ :=
    interpolate_from_edges_to_vertices_spec N { m1 with vertex_values := w }
  refine ⟨m1, m2, h1, h2, ?_, ?_, he2⟩
  · intro j hj
    obtain ⟨k, i, hi, rfl⟩ := index_split j
    have hk : k < N := by omega
    have a0 := he1 k 0 (by decide)
    have a1 := he1 k 1 (by decide)
    have a2 := he1 k 2 (by decide)
    simp only [if_pos hk, edgeOfVertices] at a0 a1 a2
    rw [hv2 k i hi, if_pos hk]
    interval_cases i <;> simp only [vertexOfEdges, a0, a1, a2] <;> norm_num <;> ring
  · intro j hj
    obtain ⟨k, i, hi, rfl⟩ := index_split j
    have hk : ¬ k < N := by omega
    rw [hv2 k i hi, if_neg hk]

/-- C10: for every `N` and every edge buffer, `_interpolate_from_edges_to_vertices` returns
0, and `_interpolate_from_vertices_to_edges`, run on the vertex values just produced and
handed any edge buffer `w` to write into, returns 0 and writes back exactly the original
edge values of every triangle `k < N` (over exact arithmetic); it leaves the entries of `w`
from `3*N` on and the vertex values alone. -/
theorem edges_vertices_edges_roundtrip (N : Nat) (m : VEMem) (w : Nat → ℚ) :
    ∃ m1 m2, _interpolate_from_edges_to_vertices N m = some (Ctl.ret 0 m1) ∧
      _interpolate_from_vertices_to_edges N { m1 with edge_values := w } =
        some (Ctl.ret 0 m2) ∧
      (∀ j, j < 3 * N → m2.edge_values j = m.edge_values j) ∧
      (∀ j, 3 * N ≤ j → m2.edge_values j = w j) ∧
      m2.vertex_values = m1.vertex_values := by
  obtain ⟨m1, h1, _, hv1⟩ := interpolate_from_edges_to_vertices_spec N m
  obtain ⟨m2, h2, hv2, he2⟩ :=
    interpolate_from_vertices_to_edges_spec N { m1 with edge_values := w }
  refine ⟨m1, m2, h1, h2, ?_, ?_, hv2⟩
  · intro j hj
    obtain ⟨k, i, hi, rfl⟩ := index_split j
    have hk : k < N := by omega
    have a0 := hv1 k 0 (by decide)
    have a1 := hv1 k 1 (by decide)
    have a2 := hv1 k 2 (by decide)
    simp only [if_pos hk, vertexOfEdges] at a0 a1 a2
    rw [he2 k i hi, if_pos hk]
    interval_cases i <;> simp only [edgeOfVertices, a0, a1, a2] <;> norm_num <;> ring
  · intro j hj
    obtain ⟨k, i, hi, rfl⟩ := index_split j
    have hk : ¬ k < N := by omega
    rw [he2 k i hi, if_neg hk]

/-! ## Time integrator: the four loops -/

theorem update_normalise_loop (n : Nat) (m : UpdateMem) :
    forLoop update_normalise_body n m = some (Ctl.next
      { centroid_values := m.centroid_values
        explicit_update := m.explicit_update
        semi_implicit_update := fun k => if k < n then rate m k else m.semi_implicit_update k }) := by
  induction n with
  | zero => simp [forLoop]
  | succ n ih =>
    rw [forLoop_succ, ih]
    by_cases hx : m.centroid_values n = 0
    · simp only [andThen, update_normalise_body, hx, if_true]
      congr 3
      funext k
      rcases Nat.lt_trichotomy k n with h | h | h
      · have : k ≠ n := by omega
        simp [Function.update_noteq this, h, Nat.lt_succ_of_lt h]
      · subst h
        simp [rate, hx]
      · have h1 : k ≠ n := by omega
        have h2 : ¬ k < n := by omega
        have h3 : ¬ k < n + 1 := by omega
        simp [Function.update_noteq h1, h2, h3]
    · simp only [andThen, update_normalise_body, hx, if_false, fdiv]
      congr 3
      funext k
      rcases Nat.lt_trichotomy k n with h | h | h
      · have : k ≠ n := by omega
        simp [Function.update_noteq this, h, Nat.lt_succ_of_lt h]
      · subst h
        simp [rate, hx]
      · have h1 : k ≠ n := by omega
        have h2 : ¬ k < n := by omega
        have h3 : ¬ k < n + 1 := by omega
        simp [Function.update_noteq h1, h2, h3]

theorem update_semi_implicit_loop (timestep : ℚ) (n : Nat) (m : UpdateMem)
    (h : ∀ k, k < n → 1 - timestep * m.semi_implicit_update k ≠ 0) :
    forLoop (update_semi_implicit_body timestep) n m = some (Ctl.next
      { centroid_values := fun k =>
          if k < n then m.centroid_values k / (1 - timestep * m.semi_implicit_update k)
          else m.centroid_values k
        explicit_update := m.explicit_update
        semi_implicit_update := m.semi_implicit_update }) := by
  induction n with
  | zero => simp [forLoop]
  | succ n ih =>
    rw [forLoop_succ, ih (fun k hk => h k (Nat.lt_succ_of_lt hk))]
    have hn := h n (Nat.lt_succ_self n)
    simp only [andThen, update_semi_implicit_body, hn, if_false, fdiv]
    congr 3
    funext k
    rcases Nat.lt_trichotomy k n with h | h | h
    · have : k ≠ n := by omega
      simp [Function.update_noteq this, h, Nat.lt_succ_of_lt h]
    · subst h
      simp
    · have h1 : k ≠ n := by omega
      have h2 : ¬ k < n := by omega
      have h3 : ¬ k < n + 1 := by omega
      simp [Function.update_noteq h1, h2, h3]

theorem update_semi_implicit_loop_fails (timestep : ℚ) (n j : Nat) (m : UpdateMem)
    (hj : j < n) (h0 : 1 - timestep * m.semi_implicit_update j = 0)
    (h : ∀ k, k < j → 1 - timestep * m.semi_implicit_update k ≠ 0) :
    forLoop (update_semi_implicit_body timestep) n m = some (Ctl.ret (-1)
      { centroid_values := fun k =>
          if k < j then m.centroid_values k / (1 - timestep * m.semi_implicit_update k)
          else m.centroid_values k
        explicit_update := m.explicit_update
        semi_implicit_update := m.semi_implicit_update }) := by
  induction n with
  | zero => omega
  | succ n ih =>
    rw [forLoop_succ]
    rcases Nat.lt_or_ge j n with hlt | hge
    · rw [ih hlt]
      rfl
    · have hjn : j = n := by omega
      subst hjn
      rw [update_semi_implicit_loop timestep j m h]
      simp [andThen, update_semi_implicit_body, h0]

theorem update_explicit_loop (timestep : ℚ) (n : Nat) (m : UpdateMem) :
    forLoop (update_explicit_body timestep) n m = some (Ctl.next
      { centroid_values := fun k =>
          if k < n then m.centroid_values k + timestep * m.explicit_update k
          else m.centroid_values k
        explicit_update := m.explicit_update
        semi_implicit_update := m.semi_implicit_update }) := by
  induction n with
  | zero => simp [forLoop]
  | succ n ih =>
    rw [forLoop_succ, ih]
    simp only [andThen, update_explicit_body]
    congr 3
    funext k
    rcases Nat.lt_trichotomy k n with h | h | h
    · have : k ≠ n := by omega
      simp [Function.update_noteq this, h, Nat.lt_succ_of_lt h]
    · subst h
      simp
    · have h1 : k ≠ n := by omega
      have h2 : ¬ k < n := by omega
      have h3 : ¬ k < n + 1 := by omega
      simp [Function.update_noteq h1, h2, h3]

theorem update_reset_loop (n : Nat) (m : UpdateMem) :
    forLoop update_reset_body n m = some (Ctl.next
      { centroid_values := m.centroid_values
        explicit_update := m.explicit_update
        semi_implicit_update := fun k => if k < n then 0 else m.semi_implicit_update k }) := by
  induction n with
  | zero => simp [forLoop]
  | succ n ih =>
    rw [forLoop_succ, ih]
    simp only [andThen, update_reset_body]
    congr 3
    funext k
    rcases Nat.lt_trichotomy k n with h | h | h
    · have : k ≠ n := by omega
      simp [Function.update_noteq this, h, Nat.lt_succ_of_lt h]
    · subst h
      simp
    · have h1 : k ≠ n := by omega
      have h2 : ¬ k < n := by omega
      have h3 : ¬ k < n + 1 := by omega
      simp [Function.update_noteq h1, h2, h3]

/-! ## Time integrator: the whole function -/

/-- A bounded search has a first hit. -/
theorem exists_first (N : Nat) (P : Nat → Prop) (h : ∃ k, k < N ∧ P k) :
    ∃ j, j < N ∧ P j ∧ ∀ k, k < j → ¬ P k := by
  classical
  refine ⟨Nat.find h, (Nat.find_spec h).1, (Nat.find_spec h).2, ?_⟩
  intro k hk hP
  exact Nat.find_min h hk ⟨Nat.lt_trans hk (Nat.find_spec h).1, hP⟩

/-- When no denominator vanishes, `_update` runs its four loops and returns 0. -/
theorem update_success (N : Nat) (timestep : ℚ) (m : UpdateMem)
    (h : ∀ k, k < N → denom timestep m k ≠ 0) :
    _update N timestep m = some (Ctl.ret 0 (updateStepped N timestep m)) := by
  unfold _update updateStepped
  rw [update_normalise_loop]
  simp only [andThen]
  rw [update_semi_implicit_loop]
  · simp only [andThen]
    rw [update_explicit_loop]
    simp only [andThen]
    rw [update_reset_loop]
    simp only [andThen]
    congr 3
    · funext k
      by_cases hk : k < N <;> simp [hk, denom]
    · funext k
      by_cases hk : k < N <;> simp [hk]
  · intro k hk
    simpa [hk, denom] using h k hk

/-- When cell `j` is the first one with a vanishing denominator, `_update` returns -1
from inside its second loop. -/
theorem update_failure (N : Nat) (timestep : ℚ) (m : UpdateMem) (j : Nat) (hj : j < N)
    (h0 : denom timestep m j = 0) (h : ∀ k, k < j → denom timestep m k ≠ 0) :
    _update N timestep m = some (Ctl.ret (-1) (updateAborted N timestep m j)) := by
  unfold _update updateAborted
  rw [update_normalise_loop]
  simp only [andThen]
  rw [update_semi_implicit_loop_fails timestep N j _ hj]
  · simp only [andThen]
    congr 3
    funext k
    by_cases hk : k < j
    · have : k < N := Nat.lt_trans hk hj
      simp [hk, this, denom]
    · simp [hk]
  · simpa [hj, denom] using h0
  · intro k hk
    have : k < N := Nat.lt_trans hk hj
    simpa [this, denom] using h k hk

/-- The call always ends in a `return`, with code 0 or -1: no division by zero is ever
executed. -/
theorem update_total (N : Nat) (timestep : ℚ) (m : UpdateMem) :
    ∃ code m', _update N timestep m = some (Ctl.ret code m') ∧ (code = 0 ∨ code = -1) := by
  by_cases h : ∃ k, k < N ∧ denom timestep m k = 0
  · obtain ⟨j, hj, h0, hlt⟩ := exists_first N _ h
    exact ⟨-1, _, update_failure N timestep m j hj h0 hlt, Or.inr rfl⟩
  · have h' : ∀ k, k < N → denom timestep m k ≠ 0 := fun k hk hz => h ⟨k, hk, hz⟩
    exact ⟨0, _, update_success N timestep m h', Or.inl rfl⟩

/-- The two ways `_update` can end. -/
theorem update_cases (N : Nat) (timestep : ℚ) (m : UpdateMem) :
    ((∀ k, k < N → denom timestep m k ≠ 0) ∧
      _update N timestep m = some (Ctl.ret 0 (updateStepped N timestep m))) ∨
    (∃ j, j < N ∧ denom timestep m j = 0 ∧ (∀ k, k < j → denom timestep m k ≠ 0) ∧
      _update N timestep m = some (Ctl.ret (-1) (updateAborted N timestep m j))) := by
  by_cases h : ∃ k, k < N ∧ denom timestep m k = 0
  · obtain ⟨j, hj, h0, hlt⟩ := exists_first N _ h
    exact Or.inr ⟨j, hj, h0, hlt, update_failure N timestep m j hj h0 hlt⟩
  · have h' : ∀ k, k < N → denom timestep m k ≠ 0 := fun k hk hz => h ⟨k, hk, hz⟩
    exact Or.inl ⟨h', update_success N timestep m h'⟩

/-- A zero-mass cell has rate 0 and denominator 1. -/
theorem denom_of_zero_mass (timestep : ℚ) (m : UpdateMem) (k : Nat)
    (hz : m.centroid_values k = 0) : denom timestep m k = 1 := by
  simp [denom, rate, hz]

/-! ## Properties of the time integrator -/

/-- C4: with `h[k] = 0` if `c[k] = 0` and `s[k]/c[k]` otherwise, if `1 - dt*h[k]` is
non-zero for every `k < N` then `_update` returns 0, the new `centroid_values[k]` is
`c[k]/(1 - dt*h[k]) + dt*e[k]` for every `k < N` and `explicit_update` is unchanged; in
particular, when `s` is all zero and `e[k] = const` for all `k`, `_update` returns 0 and the
new `centroid_values[k]` is `c[k] + dt*const`. -/
theorem update_step_values (N : Nat) (timestep : ℚ) (m : UpdateMem) :
    ((∀ k, k < N → denom timestep m k ≠ 0) →
      ∃ m', _update N timestep m = some (Ctl.ret 0 m') ∧
        (∀ k, k < N → m'.centroid_values k =
          m.centroid_values k / denom timestep m k + timestep * m.explicit_update k) ∧
        m'.explicit_update = m.explicit_update) ∧
    (∀ const : ℚ, (∀ k, k < N → m.semi_implicit_update k = 0) →
      (∀ k, k < N → m.explicit_update k = const) →
      ∃ m', _update N timestep m = some (Ctl.ret 0 m') ∧
        ∀ k, k < N → m'.centroid_values k = m.centroid_values k + timestep * const) := by
  constructor
  · intro h
    refine ⟨_, update_success N timestep m h, ?_, rfl⟩
    intro k hk
    simp [updateStepped, hk]
  · intro const hs he
    have hd : ∀ k, k < N → denom timestep m k = 1 := by
      intro k hk
      simp [denom, rate, hs k hk]
    have h : ∀ k, k < N → denom timestep m k ≠ 0 := by
      intro k hk
      rw [hd k hk]
      exact one_ne_zero
    refine ⟨_, update_success N timestep m h, ?_⟩
    intro k hk
    simp [updateStepped, hk, hd k hk, he k hk]

/-- C5: `_update` returns -1 exactly when some cell `k < N` has the denominator
`1 - timestep*h[k]` equal to 0, and returns 0 exactly when no cell has. -/
theorem update_fails_iff (N : Nat) (timestep : ℚ) (m : UpdateMem) :
    ((∃ m', _update N timestep m = some (Ctl.ret (-1) m')) ↔
      ∃ k, k < N ∧ denom timestep m k = 0) ∧
    ((∃ m', _update N timestep m = some (Ctl.ret 0 m')) ↔
      ¬ ∃ k, k < N ∧ denom timestep m k = 0) := by
  rcases update_cases N timestep m with ⟨h, hr⟩ | ⟨j, hj, h0, _, hr⟩
  · have hno : ¬ ∃ k, k < N ∧ denom timestep m k = 0 := fun ⟨k, hk, hz⟩ => h k hk hz
    refine ⟨⟨?_, fun hex => absurd hex hno⟩, ⟨fun _ => hno, fun _ => ⟨_, hr⟩⟩⟩
    rintro ⟨m', hm'⟩
    rw [hr] at hm'
    simp at hm'
  · have hex : ∃ k, k < N ∧ denom timestep m k = 0 := ⟨j, hj, h0⟩
    refine ⟨⟨fun _ => hex, fun _ => ⟨_, hr⟩⟩, ⟨?_, fun hno => absurd hex hno⟩⟩
    rintro ⟨m', hm'⟩
    rw [hr] at hm'
    simp at hm'

/-- C6 (as amended): whenever `_update` returns -1 there is a first cell `j < N` with a
zero denominator; `explicit_update` is exactly as on entry and no explicit update has been
applied; `centroid_values[k]` holds its entry value for every `k ≥ j` and the entry value
divided by `1 - timestep*h[k]` for every `k < j`; `semi_implicit_update[k]` holds the
normalised rate `h[k]` for every `k < N`. -/
theorem update_failure_state (N : Nat) (timestep : ℚ) (m m' : UpdateMem)
    (hret : _update N timestep m = some (Ctl.ret (-1) m')) :
    ∃ j, j < N ∧ denom timestep m j = 0 ∧ (∀ k, k < j → denom timestep m k ≠ 0) ∧
      m'.explicit_update = m.explicit_update ∧
      (∀ k, j ≤ k → m'.centroid_values k = m.centroid_values k) ∧
      (∀ k, k < j → m'.centroid_values k = m.centroid_values k / denom timestep m k) ∧
      (∀ k, k < N → m'.semi_implicit_update k = rate m k) ∧
      (∀ k, N ≤ k → m'.semi_implicit_update k = m.semi_implicit_update k) := by
  rcases update_cases N timestep m with ⟨_, hr⟩ | ⟨j, hj, h0, hlt, hr⟩
  · rw [hr] at hret
    simp at hret
  · rw [hr] at hret
    simp only [Option.some.injEq, Ctl.ret.injEq, true_and] at hret
    subst hret
    refine ⟨j, hj, h0, hlt, rfl, ?_, ?_, ?_, ?_⟩
    · intro k hk
      have : ¬ k < j := by omega
      simp [updateAborted, this]
    · intro k hk
      simp [updateAborted, hk]
    · intro k hk
      simp [updateAborted, hk]
    · intro k hk
      have : ¬ k < N := by omega
      simp [updateAborted, this]

/-- C7: after every call of `_update` that returns 0, `semi_implicit_update[k] = 0` for
every `k < N`, whatever the entry values were. -/
theorem update_resets_semi_implicit (N : Nat) (timestep : ℚ) (m m' : UpdateMem)
    (hret : _update N timestep m = some (Ctl.ret 0 m')) :
    ∀ k, k < N → m'.semi_implicit_update k = 0 := by
  rcases update_cases N timestep m with ⟨_, hr⟩ | ⟨j, _, _, _, hr⟩
  · rw [hr] at hret
    simp only [Option.some.injEq, Ctl.ret.injEq, true_and] at hret
    subst hret
    intro k hk
    simp [updateStepped, hk]
  · rw [hr] at hret
    simp at hret

/-- C8: for every entry store and every cell `k < N` with `centroid_values[k] = 0`: the
normalising loop takes the branch without a division at cell `k` and the whole call executes no
division by zero (it ends in `return 0` or `return -1`); the denominator of cell `k` is 1, so a
failure comes from another cell; `semi_implicit_update[k]` is 0 after the call on success and
on failure alike; on success the new `centroid_values[k]` is `timestep*explicit_update[k]`. -/
theorem update_zero_mass_cell (N : Nat) (timestep : ℚ) (m : UpdateMem) (k : Nat) (hk : k < N)
    (hz : m.centroid_values k = 0) :
    (∀ t : UpdateMem, t.centroid_values k = 0 → update_normalise_body k t =
      some (Ctl.next { t with semi_implicit_update := Function.update t.semi_implicit_update k 0 })) ∧
    denom timestep m k = 1 ∧
    ∃ code m', _update N timestep m = some (Ctl.ret code m') ∧ (code = 0 ∨ code = -1) ∧
      m'.semi_implicit_update k = 0 ∧
      (code = 0 → m'.centroid_values k = timestep * m.explicit_update k) ∧
      (code = -1 → ∃ j, j < N ∧ j ≠ k ∧ denom timestep m j = 0) := by
  have hd := denom_of_zero_mass timestep m k hz
  refine ⟨fun t ht => by simp [update_normalise_body, ht], hd, ?_⟩
  rcases update_cases N timestep m with ⟨_, hr⟩ | ⟨j, hj, h0, _, hr⟩
  · refine ⟨0, _, hr, Or.inl rfl, by simp [updateStepped, hk], ?_, ?_⟩
    · intro _
      simp [updateStepped, hk, hd, hz]
    · intro h
      exact absurd h (by decide)
  · refine ⟨-1, _, hr, Or.inr rfl, by simp [updateAborted, hk, rate, hz], ?_, ?_⟩
    · intro h
      exact absurd h (by decide)
    · intro _
      refine ⟨j, hj, ?_, h0⟩
      rintro rfl
      rw [hd] at h0
      exact one_ne_zero h0

theorem exUpdateOk_denom : ∀ k, k < 2 → denom 1 exUpdateOk k ≠ 0 := by
  intro k hk
  interval_cases k <;> simp [denom, rate, exUpdateOk]
  norm_num

/-- C4 at concrete stores: cells `(c, e, s) = (1, 3, 1/2), (0, 5, 7)` with `timestep = 1`
step to 5 and 5; cells `c = 1, 2` with `s = 0`, `e = 3` and `timestep = 2` step to 7 and 8. -/
theorem update_step_values_witness :
    (∀ k, k < 2 → denom 1 exUpdateOk k ≠ 0) ∧
    (∃ m', _update 2 1 exUpdateOk = some (Ctl.ret 0 m') ∧
      m'.centroid_values 0 = 5 ∧ m'.centroid_values 1 = 5) ∧
    (∃ m', _update 2 2 exUpdateExplicit = some (Ctl.ret 0 m') ∧
      m'.centroid_values 0 = 7 ∧ m'.centroid_values 1 = 8) := by
  refine ⟨exUpdateOk_denom, ?_, ?_⟩
  · obtain ⟨m', hr, hc, _⟩ := (update_step_values 2 1 exUpdateOk).1 exUpdateOk_denom
    refine ⟨m', hr, ?_, ?_⟩
    · rw [hc 0 (by decide)]
      simp [denom, rate, exUpdateOk]
      norm_num
    · rw [hc 1 (by decide)]
      simp [denom, rate, exUpdateOk]
  · obtain ⟨m', hr, hc⟩ := (update_step_values 2 2 exUpdateExplicit).2 3
      (fun _ _ => rfl) (fun _ _ => rfl)
    refine ⟨m', hr, ?_, ?_⟩
    · rw [hc 0 (by decide)]
      simp [exUpdateExplicit]
      norm_num
    · rw [hc 1 (by decide)]
      simp [exUpdateExplicit]
      norm_num

/-- C6 fails as stated: on the store `c = [1, 2]`, `s = [1/2, 2]` with `timestep = 1` the
call returns -1, yet `centroid_values[0]` has moved from 1 to 2 and
`semi_implicit_update[1]` from 2 to 1. -/
theorem update_failure_not_atomic :
    ∃ m', _update 2 1 exUpdateFail = some (Ctl.ret (-1) m') ∧
      exUpdateFail.centroid_values 0 = 1 ∧ m'.centroid_values 0 = 2 ∧
      exUpdateFail.semi_implicit_update 1 = 2 ∧ m'.semi_implicit_update 1 = 1 := by
  have h0 : denom 1 exUpdateFail 1 = 0 := by
    simp [denom, rate, exUpdateFail]
  have h1 : ∀ k, k < 1 → denom 1 exUpdateFail k ≠ 0 := by
    intro k hk
    interval_cases k
    simp [denom, rate, exUpdateFail]
    norm_num
  refine ⟨updateAborted 2 1 exUpdateFail 1,
    update_failure 2 1 exUpdateFail 1 (by decide) h0 h1, ?_, ?_, ?_, ?_⟩
  · simp [exUpdateFail]
  · simp [updateAborted, denom, rate, exUpdateFail]
    norm_num
  · simp [exUpdateFail]
  · simp [updateAborted, rate, exUpdateFail]

theorem exUpdateFail_aborts :
    _update 2 1 exUpdateFail = some (Ctl.ret (-1) (updateAborted 2 1 exUpdateFail 1)) := by
  have h0 : denom 1 exUpdateFail 1 = 0 := by
    simp [denom, rate, exUpdateFail]
  have h1 : ∀ k, k < 1 → denom 1 exUpdateFail k ≠ 0 := by
    intro k hk
    interval_cases k
    simp [denom, rate, exUpdateFail]
    norm_num
  exact update_failure 2 1 exUpdateFail 1 (by decide) h0 h1

/-- C6 (as amended) at the store `c = [1, 2]`, `s = [1/2, 2]`, `timestep = 1`, where the
call returns -1. -/
theorem update_failure_state_witness :
    _update 2 1 exUpdateFail = some (Ctl.ret (-1) (updateAborted 2 1 exUpdateFail 1)) ∧
    ∃ j, j < 2 ∧ denom 1 exUpdateFail j = 0 ∧ (∀ k, k < j → denom 1 exUpdateFail k ≠ 0) ∧
      (updateAborted 2 1 exUpdateFail 1).explicit_update = exUpdateFail.explicit_update ∧
      (∀ k, j ≤ k →
        (updateAborted 2 1 exUpdateFail 1).centroid_values k = exUpdateFail.centroid_values k) ∧
      (∀ k, k < j → (updateAborted 2 1 exUpdateFail 1).centroid_values k =
        exUpdateFail.centroid_values k / denom 1 exUpdateFail k) ∧
      (∀ k, k < 2 →
        (updateAborted 2 1 exUpdateFail 1).semi_implicit_update k = rate exUpdateFail k) ∧
      (∀ k, 2 ≤ k → (updateAborted 2 1 exUpdateFail 1).semi_implicit_update k =
        exUpdateFail.semi_implicit_update k) :=
  ⟨exUpdateFail_aborts, update_failure_state 2 1 exUpdateFail _ exUpdateFail_aborts⟩

/-- C7 at the store `(c, e, s) = (1, 3, 1/2), (0, 5, 7)` with `timestep = 1`: the call
returns 0 and both entries of `semi_implicit_update` are 0 afterwards. -/
theorem update_resets_semi_implicit_witness :
    _update 2 1 exUpdateOk = some (Ctl.ret 0 (updateStepped 2 1 exUpdateOk)) ∧
    ∀ k, k < 2 → (updateStepped 2 1 exUpdateOk).semi_implicit_update k = 0 :=
  ⟨update_success 2 1 exUpdateOk exUpdateOk_denom,
    update_resets_semi_implicit 2 1 exUpdateOk _ (update_success 2 1 exUpdateOk exUpdateOk_denom)⟩

/-- C8 at the zero-mass cell 1 of the store `(c, e, s) = (1, 3, 1/2), (0, 5, 7)` and at
the zero-mass cell 0 of the store `(c, e, s) = (0, 3, 7), (2, 5, 2)`, with `timestep = 1`. -/
theorem update_zero_mass_cell_witness :
    (exUpdateOk.centroid_values 1 = 0 ∧ denom 1 exUpdateOk 1 = 1 ∧
      ∃ code m', _update 2 1 exUpdateOk = some (Ctl.ret code m') ∧ (code = 0 ∨ code = -1) ∧
        m'.semi_implicit_update 1 = 0 ∧
        (code = 0 → m'.centroid_values 1 = 1 * exUpdateOk.explicit_update 1) ∧
        (code = -1 → ∃ j, j < 2 ∧ j ≠ 1 ∧ denom 1 exUpdateOk j = 0)) ∧
    (exUpdateZeroFail.centroid_values 0 = 0 ∧ denom 1 exUpdateZeroFail 0 = 1 ∧
      ∃ code m', _update 2 1 exUpdateZeroFail = some (Ctl.ret code m') ∧
        (code = 0 ∨ code = -1) ∧ m'.semi_implicit_update 0 = 0 ∧
        (code = 0 → m'.centroid_values 0 = 1 * exUpdateZeroFail.explicit_update 0) ∧
        (code = -1 → ∃ j, j < 2 ∧ j ≠ 0 ∧ denom 1 exUpdateZeroFail j = 0)) :=
  ⟨⟨by simp [exUpdateOk],
      (update_zero_mass_cell 2 1 exUpdateOk 1 (by decide) (by simp [exUpdateOk])).2⟩,
    ⟨by simp [exUpdateZeroFail],
      (update_zero_mass_cell 2 1 exUpdateZeroFail 0 (by decide)
        (by simp [exUpdateZeroFail])).2⟩⟩

/-! ## The helpers `min` and `max` -/

theorem cmin_le_left (x y : ℚ) : min x y ≤ x := by
  unfold min; split_ifs <;> linarith

theorem cmin_le_right (x y : ℚ) : min x y ≤ y := by
  unfold min; split_ifs <;> linarith

theorem cmin_cases (x y : ℚ) : min x y = x ∨ min x y = y := by
  unfold min; split_ifs <;> simp

theorem le_cmin (z x y : ℚ) (hx : z ≤ x) (hy : z ≤ y) : z ≤ min x y := by
  unfold min; split_ifs <;> assumption

theorem le_cmax_left (x y : ℚ) : x ≤ max x y := by
  unfold max; split_ifs <;> linarith

theorem le_cmax_right (x y : ℚ) : y ≤ max x y := by
  unfold max; split_ifs <;> linarith

theorem cmax_cases (x y : ℚ) : max x y = x ∨ max x y = y := by
  unfold max; split_ifs <;> simp

/-! ## The envelope loop -/

theorem envelope_body_eq (c : Nat → ℚ) (nb : Nat → Int) (k3 i : Nat) (s : LimitState) :
    envelope_body c nb k3 i s = some (Ctl.next
      { s with qmin := (envStep c nb k3 i (s.qmin, s.qmax)).1
               qmax := (envStep c nb k3 i (s.qmin, s.qmax)).2 }) := by
  unfold envelope_body envStep
  by_cases h : nb (k3 + i) ≥ 0 <;> simp [h]

theorem envelope_loop_eq (c : Nat → ℚ) (nb : Nat → Int) (k3 : Nat) (s : LimitState) :
    forLoop (envelope_body c nb k3) 3 s = some (Ctl.next
      { s with
        qmin := (envStep c nb k3 2 (envStep c nb k3 1 (envStep c nb k3 0 (s.qmin, s.qmax)))).1
        qmax := (envStep c nb k3 2 (envStep c nb k3 1 (envStep c nb k3 0 (s.qmin, s.qmax)))).2 }) := by
  simp only [forLoop, andThen, envelope_body_eq]

theorem envStep_fst_le (c : Nat → ℚ) (nb : Nat → Int) (k3 i : Nat) (p : ℚ × ℚ) :
    (envStep c nb k3 i p).1 ≤ p.1 := by
  unfold envStep
  split_ifs
  · exact cmin_le_left _ _
  · exact le_refl _

theorem le_envStep_snd (c : Nat → ℚ) (nb : Nat → Int) (k3 i : Nat) (p : ℚ × ℚ) :
    p.2 ≤ (envStep c nb k3 i p).2 := by
  unfold envStep
  split_ifs
  · exact le_cmax_left _ _
  · exact le_refl _

theorem neighbour_mem_envelope (c : Nat → ℚ) (nb : Nat → Int) (k i : Nat) (hi : i < 3)
    (h : nb (3 * k + i) ≥ 0) : c (nb (3 * k + i)).toNat ∈ envelope c nb k :=
  Finset.mem_insert_of_mem
    (Finset.mem_image.2 ⟨i, Finset.mem_filter.2 ⟨Finset.mem_range.2 hi, h⟩, rfl⟩)

theorem envStep_mem (c : Nat → ℚ) (nb : Nat → Int) (k i : Nat) (hi : i < 3) (p : ℚ × ℚ)
    (h1 : p.1 ∈ envelope c nb k) (h2 : p.2 ∈ envelope c nb k) :
    (envStep c nb (3 * k) i p).1 ∈ envelope c nb k ∧
    (envStep c nb (3 * k) i p).2 ∈ envelope c nb k := by
  unfold envStep
  split_ifs with h
  · constructor
    · rcases cmin_cases p.1 (c (nb (3 * k + i)).toNat) with e | e
      · simpa [e] using h1
      · simpa [e] using neighbour_mem_envelope c nb k i hi h
    · rcases cmax_cases p.2 (c (nb (3 * k + i)).toNat) with e | e
      · simpa [e] using h2
      · simpa [e] using neighbour_mem_envelope c nb k i hi h
  · exact ⟨h1, h2⟩

theorem envAll_mem (c : Nat → ℚ) (nb : Nat → Int) (k : Nat) :
    (envAll c nb k).1 ∈ envelope c nb k ∧ (envAll c nb k).2 ∈ envelope c nb k := by
  have h0 : c k ∈ envelope c nb k := Finset.mem_insert_self _ _
  have s0 := envStep_mem c nb k 0 (by decide) (c k, c k) h0 h0
  have s1 := envStep_mem c nb k 1 (by decide) _ s0.1 s0.2
  exact envStep_mem c nb k 2 (by decide) _ s1.1 s1.2

theorem envAll_bracket (c : Nat → ℚ) (nb : Nat → Int) (k : Nat) :
    (envAll c nb k).1 ≤ c k ∧ c k ≤ (envAll c nb k).2 := by
  unfold envAll
  constructor
  · exact le_trans (envStep_fst_le _ _ _ _ _)
      (le_trans (envStep_fst_le _ _ _ _ _) (envStep_fst_le _ _ _ _ _))
  · exact le_trans (le_envStep_snd c nb (3 * k) 0 (c k, c k))
      (le_trans (le_envStep_snd _ _ _ _ _) (le_envStep_snd _ _ _ _ _))

/-! ## The `phi` loop -/

theorem ratio_nonneg (lo hi qc dq : ℚ) (hlo : lo ≤ qc) (hhi : qc ≤ hi) :
    0 ≤ ratio lo hi qc dq := by
  unfold ratio
  split_ifs with h1 h2
  · exact div_nonneg (by linarith) (le_of_lt h1)
  · exact div_nonneg_of_nonpos (by linarith) (le_of_lt h2)
  · exact zero_le_one

theorem phiStep_le_phi (beta lo hi qc dq phi : ℚ) : phiStep beta lo hi qc dq phi ≤ phi :=
  cmin_le_right _ _

theorem phiStep_le_ratio (beta lo hi qc dq phi : ℚ) :
    phiStep beta lo hi qc dq phi ≤ ratio lo hi qc dq * beta :=
  le_trans (cmin_le_left _ _) (cmin_le_left _ _)

theorem phiStep_nonneg (beta lo hi qc dq phi : ℚ) (hlo : lo ≤ qc) (hhi : qc ≤ hi)
    (hb : 0 ≤ beta) (hphi : 0 ≤ phi) : 0 ≤ phiStep beta lo hi qc dq phi :=
  le_cmin _ _ _ (le_cmin _ _ _ (mul_nonneg (ratio_nonneg lo hi qc dq hlo hhi) hb) zero_le_one) hphi

theorem phiAll_nonneg (beta lo hi qc d0 d1 d2 : ℚ) (hlo : lo ≤ qc) (hhi : qc ≤ hi)
    (hb : 0 ≤ beta) : 0 ≤ phiAll beta lo hi qc d0 d1 d2 :=
  phiStep_nonneg _ _ _ _ _ _ hlo hhi hb
    (phiStep_nonneg _ _ _ _ _ _ hlo hhi hb (phiStep_nonneg _ _ _ _ _ _ hlo hhi hb zero_le_one))

theorem phiAll_le_ratio0 (beta lo hi qc d0 d1 d2 : ℚ) :
    phiAll beta lo hi qc d0 d1 d2 ≤ ratio lo hi qc d0 * beta :=
  le_trans (phiStep_le_phi _ _ _ _ _ _)
    (le_trans (phiStep_le_phi _ _ _ _ _ _) (phiStep_le_ratio _ _ _ _ _ _))

theorem phiAll_le_ratio1 (beta lo hi qc d0 d1 d2 : ℚ) :
    phiAll beta lo hi qc d0 d1 d2 ≤ ratio lo hi qc d1 * beta :=
  le_trans (phiStep_le_phi _ _ _ _ _ _) (phiStep_le_ratio _ _ _ _ _ _)

theorem phiAll_le_ratio2 (beta lo hi qc d0 d1 d2 : ℚ) :
    phiAll beta lo hi qc d0 d1 d2 ≤ ratio lo hi qc d2 * beta :=
  phiStep_le_ratio _ _ _ _ _ _

/-- A deviation scaled by a multiplier below its own ratio stays inside `[lo, hi]`. -/
theorem scaled_in_range (lo hi qc dq beta phi : ℚ) (hlo : lo ≤ qc) (hhi : qc ≤ hi)
    (hb1 : beta ≤ 1) (h0 : 0 ≤ phi) (h : phi ≤ ratio lo hi qc dq * beta) :
    lo ≤ qc + phi * dq ∧ qc + phi * dq ≤ hi := by
  have hr : phi ≤ ratio lo hi qc dq := by
    have := mul_le_mul_of_nonneg_left hb1 (ratio_nonneg lo hi qc dq hlo hhi)
    linarith
  unfold ratio at hr
  rcases lt_trichotomy dq 0 with hneg | hzero | hpos
  · have hn : ¬ dq > 0 := not_lt.2 (le_of_lt hneg)
    rw [if_neg hn, if_pos hneg] at hr
    have h1 : (lo - qc) / dq * dq ≤ phi * dq := mul_le_mul_of_nonpos_right hr (le_of_lt hneg)
    rw [div_mul_cancel₀ _ (ne_of_lt hneg)] at h1
    have h2 : phi * dq ≤ 0 := mul_nonpos_of_nonneg_of_nonpos h0 (le_of_lt hneg)
    constructor <;> linarith
  · subst hzero
    simp only [mul_zero, add_zero]
    exact ⟨hlo, hhi⟩
  · rw [if_pos hpos] at hr
    have h1 : phi * dq ≤ (hi - qc) / dq * dq := mul_le_mul_of_nonneg_right hr (le_of_lt hpos)
    rw [div_mul_cancel₀ _ (ne_of_gt hpos)] at h1
    have h2 : 0 ≤ phi * dq := mul_nonneg h0 (le_of_lt hpos)
    constructor <;> linarith

theorem limit_vertices_phi_body_eq (beta qc : ℚ) (k3 i : Nat) (s : LimitState) :
    limit_vertices_phi_body beta qc k3 i s = some (Ctl.next
      { s with dqa := Function.update s.dqa i (s.vertex_values (k3 + i) - qc)
               phi := phiStep beta s.qmin s.qmax qc (s.vertex_values (k3 + i) - qc) s.phi }) := by
  unfold limit_vertices_phi_body phiStep ratio fdiv
  rcases lt_trichotomy (s.vertex_values (k3 + i) - qc) 0 with h | h | h
  · have hn : ¬ s.vertex_values (k3 + i) - qc > 0 := not_lt.2 (le_of_lt h)
    simp [h, hn, ne_of_lt h]
  · simp [h]
  · have hn : ¬ s.vertex_values (k3 + i) - qc < 0 := not_lt.2 (le_of_lt h)
    simp [h, hn, ne_of_gt h]

theorem limit_edges_phi_body_eq (beta qc : ℚ) (k3 i : Nat) (s : LimitState) :
    limit_edges_phi_body beta qc k3 i s = some (Ctl.next
      { s with dqa := Function.update s.dqa i (s.edge_values (k3 + i) - qc)
               phi := phiStep beta s.qmin s.qmax qc (s.edge_values (k3 + i) - qc) s.phi }) := by
  unfold limit_edges_phi_body phiStep ratio fdiv
  rcases lt_trichotomy (s.edge_values (k3 + i) - qc) 0 with h | h | h
  · have hn : ¬ s.edge_values (k3 + i) - qc > 0 := not_lt.2 (le_of_lt h)
    simp [h, hn, ne_of_lt h]
  · simp [h]
  · have hn : ¬ s.edge_values (k3 + i) - qc < 0 := not_lt.2 (le_of_lt h)
    simp [h, hn, ne_of_gt h]

/-! ## Loops that rewrite one triangle per iteration -/

/-- Loop rule for a loop over triangles whose iteration `k` always falls through, writes
the slots `3k..3k+2` of two buffers `V`, `E` of the store from the contents of those same
slots, and leaves every other slot alone: after `N` iterations each triangle `k < N` holds
the new values computed from the entry store, every other triangle its entry values. -/
theorem forLoop_triangles {σ : Type} (V E : σ → Nat → ℚ) (body : Nat → σ → Exec σ)
    (newV newE : (Nat → ℚ) → (Nat → ℚ) → Nat → Nat → ℚ)
    (hbody : ∀ k t, ∃ t', body k t = some (Ctl.next t') ∧
      (∀ i, i < 3 → V t' (3 * k + i) = newV (V t) (E t) k i ∧
        E t' (3 * k + i) = newE (V t) (E t) k i) ∧
      (∀ k1 i, k1 ≠ k → i < 3 → V t' (3 * k1 + i) = V t (3 * k1 + i) ∧
        E t' (3 * k1 + i) = E t (3 * k1 + i)))
    (hloc : ∀ v1 e1 v2 e2 k,
      (∀ i, i < 3 → v1 (3 * k + i) = v2 (3 * k + i) ∧ e1 (3 * k + i) = e2 (3 * k + i)) →
      ∀ i, i < 3 → newV v1 e1 k i = newV v2 e2 k i ∧ newE v1 e1 k i = newE v2 e2 k i)
    (N : Nat) (s : σ) :
    ∃ t, forLoop body N s = some (Ctl.next t) ∧
      ∀ k i, i < 3 →
        V t (3 * k + i) = (if k < N then newV (V s) (E s) k i else V s (3 * k + i)) ∧
        E t (3 * k + i) = (if k < N then newE (V s) (E s) k i else E s (3 * k + i)) := by
  refine forLoop_invariant body
    (fun n t => ∀ k i, i < 3 →
        V t (3 * k + i) = (if k < n then newV (V s) (E s) k i else V s (3 * k + i)) ∧
        E t (3 * k + i) = (if k < n then newE (V s) (E s) k i else E s (3 * k + i)))
    N s (fun k i _ => by simp) ?_
  intro k _ t ht
  obtain ⟨t', hrun, hnew, hframe⟩ := hbody k t
  refine ⟨t', hrun, ?_⟩
  intro k1 i hi
  rcases Nat.lt_trichotomy k1 k with hlt | heq | hgt
  · rw [(hframe k1 i (by omega) hi).1, (hframe k1 i (by omega) hi).2,
      if_pos (Nat.lt_succ_of_lt hlt), if_pos (Nat.lt_succ_of_lt hlt)]
    simpa [hlt] using ht k1 i hi
  · subst heq
    rw [(hnew i hi).1, (hnew i hi).2, if_pos (Nat.lt_succ_self k1), if_pos (Nat.lt_succ_self k1)]
    refine hloc _ _ _ _ k1 (fun i' hi' => ?_) i hi
    simpa using ht k1 i' hi'
  · have n1 : ¬ k1 < k := by omega
    have n2 : ¬ k1 < k + 1 := by omega
    rw [(hframe k1 i (by omega) hi).1, (hframe k1 i (by omega) hi).2, if_neg n2, if_neg n2]
    simpa [n1] using ht k1 i hi

/-! ## The `_by_all_neighbours` limiters, one triangle -/

theorem limit_vertices_triangle (beta : ℚ) (c : Nat → ℚ) (nb : Nat → Int) (k : Nat)
    (t : LimitState) :
    ∃ t', limit_vertices_by_all_neighbours_body beta c nb k t = some (Ctl.next t') ∧
      (∀ i, i < 3 → t'.vertex_values (3 * k + i) = limited beta c nb t.vertex_values k i ∧
        t'.edge_values (3 * k + i) = edgesOfLimited beta c nb t.vertex_values k i) ∧
      (∀ k1 i, k1 ≠ k → i < 3 → t'.vertex_values (3 * k1 + i) = t.vertex_values (3 * k1 + i) ∧
        t'.edge_values (3 * k1 + i) = t.edge_values (3 * k1 + i)) := by
  unfold limit_vertices_by_all_neighbours_body
  simp only [envelope_loop_eq, andThen]
  simp only [forLoop, andThen, limit_vertices_phi_body_eq]
  refine ⟨_, rfl, ?_, ?_⟩
  · intro i hi
    interval_cases i <;>
      simp [Function.update_apply, limited, edgesOfLimited, phiOf, phiAll, envAll]
  · intro k1 i hk hi
    have e0 : 3 * k1 + i ≠ 3 * k + 0 := by omega
    have e1 : 3 * k1 + i ≠ 3 * k + 1 := by omega
    have e2 : 3 * k1 + i ≠ 3 * k + 2 := by omega
    simp only [Function.update_noteq e0, Function.update_noteq e1, Function.update_noteq e2,
      and_self]

theorem limit_edges_triangle (beta : ℚ) (c : Nat → ℚ) (nb : Nat → Int) (k : Nat)
    (t : LimitState) :
    ∃ t', limit_edges_by_all_neighbours_body beta c nb k t = some (Ctl.next t') ∧
      (∀ i, i < 3 → t'.vertex_values (3 * k + i) = verticesOfLimited beta c nb t.edge_values k i ∧
        t'.edge_values (3 * k + i) = limited beta c nb t.edge_values k i) ∧
      (∀ k1 i, k1 ≠ k → i < 3 → t'.vertex_values (3 * k1 + i) = t.vertex_values (3 * k1 + i) ∧
        t'.edge_values (3 * k1 + i) = t.edge_values (3 * k1 + i)) := by
  unfold limit_edges_by_all_neighbours_body
  simp only [envelope_loop_eq, andThen]
  simp only [forLoop, andThen, limit_edges_phi_body_eq]
  refine ⟨_, rfl, ?_, ?_⟩
  · intro i hi
    interval_cases i <;>
      simp [Function.update_apply, limited, verticesOfLimited, phiOf, phiAll, envAll]
  · intro k1 i hk hi
    have e0 : 3 * k1 + i ≠ 3 * k + 0 := by omega
    have e1 : 3 * k1 + i ≠ 3 * k + 1 := by omega
    have e2 : 3 * k1 + i ≠ 3 * k + 2 := by omega
    simp only [Function.update_noteq e0, Function.update_noteq e1, Function.update_noteq e2,
      and_self]

/-! ## The `_by_all_neighbours` limiters, the whole function -/

theorem limited_congr (beta : ℚ) (c : Nat → ℚ) (nb : Nat → Int) (q1 q2 : Nat → ℚ) (k : Nat)
    (h : ∀ i, i < 3 → q1 (3 * k + i) = q2 (3 * k + i)) (i : Nat) (hi : i < 3) :
    limited beta c nb q1 k i = limited beta c nb q2 k i := by
  unfold limited phiOf
  rw [h 0 (by decide), h 1 (by decide), h 2 (by decide), h i hi]

theorem limit_vertices_spec (N : Nat) (beta : ℚ) (c : Nat → ℚ) (nb : Nat → Int)
    (s : LimitState) :
    ∃ t, _limit_vertices_by_all_neighbours N beta c nb s = some (Ctl.ret 0 t) ∧
      ∀ k i, i < 3 →
        t.vertex_values (3 * k + i) =
          (if k < N then limited beta c nb s.vertex_values k i
            else s.vertex_values (3 * k + i)) ∧
        t.edge_values (3 * k + i) =
          (if k < N then edgesOfLimited beta c nb s.vertex_values k i
            else s.edge_values (3 * k + i)) := by
  obtain ⟨t, ht, h⟩ := forLoop_triangles LimitState.vertex_values LimitState.edge_values
    (limit_vertices_by_all_neighbours_body beta c nb)
    (fun v _ k i => limited beta c nb v k i) (fun v _ k i => edgesOfLimited beta c nb v k i)
    (limit_vertices_triangle beta c nb)
    (by
      intro v1 e1 v2 e2 k h i hi
      have hv := limited_congr beta c nb v1 v2 k (fun i hi => (h i hi).1)
      refine ⟨hv i hi, ?_⟩
      interval_cases i <;>
        simp only [edgesOfLimited, hv 0 (by decide), hv 1 (by decide), hv 2 (by decide)])
    N s
  exact ⟨t, by simp [_limit_vertices_by_all_neighbours, ht, andThen], h⟩

theorem limit_edges_spec (N : Nat) (beta : ℚ) (c : Nat → ℚ) (nb : Nat → Int)
    (s : LimitState) :
    ∃ t, _limit_edges_by_all_neighbours N beta c nb s = some (Ctl.ret 0 t) ∧
      ∀ k i, i < 3 →
        t.vertex_values (3 * k + i) =
          (if k < N then verticesOfLimited beta c nb s.edge_values k i
            else s.vertex_values (3 * k + i)) ∧
        t.edge_values (3 * k + i) =
          (if k < N then limited beta c nb s.edge_values k i
            else s.edge_values (3 * k + i)) := by
  obtain ⟨t, ht, h⟩ := forLoop_triangles LimitState.vertex_values LimitState.edge_values
    (limit_edges_by_all_neighbours_body beta c nb)
    (fun _ e k i => verticesOfLimited beta c nb e k i) (fun _ e k i => limited beta c nb e k i)
    (limit_edges_triangle beta c nb)
    (by
      intro v1 e1 v2 e2 k h i hi
      have he := limited_congr beta c nb e1 e2 k (fun i hi => (h i hi).2)
      refine ⟨?_, he i hi⟩
      interval_cases i <;>
        simp only [verticesOfLimited, he 0 (by decide), he 1 (by decide), he 2 (by decide)])
    N s
  exact ⟨t, by simp [_limit_edges_by_all_neighbours, ht, andThen], h⟩

/-- A limited value stays between the `qmin` and `qmax` the code has computed. -/
theorem limited_in_code_range (beta : ℚ) (c : Nat → ℚ) (nb : Nat → Int) (q : Nat → ℚ)
    (k i : Nat) (hb0 : 0 ≤ beta) (hb1 : beta ≤ 1) (hi : i < 3) :
    (envAll c nb k).1 ≤ limited beta c nb q k i ∧ limited beta c nb q k i ≤ (envAll c nb k).2 := by
  obtain ⟨hlo, hhi⟩ := envAll_bracket c nb k
  have h0 := phiAll_nonneg beta _ _ _ (q (3 * k + 0) - c k) (q (3 * k + 1) - c k)
    (q (3 * k + 2) - c k) hlo hhi hb0
  unfold limited phiOf
  interval_cases i
  · exact scaled_in_range _ _ _ _ beta _ hlo hhi hb1 h0 (phiAll_le_ratio0 _ _ _ _ _ _ _)
  · exact scaled_in_range _ _ _ _ beta _ hlo hhi hb1 h0 (phiAll_le_ratio1 _ _ _ _ _ _ _)
  · exact scaled_in_range _ _ _ _ beta _ hlo hhi hb1 h0 (phiAll_le_ratio2 _ _ _ _ _ _ _)

theorem qminOf_le_code (c : Nat → ℚ) (nb : Nat → Int) (k : Nat) :
    qminOf c nb k ≤ (envAll c nb k).1 :=
  Finset.min'_le _ _ (envAll_mem c nb k).1

theorem code_le_qmaxOf (c : Nat → ℚ) (nb : Nat → Int) (k : Nat) :
    (envAll c nb k).2 ≤ qmaxOf c nb k :=
  Finset.le_max' _ _ (envAll_mem c nb k).2

/-- A limited value stays in the envelope `[qmin_k, qmax_k]` of the specification. -/
theorem limited_in_range (beta : ℚ) (c : Nat → ℚ) (nb : Nat → Int) (q : Nat → ℚ)
    (k i : Nat) (hb0 : 0 ≤ beta) (hb1 : beta ≤ 1) (hi : i < 3) :
    qminOf c nb k ≤ limited beta c nb q k i ∧ limited beta c nb q k i ≤ qmaxOf c nb k := by
  obtain ⟨h1, h2⟩ := limited_in_code_range beta c nb q k i hb0 hb1 hi
  exact ⟨le_trans (qminOf_le_code c nb k) h1, le_trans h2 (code_le_qmaxOf c nb k)⟩

theorem edgesOfLimited_in_range (beta : ℚ) (c : Nat → ℚ) (nb : Nat → Int) (q : Nat → ℚ)
    (k i : Nat) (hb0 : 0 ≤ beta) (hb1 : beta ≤ 1) :
    qminOf c nb k ≤ edgesOfLimited beta c nb q k i ∧
      edgesOfLimited beta c nb q k i ≤ qmaxOf c nb k := by
  obtain ⟨a0, b0⟩ := limited_in_range beta c nb q k 0 hb0 hb1 (by decide)
  obtain ⟨a1, b1⟩ := limited_in_range beta c nb q k 1 hb0 hb1 (by decide)
  obtain ⟨a2, b2⟩ := limited_in_range beta c nb q k 2 hb0 hb1 (by decide)
  unfold edgesOfLimited
  split <;> constructor <;> norm_num <;> linarith

theorem verticesOfLimited_in_range (beta : ℚ) (c : Nat → ℚ) (nb : Nat → Int) (q : Nat → ℚ)
    (k i : Nat) (hb0 : 0 ≤ beta) (hb1 : beta ≤ 1) :
    2 * qminOf c nb k - qmaxOf c nb k ≤ verticesOfLimited beta c nb q k i ∧
      verticesOfLimited beta c nb q k i ≤ 2 * qmaxOf c nb k - qminOf c nb k := by
  obtain ⟨a0, b0⟩ := limited_in_range beta c nb q k 0 hb0 hb1 (by decide)
  obtain ⟨a1, b1⟩ := limited_in_range beta c nb q k 1 hb0 hb1 (by decide)
  obtain ⟨a2, b2⟩ := limited_in_range beta c nb q k 2 hb0 hb1 (by decide)
  unfold verticesOfLimited
  split <;> constructor <;> linarith

/-! ## Properties of the `_by_all_neighbours` limiters -/

/-- C1 (as amended): over exact arithmetic, for every `beta` with `0 < beta <= 1`, every
centroid and vertex buffers and every neighbours table whose entries are negative or valid
triangle ids, the call of `_limit_vertices_by_all_neighbours` returns 0 and afterwards each
of the three vertex values and each of the three edge values of every triangle `k < N` lies
in `[qmin_k, qmax_k]`. -/
theorem limit_vertices_by_all_neighbours_in_envelope (N : Nat) (beta : ℚ) (c : Nat → ℚ)
    (nb : Nat → Int) (s : LimitState) (hb0 : 0 < beta) (hb1 : beta ≤ 1)
    (_hnb : ∀ j, j < 3 * N → nb j < 0 ∨ nb j < N) :
    ∃ t, _limit_vertices_by_all_neighbours N beta c nb s = some (Ctl.ret 0 t) ∧
      ∀ k, k < N → ∀ i, i < 3 →
        (qminOf c nb k ≤ t.vertex_values (3 * k + i) ∧
          t.vertex_values (3 * k + i) ≤ qmaxOf c nb k) ∧
        (qminOf c nb k ≤ t.edge_values (3 * k + i) ∧
          t.edge_values (3 * k + i) ≤ qmaxOf c nb k) := by
  obtain ⟨t, ht, h⟩ := limit_vertices_spec N beta c nb s
  refine ⟨t, ht, ?_⟩
  intro k hk i hi
  rw [(h k i hi).1, (h k i hi).2, if_pos hk, if_pos hk]
  exact ⟨limited_in_range beta c nb _ k i (le_of_lt hb0) hb1 hi,
    edgesOfLimited_in_range beta c nb _ k i (le_of_lt hb0) hb1⟩

/-- C2 (as amended): over exact arithmetic, for every `beta` with `0 < beta <= 1` and every
input whose neighbours entries are negative or valid triangle ids, the call of
`_limit_edges_by_all_neighbours` returns 0 and afterwards each of the three edge values of
every triangle `k < N` lies in `[qmin_k, qmax_k]`. -/
theorem limit_edges_by_all_neighbours_in_envelope (N : Nat) (beta : ℚ) (c : Nat → ℚ)
    (nb : Nat → Int) (s : LimitState) (hb0 : 0 < beta) (hb1 : beta ≤ 1)
    (_hnb : ∀ j, j < 3 * N → nb j < 0 ∨ nb j < N) :
    ∃ t, _limit_edges_by_all_neighbours N beta c nb s = some (Ctl.ret 0 t) ∧
      ∀ k, k < N → ∀ i, i < 3 →
        qminOf c nb k ≤ t.edge_values (3 * k + i) ∧
          t.edge_values (3 * k + i) ≤ qmaxOf c nb k := by
  obtain ⟨t, ht, h⟩ := limit_edges_spec N beta c nb s
  refine ⟨t, ht, ?_⟩
  intro k hk i hi
  rw [(h k i hi).2, if_pos hk]
  exact limited_in_range beta c nb _ k i (le_of_lt hb0) hb1 hi

/-- Over exact arithmetic, for every `beta` with `0 < beta <= 1` and every input, the call of
`_limit_edges_by_all_neighbours` returns 0 and afterwards, for every triangle `k < N`, each
vertex value is `e_j + e_l - e_i` of the limited edge values and lies in
`[2*qmin_k - qmax_k, 2*qmax_k - qmin_k]`. -/
theorem limit_edges_by_all_neighbours_vertices (N : Nat) (beta : ℚ) (c : Nat → ℚ)
    (nb : Nat → Int) (s : LimitState) (hb0 : 0 < beta) (hb1 : beta ≤ 1) :
    ∃ t, _limit_edges_by_all_neighbours N beta c nb s = some (Ctl.ret 0 t) ∧
      ∀ k, k < N →
        (t.vertex_values (3 * k + 0) =
          t.edge_values (3 * k + 1) + t.edge_values (3 * k + 2) - t.edge_values (3 * k + 0) ∧
         t.vertex_values (3 * k + 1) =
          t.edge_values (3 * k + 2) + t.edge_values (3 * k + 0) - t.edge_values (3 * k + 1) ∧
         t.vertex_values (3 * k + 2) =
          t.edge_values (3 * k + 0) + t.edge_values (3 * k + 1) - t.edge_values (3 * k + 2)) ∧
        ∀ i, i < 3 →
          2 * qminOf c nb k - qmaxOf c nb k ≤ t.vertex_values (3 * k + i) ∧
            t.vertex_values (3 * k + i) ≤ 2 * qmaxOf c nb k - qminOf c nb k := by
  obtain ⟨t, ht, h⟩ := limit_edges_spec N beta c nb s
  refine ⟨t, ht, ?_⟩
  intro k hk
  have h0 := h k 0 (by decide)
  have h1 := h k 1 (by decide)
  have h2 := h k 2 (by decide)
  simp only [if_pos hk] at h0 h1 h2
  refine ⟨⟨?_, ?_, ?_⟩, ?_⟩
  · rw [h0.1, h0.2, h1.2, h2.2]; rfl
  · rw [h1.1, h0.2, h1.2, h2.2]; rfl
  · rw [h2.1, h0.2, h1.2, h2.2]; rfl
  · intro i hi
    rw [(h k i hi).1, if_pos hk]
    exact verticesOfLimited_in_range beta c nb _ k i (le_of_lt hb0) hb1

theorem exNeighbours_valid : ∀ j, j < 3 * 3 → exNeighbours j < 0 ∨ exNeighbours j < (3 : Nat) := by
  intro j hj
  interval_cases j <;> simp [exNeighbours]

/-- C1 (as amended) at the three-triangle mesh with `beta = 1`. -/
theorem limit_vertices_by_all_neighbours_in_envelope_witness :
    ∃ t, _limit_vertices_by_all_neighbours 3 1 exCentroids exNeighbours exLimitState =
        some (Ctl.ret 0 t) ∧
      ∀ k, k < 3 → ∀ i, i < 3 →
        (qminOf exCentroids exNeighbours k ≤ t.vertex_values (3 * k + i) ∧
          t.vertex_values (3 * k + i) ≤ qmaxOf exCentroids exNeighbours k) ∧
        (qminOf exCentroids exNeighbours k ≤ t.edge_values (3 * k + i) ∧
          t.edge_values (3 * k + i) ≤ qmaxOf exCentroids exNeighbours k) :=
  limit_vertices_by_all_neighbours_in_envelope 3 1 exCentroids exNeighbours exLimitState
    (by norm_num) (by norm_num) exNeighbours_valid

/-- C2 (as amended) at the three-triangle mesh with `beta = 1`. -/
theorem limit_edges_by_all_neighbours_in_envelope_witness :
    ∃ t, _limit_edges_by_all_neighbours 3 1 exCentroids exNeighbours exLimitState =
        some (Ctl.ret 0 t) ∧
      ∀ k, k < 3 → ∀ i, i < 3 →
        qminOf exCentroids exNeighbours k ≤ t.edge_values (3 * k + i) ∧
          t.edge_values (3 * k + i) ≤ qmaxOf exCentroids exNeighbours k :=
  limit_edges_by_all_neighbours_in_envelope 3 1 exCentroids exNeighbours exLimitState
    (by norm_num) (by norm_num) exNeighbours_valid

theorem exEnvelope_max : qmaxOf exCentroids exNeighbours 0 = 1 := by
  apply le_antisymm
  · apply Finset.max'_le
    intro y hy
    simp [envelope, exCentroids, exNeighbours] at hy
    rcases hy with rfl | ⟨a, ⟨ha, _⟩, rfl⟩
    · norm_num
    · interval_cases a <;> simp
  · apply Finset.le_max'
    simp [envelope, exCentroids, exNeighbours]
    exact ⟨0, by simp⟩

theorem exTrueNeighbours : 2 ≤ trueNeighbours exNeighbours 0 := by
  decide

/-- C3 fails as stated: on the three-triangle mesh with `beta = 1`, triangle 0 has the two
true neighbours 1 and 2, centroid value 0 and `qmax_0 = 1`; its edge values `-1, 1/2, 1/2`
are within the envelope and stay as they are, and its vertex value 0 is re-derived as
`1/2 + 1/2 - (-1) = 2 > qmax_0`. -/
theorem limit_edges_vertex_outside_envelope :
    (∀ j, j < 3 * 3 → exNeighbours j < 0 ∨ exNeighbours j < (3 : Nat)) ∧
    2 ≤ trueNeighbours exNeighbours 0 ∧ qmaxOf exCentroids exNeighbours 0 = 1 ∧
    ∃ t, _limit_edges_by_all_neighbours 3 1 exCentroids exNeighbours exLimitState =
        some (Ctl.ret 0 t) ∧
      t.edge_values 0 = -1 ∧ t.edge_values 1 = 1 / 2 ∧ t.edge_values 2 = 1 / 2 ∧
      t.vertex_values 0 = 2 := by
  refine ⟨exNeighbours_valid, exTrueNeighbours, exEnvelope_max, ?_⟩
  obtain ⟨t, ht, h⟩ := limit_edges_spec 3 1 exCentroids exNeighbours exLimitState
  have h0 := h 0 0 (by decide)
  have h1 := h 0 1 (by decide)
  have h2 := h 0 2 (by decide)
  have hphi : phiOf 1 exCentroids exNeighbours exLimitState.edge_values 0 = 1 := by
    simp [phiOf, phiAll, phiStep, ratio, envAll, envStep, min, max, exCentroids, exNeighbours,
      exLimitState]
    norm_num
  simp only [verticesOfLimited, limited, hphi] at h0 h1 h2
  simp [exCentroids, exLimitState] at h0 h1 h2
  refine ⟨t, ht, h0.2, ?_, ?_, ?_⟩
  · rw [h1.2]
    norm_num
  · rw [h2.2]
    norm_num
  · rw [h0.1]
    norm_num

/-- The bounds of `limit_edges_by_all_neighbours_vertices` at the three-triangle mesh with
`beta = 1`. -/
theorem limit_edges_by_all_neighbours_vertices_witness :
    ∃ t, _limit_edges_by_all_neighbours 3 1 exCentroids exNeighbours exLimitState =
        some (Ctl.ret 0 t) ∧
      ∀ k, k < 3 →
        (t.vertex_values (3 * k + 0) =
          t.edge_values (3 * k + 1) + t.edge_values (3 * k + 2) - t.edge_values (3 * k + 0) ∧
         t.vertex_values (3 * k + 1) =
          t.edge_values (3 * k + 2) + t.edge_values (3 * k + 0) - t.edge_values (3 * k + 1) ∧
         t.vertex_values (3 * k + 2) =
          t.edge_values (3 * k + 0) + t.edge_values (3 * k + 1) - t.edge_values (3 * k + 2)) ∧
        ∀ i, i < 3 →
          2 * qminOf exCentroids exNeighbours k - qmaxOf exCentroids exNeighbours k ≤
              t.vertex_values (3 * k + i) ∧
            t.vertex_values (3 * k + i) ≤
              2 * qmaxOf exCentroids exNeighbours k - qminOf exCentroids exNeighbours k :=
  limit_edges_by_all_neighbours_vertices 3 1 exCentroids exNeighbours exLimitState
    (by norm_num) (by norm_num)

/-! ## Extrapolator -/

theorem extrapolate_triangle (centroids c X a b : Nat → ℚ) (k : Nat) (t : VEMem) :
    ∃ t', extrapolate_from_gradient_body centroids c X a b k t = some (Ctl.next t') ∧
      (∀ i, i < 3 → t'.vertex_values (3 * k + i) = extrapolatedVertex centroids c X a b k i ∧
        t'.edge_values (3 * k + i) = extrapolatedEdge centroids c X a b k i) ∧
      (∀ k1 i, k1 ≠ k → i < 3 → t'.vertex_values (3 * k1 + i) = t.vertex_values (3 * k1 + i) ∧
        t'.edge_values (3 * k1 + i) = t.edge_values (3 * k1 + i)) := by
  unfold extrapolate_from_gradient_body
  refine ⟨_, rfl, ?_, ?_⟩
  · intro i hi
    interval_cases i <;>
      simp [Function.update_apply, extrapolatedVertex, extrapolatedEdge]
  · intro k1 i hk hi
    have e0 : 3 * k1 + i ≠ 3 * k + 0 := by omega
    have e1 : 3 * k1 + i ≠ 3 * k + 1 := by omega
    have e2 : 3 * k1 + i ≠ 3 * k + 2 := by omega
    simp only [Function.update_noteq e0, Function.update_noteq e1, Function.update_noteq e2,
      and_self]

theorem extrapolate_spec (N : Nat) (centroids c X a b : Nat → ℚ) (m : VEMem) :
    ∃ t, _extrapolate_from_gradient N centroids c X a b m = some (Ctl.ret 0 t) ∧
      ∀ k i, i < 3 →
        t.vertex_values (3 * k + i) =
          (if k < N then extrapolatedVertex centroids c X a b k i
            else m.vertex_values (3 * k + i)) ∧
        t.edge_values (3 * k + i) =
          (if k < N then extrapolatedEdge centroids c X a b k i
            else m.edge_values (3 * k + i)) := by
  obtain ⟨t, ht, h⟩ := forLoop_triangles VEMem.vertex_values VEMem.edge_values
    (extrapolate_from_gradient_body centroids c X a b)
    (fun _ _ k i => extrapolatedVertex centroids c X a b k i)
    (fun _ _ k i => extrapolatedEdge centroids c X a b k i)
    (extrapolate_triangle centroids c X a b)
    (fun _ _ _ _ _ _ _ _ => ⟨rfl, rfl⟩)
    N m
  exact ⟨t, by simp [_extrapolate_from_gradient, ht, andThen], h⟩

/-- C14: for every input, `_extrapolate_from_gradient` returns 0 and afterwards each
triangle `k < N` has `vertex_values[3k+i] = centroid_values[k] + a[k]*(x_i - xc) +
b[k]*(y_i - yc)` for `i = 0, 1, 2`, where `(x_i, y_i) = vertex_coordinates[6k+2i, 6k+2i+1]` and
`(xc, yc) = centroids[2k, 2k+1]`, and `edge_values[3k+i]` is half the sum of the two vertex
values of `k` at the local indices other than `i`. -/
theorem extrapolate_from_gradient_values (N : Nat)
    (centroids centroid_values vertex_coordinates a b : Nat → ℚ) (m : VEMem) :
    ∃ t, _extrapolate_from_gradient N centroids centroid_values vertex_coordinates a b m =
        some (Ctl.ret 0 t) ∧
      ∀ k, k < N →
        (∀ i, i < 3 → t.vertex_values (3 * k + i) =
          centroid_values k + a k * (vertex_coordinates (6 * k + 2 * i) - centroids (2 * k)) +
            b k * (vertex_coordinates (6 * k + 2 * i + 1) - centroids (2 * k + 1))) ∧
        t.edge_values (3 * k + 0) =
          (t.vertex_values (3 * k + 1) + t.vertex_values (3 * k + 2)) / 2 ∧
        t.edge_values (3 * k + 1) =
          (t.vertex_values (3 * k + 2) + t.vertex_values (3 * k + 0)) / 2 ∧
        t.edge_values (3 * k + 2) =
          (t.vertex_values (3 * k + 0) + t.vertex_values (3 * k + 1)) / 2 := by
  obtain ⟨t, ht, h⟩ := extrapolate_spec N centroids centroid_values vertex_coordinates a b m
  refine ⟨t, ht, ?_⟩
  intro k hk
  have h0 := h k 0 (by decide)
  have h1 := h k 1 (by decide)
  have h2 := h k 2 (by decide)
  simp only [if_pos hk] at h0 h1 h2
  refine ⟨?_, ?_, ?_, ?_⟩
  · intro i hi
    rw [(h k i hi).1, if_pos hk]
    rfl
  · rw [h0.2, h1.1, h2.1]
    simp only [extrapolatedEdge]
    norm_num
    ring
  · rw [h1.2, h2.1, h0.1]
    simp only [extrapolatedEdge]
    norm_num
    ring
  · rw [h2.2, h0.1, h1.1]
    simp only [extrapolatedEdge]
    norm_num
    ring

/-- Loop rule for a loop whose iterations fall through or return: either every iteration
fell through and the invariant holds at the end, or some iteration `j < N` returned, the
invariant held before it and the postcondition of the return holds. -/
theorem forLoop_invariant_ret {σ : Type} (body : Nat → σ → Exec σ) (Inv : Nat → σ → Prop)
    (Post : Nat → Int → σ → Prop) (N : Nat) (s : σ) (h0 : Inv 0 s)
    (hstep : ∀ k, k < N → ∀ t, Inv k t →
      (∃ t', body k t = some (Ctl.next t') ∧ Inv (k + 1) t') ∨
      (∃ code t', body k t = some (Ctl.ret code t') ∧ Post k code t')) :
    (∃ t, forLoop body N s = some (Ctl.next t) ∧ Inv N t) ∨
    (∃ j code t, j < N ∧ forLoop body N s = some (Ctl.ret code t) ∧ Post j code t) := by
  induction N with
  | zero => exact Or.inl ⟨s, rfl, h0⟩
  | succ n ih =>
    rcases ih (fun k hk => hstep k (Nat.lt_succ_of_lt hk)) with ⟨t, ht, hInv⟩ | ⟨j, code, t, hj, ht, hP⟩
    · rcases hstep n (Nat.lt_succ_self n) t hInv with ⟨t', hb, hInv'⟩ | ⟨code, t', hb, hP⟩
      · exact Or.inl ⟨t', by rw [forLoop_succ, ht]; exact hb, hInv'⟩
      · exact Or.inr ⟨n, code, t', Nat.lt_succ_self n, by rw [forLoop_succ, ht]; exact hb, hP⟩
    · exact Or.inr ⟨j, code, t, Nat.lt_succ_of_lt hj, by rw [forLoop_succ, ht]; rfl, hP⟩

/-! ## Gradient reconstructor -/

theorem find_neighbour_eq_self (sn : Nat → Int) (index3 : Nat) (k : Int) :
    (find_neighbour sn index3 k 0 k).2 = k ↔
      sn (index3 + 0) = k ∧ sn (index3 + 1) = k ∧ sn (index3 + 2) = k := by
  rw [find_neighbour]
  simp only [Nat.lt_add_one, Nat.ofNat_pos, and_self, if_true, true_and, Nat.zero_add,
    Nat.add_zero]
  rw [find_neighbour]
  by_cases h0 : sn index3 = k
  · simp only [h0, Nat.one_lt_ofNat, and_self, if_true, true_and]
    rw [find_neighbour]
    by_cases h1 : sn (index3 + 1) = k
    · simp only [h1, Nat.lt_add_one, and_self, if_true, true_and]
      rw [find_neighbour]
      simp
    · simp [h1]
  · simp [h0]

theorem compute_gradients_body_cases (g : Gradient3) (g2 : Gradient2) (cs cv : Nat → ℚ)
    (nob sn : Nat → Int) (k : Nat) (m : GradientMem) :
    (degenerate nob sn k ∧
      compute_gradients_body g g2 cs cv nob sn k m = some (Ctl.ret (-1) m)) ∨
    (¬ degenerate nob sn k ∧
      ∃ m', compute_gradients_body g g2 cs cv nob sn k m = some (Ctl.next m') ∧
        (∀ j, j ≠ k → m'.a j = m.a j ∧ m'.b j = m.b j) ∧
        (2 < nob k → m' = m)) := by
  unfold compute_gradients_body degenerate
  simp only [Nat.add_zero]
  by_cases h1 : nob k < 2
  · have hne : nob k ≠ 2 := by omega
    by_cases h2 : sn (3 * k) = sn (3 * k + 1) ∨ sn (3 * k + 1) = sn (3 * k + 2)
    · exact Or.inl ⟨Or.inl ⟨h1, h2⟩, by simp only [h1, h2, if_true]⟩
    · refine Or.inr ⟨fun h => ?_, _, by simp only [h1, h2, if_true, if_false]; rfl, ?_, ?_⟩
      · rcases h with ⟨_, h⟩ | ⟨h, _⟩
        · exact h2 h
        · exact hne h
      · intro j hj
        simp [Function.update_noteq hj]
      · intro h
        omega
  · by_cases h2 : nob k = 2
    · have hf := find_neighbour_eq_self sn (3 * k) k
      simp only [Nat.add_zero] at hf
      by_cases h3 : (find_neighbour sn (3 * k) k 0 k).2 = k
      · exact Or.inl ⟨Or.inr ⟨h2, hf.1 h3⟩, by rw [if_neg h1, if_pos h2, if_pos h3]⟩
      · refine Or.inr ⟨fun h => ?_, _,
          by rw [if_neg h1, if_pos h2, if_neg h3], ?_, ?_⟩
        · rcases h with ⟨h, _⟩ | ⟨_, h⟩
          · exact h1 h
          · exact h3 (hf.2 h)
        · intro j hj
          simp [Function.update_noteq hj]
        · intro h
          omega
    · refine Or.inr ⟨fun h => ?_, m, by rw [if_neg h1, if_neg h2], fun _ _ => ⟨rfl, rfl⟩,
        fun _ => rfl⟩
      rcases h with ⟨h, _⟩ | ⟨h, _⟩
      · exact h1 h
      · exact h2 h

/-- The two ways `_compute_gradients` can end: no triangle is degenerate and it returns 0,
or it returns -1 at the first degenerate triangle. Either way the entries of `a`, `b` of
triangles with more than 2 boundaries, and those from `N` on, are as on entry. -/
theorem compute_gradients_cases (g : Gradient3) (g2 : Gradient2) (N : Nat) (cs cv : Nat → ℚ)
    (nob sn : Nat → Int) (m : GradientMem) :
    ((∀ k, k < N → ¬ degenerate nob sn k) ∧
      ∃ m', _compute_gradients g g2 N cs cv nob sn m = some (Ctl.ret 0 m') ∧
        ∀ k, (N ≤ k ∨ 2 < nob k) → m'.a k = m.a k ∧ m'.b k = m.b k) ∨
    (∃ j, j < N ∧ degenerate nob sn j ∧ (∀ k, k < j → ¬ degenerate nob sn k) ∧
      ∃ m', _compute_gradients g g2 N cs cv nob sn m = some (Ctl.ret (-1) m') ∧
        ∀ k, (N ≤ k ∨ 2 < nob k) → m'.a k = m.a k ∧ m'.b k = m.b k) := by
  have hloop := forLoop_invariant_ret (compute_gradients_body g g2 cs cv nob sn)
    (fun n t => (∀ k, k < n → ¬ degenerate nob sn k) ∧
      ∀ k, (n ≤ k ∨ 2 < nob k) → t.a k = m.a k ∧ t.b k = m.b k)
    (fun j code t => code = -1 ∧ degenerate nob sn j ∧ (∀ k, k < j → ¬ degenerate nob sn k) ∧
      ∀ k, (j ≤ k ∨ 2 < nob k) → t.a k = m.a k ∧ t.b k = m.b k)
    N m ⟨fun k hk => absurd hk (Nat.not_lt_zero k), fun _ _ => ⟨rfl, rfl⟩⟩
    (by
      intro k _ t ht
      obtain ⟨hnd, hfr⟩ := ht
      rcases compute_gradients_body_cases g g2 cs cv nob sn k t with ⟨hd, hb⟩ | ⟨hd, t', hb, hoth, hsame⟩
      · exact Or.inr ⟨-1, t, hb, rfl, hd, hnd, hfr⟩
      · refine Or.inl ⟨t', hb, ?_, ?_⟩
        · intro j hj
          rcases Nat.lt_succ_iff_lt_or_eq.1 hj with h | h
          · exact hnd j h
          · rw [h]
            exact hd
        · intro j hj
          by_cases hjk : j = k
          · subst hjk
            rcases hj with h | h
            · omega
            · rw [hsame h]
              exact hfr j (Or.inl (le_refl j))
          · rw [(hoth j hjk).1, (hoth j hjk).2]
            refine hfr j ?_
            rcases hj with h | h
            · exact Or.inl (by omega)
            · exact Or.inr h)
  rcases hloop with ⟨t, ht, hnd, hfr⟩ | ⟨j, code, t, hj, ht, hcode, hd, hnd, hfr⟩
  · exact Or.inl ⟨hnd, t, by simp [_compute_gradients, ht, andThen], hfr⟩
  · subst hcode
    refine Or.inr ⟨j, hj, hd, hnd, t, by simp [_compute_gradients, ht, andThen], ?_⟩
    intro k hk
    refine hfr k ?_
    rcases hk with h | h
    · exact Or.inl (by omega)
    · exact Or.inr h

/-! ## Properties of the gradient reconstructor -/

/-- C11: for every input whose `surrogate_neighbours` entries are valid triangle ids,
`_compute_gradients` returns -1 exactly when some triangle `k < N` has
`number_of_boundaries[k] < 2` and `k0 = k1` or `k1 = k2` for its surrogate slots
`k0, k1, k2`, or has `number_of_boundaries[k] = 2` and all three slots equal to `k`; and it
returns 0 exactly when no triangle has. -/
theorem compute_gradients_fails_iff (g : Gradient3) (g2 : Gradient2) (N : Nat)
    (cs cv : Nat → ℚ) (nob sn : Nat → Int) (m : GradientMem)
    (_hvalid : ∀ j, j < 3 * N → 0 ≤ sn j ∧ sn j < N) :
    ((∃ m', _compute_gradients g g2 N cs cv nob sn m = some (Ctl.ret (-1) m')) ↔
      ∃ k, k < N ∧ degenerate nob sn k) ∧
    ((∃ m', _compute_gradients g g2 N cs cv nob sn m = some (Ctl.ret 0 m')) ↔
      ¬ ∃ k, k < N ∧ degenerate nob sn k) := by
  rcases compute_gradients_cases g g2 N cs cv nob sn m with ⟨h, m1, hr, _⟩ | ⟨j, hj, hd, _, m1, hr, _⟩
  · have hno : ¬ ∃ k, k < N ∧ degenerate nob sn k := fun ⟨k, hk, hz⟩ => h k hk hz
    refine ⟨⟨?_, fun hex => absurd hex hno⟩, ⟨fun _ => hno, fun _ => ⟨_, hr⟩⟩⟩
    rintro ⟨m', hm'⟩
    rw [hr] at hm'
    simp at hm'
  · have hex : ∃ k, k < N ∧ degenerate nob sn k := ⟨j, hj, hd⟩
    refine ⟨⟨fun _ => hex, fun _ => ⟨_, hr⟩⟩, ⟨?_, fun hno => absurd hex hno⟩⟩
    rintro ⟨m', hm'⟩
    rw [hr] at hm'
    simp at hm'

/-- C13: for every input of `_compute_gradients` the call ends in `return 0` or
`return -1`, and either way `a[k]` and `b[k]` of every triangle `k` with
`number_of_boundaries[k] = 3` equal their values before the call. -/
theorem compute_gradients_isolated_untouched (g : Gradient3) (g2 : Gradient2) (N : Nat)
    (cs cv : Nat → ℚ) (nob sn : Nat → Int) (m : GradientMem) :
    ∃ code m', _compute_gradients g g2 N cs cv nob sn m = some (Ctl.ret code m') ∧
      (code = 0 ∨ code = -1) ∧
      ∀ k, nob k = 3 → m'.a k = m.a k ∧ m'.b k = m.b k := by
  rcases compute_gradients_cases g g2 N cs cv nob sn m with ⟨_, m1, hr, hfr⟩ | ⟨j, _, _, _, m1, hr, hfr⟩
  · exact ⟨0, m1, hr, Or.inl rfl, fun k hk => hfr k (Or.inr (by omega))⟩
  · exact ⟨-1, m1, hr, Or.inr rfl, fun k hk => hfr k (Or.inr (by omega))⟩

theorem exSurrogates_valid : ∀ j, j < 3 * 2 → 0 ≤ exSurrogates j ∧ exSurrogates j < (2 : Nat) := by
  intro j hj
  interval_cases j <;> simp [exSurrogates]

theorem exSurrogatesBad_valid :
    ∀ j, j < 3 * 2 → 0 ≤ exSurrogatesBad j ∧ exSurrogatesBad j < (2 : Nat) := by
  intro j hj
  interval_cases j <;> simp [exSurrogatesBad]

theorem exSurrogates_not_degenerate : ¬ ∃ k, k < 2 ∧ degenerate exBoundaries exSurrogates k := by
  rintro ⟨k, hk, hd⟩
  interval_cases k <;> simp [degenerate, exBoundaries, exSurrogates] at hd

theorem exSurrogatesBad_degenerate : ∃ k, k < 2 ∧ degenerate exBoundaries exSurrogatesBad k :=
  ⟨0, by decide, by simp [degenerate, exBoundaries, exSurrogatesBad]⟩

/-- C11 on the two-triangle mesh: with the surrogate slots `1, 0, 1` of triangle 0 the call
returns 0; with the slots `1, 1, 0` it returns -1. -/
theorem compute_gradients_fails_iff_witness :
    (∃ m', _compute_gradients exGradient3 exGradient2 2 exCentroidCoordinates exCentroids
      exBoundaries exSurrogates exGradientMem = some (Ctl.ret 0 m')) ∧
    (∃ m', _compute_gradients exGradient3 exGradient2 2 exCentroidCoordinates exCentroids
      exBoundaries exSurrogatesBad exGradientMem = some (Ctl.ret (-1) m')) :=
  ⟨(compute_gradients_fails_iff exGradient3 exGradient2 2 exCentroidCoordinates exCentroids
      exBoundaries exSurrogates exGradientMem exSurrogates_valid).2.2 exSurrogates_not_degenerate,
    (compute_gradients_fails_iff exGradient3 exGradient2 2 exCentroidCoordinates exCentroids
      exBoundaries exSurrogatesBad exGradientMem exSurrogatesBad_valid).1.2
      exSurrogatesBad_degenerate⟩

/-- C12 fails on the code: on the two-triangle mesh, triangle 0 has
`number_of_boundaries = 1 < 2` and the surrogate slots `1, 0, 1` (slots 0 and 2 equal), yet
for every helper and every coordinates and values the call returns 0 and stores in `a[0]`,
`b[0]` what `_gradient` makes of the three points, the first and the third being the same
centroid. -/
theorem compute_gradients_misses_coincident_slots (g : Gradient3) (g2 : Gradient2)
    (cs cv : Nat → ℚ) (m : GradientMem) :
    exBoundaries 0 < 2 ∧ exSurrogates (3 * 0 + 0) = exSurrogates (3 * 0 + 2) ∧
    ∃ m', _compute_gradients g g2 2 cs cv exBoundaries exSurrogates m = some (Ctl.ret 0 m') ∧
      m'.a 0 = (g (cs 2) (cs 3) (cs 0) (cs 1) (cs 2) (cs 3) (cv 1) (cv 0) (cv 1)).1 ∧
      m'.b 0 = (g (cs 2) (cs 3) (cs 0) (cs 1) (cs 2) (cs 3) (cv 1) (cv 0) (cv 1)).2 := by
  refine ⟨by simp [exBoundaries], by simp [exSurrogates], ?_⟩
  simp [_compute_gradients, forLoop, andThen, compute_gradients_body, exBoundaries,
    exSurrogates]

/-! ## Splitting a loop -/

theorem andThen_next {σ : Type} (r : Exec σ) : andThen r (fun t => some (Ctl.next t)) = r := by
  rcases r with _ | ⟨t⟩ | ⟨c, t⟩ <;> rfl

theorem andThen_assoc {σ : Type} (r : Exec σ) (f g : σ → Exec σ) :
    andThen (andThen r f) g = andThen r (fun t => andThen (f t) g) := by
  rcases r with _ | ⟨t⟩ | ⟨c, t⟩ <;> rfl

/-- The first `n1 + n2` iterations are the first `n1` followed by the next `n2`. -/
theorem forLoop_add {σ : Type} (body : Nat → σ → Exec σ) (n1 n2 : Nat) (s : σ) :
    forLoop body (n1 + n2) s =
      andThen (forLoop body n1 s) (forLoop (fun i => body (n1 + i)) n2) := by
  induction n2 with
  | zero =>
    show forLoop body n1 s = andThen (forLoop body n1 s) (fun t => some (Ctl.next t))
    rw [andThen_next]
  | succ n ih =>
    show forLoop body (n1 + n + 1) s = _
    rw [forLoop_succ, ih, andThen_assoc]
    rfl

/-! ## Node averaging -/

theorem groupSum_succ (vii : Nat → Int) (vv : Nat → ℚ) (start r : Nat) :
    groupSum vii vv start (r + 1) = groupSum vii vv start r + vv (vii (start + r)).toNat := by
  unfold groupSum
  rw [Finset.sum_range_succ]

theorem groupStart_succ (cnt : Nat → Int) (m : Nat) :
    groupStart cnt (m + 1) = groupStart cnt m + (cnt m).toNat := by
  unfold groupStart
  rw [Finset.sum_range_succ]

/-- Inside the group of node `m`, before its last index: the loop only counts and sums. -/
theorem average_group_running (vii cnt : Nat → Int) (vv : Nat → ℚ) (start m : Nat)
    (A : Nat → ℚ) (r : Nat) (hr : (r : Int) < cnt m) :
    forLoop (fun i => average_vertex_values_body vii cnt vv (start + i)) r
        { A := A, k := 0, current_node := m, total := 0 } =
      some (Ctl.next { A := A, k := r, current_node := m, total := groupSum vii vv start r }) := by
  induction r with
  | zero => simp [forLoop, groupSum]
  | succ n ih =>
    rw [forLoop_succ, ih (by omega)]
    have hne : cnt m ≠ ((n + 1 : Nat) : Int) := by omega
    simp only [andThen, average_vertex_values_body, if_neg hne, groupSum_succ]

/-- The whole group of node `m`: its average is stored in `A[m]` and the locals are reset. -/
theorem average_group (vii cnt : Nat → Int) (vv : Nat → ℚ) (start m : Nat) (A : Nat → ℚ)
    (hpos : 1 ≤ cnt m) :
    forLoop (fun i => average_vertex_values_body vii cnt vv (start + i)) (cnt m).toNat
        { A := A, k := 0, current_node := m, total := 0 } =
      some (Ctl.next { A := Function.update A m
                        (groupSum vii vv start (cnt m).toNat / (cnt m : ℚ))
                       k := 0, current_node := m + 1, total := 0 }) := by
  obtain ⟨n, hn⟩ : ∃ n : Nat, cnt m = ((n + 1 : Nat) : Int) :=
    ⟨(cnt m).toNat - 1, by omega⟩
  have htn : (cnt m).toNat = n + 1 := by omega
  rw [htn, forLoop_succ, average_group_running vii cnt vv start m A n (by omega)]
  have hq : ((n : ℚ) + 1) ≠ 0 := by positivity
  have hc : (cnt m : ℚ) = (n : ℚ) + 1 := by
    rw [hn]
    push_cast
    ring
  simp only [andThen, average_vertex_values_body, hn, if_true, fdiv, Nat.cast_add, Nat.cast_one,
    if_neg hq, groupSum_succ]
  simp [hc]

/-- After the groups of the first `M` nodes, all with counts at least 1: their averages are
stored, the other entries of `A` are as on entry, and the locals are reset. -/
theorem average_nodes (vii cnt : Nat → Int) (vv A : Nat → ℚ) (M : Nat)
    (hpos : ∀ m, m < M → 1 ≤ cnt m) :
    forLoop (average_vertex_values_body vii cnt vv) (groupStart cnt M)
        { A := A, k := 0, current_node := 0, total := 0 } =
      some (Ctl.next { A := fun m => if m < M then groupAverage vii cnt vv m else A m
                       k := 0, current_node := M, total := 0 }) := by
  induction M with
  | zero =>
    simp [groupStart, forLoop]
  | succ M ih =>
    rw [groupStart_succ, forLoop_add, ih (fun m hm => hpos m (Nat.lt_succ_of_lt hm))]
    simp only [andThen]
    rw [average_group vii cnt vv (groupStart cnt M) M _ (hpos M (Nat.lt_succ_self M))]
    congr 3
    funext m
    rcases Nat.lt_trichotomy m M with h | h | h
    · have : m ≠ M := by omega
      simp [Function.update_noteq this, h, Nat.lt_succ_of_lt h]
    · subst h
      simp [groupAverage]
    · have h1 : m ≠ M := by omega
      have h2 : ¬ m < M := by omega
      have h3 : ¬ m < M + 1 := by omega
      simp [Function.update_noteq h1, h2, h3]

/-! ## Properties of node averaging -/

/-- C15: for every index list of length `N` grouped by node and every count list whose
first `M` counts are at least 1 and sum to `N`, `_average_vertex_values` returns 0 and
afterwards, for every node `m < M`, `A[m]` is the sum of `vertex_values` at the indices of
the group of `m` divided by `number_of_triangles_per_node[m]`; the other entries of `A` are
as on entry. -/
theorem average_vertex_values_spec (N M : Nat) (vii cnt : Nat → Int) (vv A : Nat → ℚ)
    (hpos : ∀ m, m < M → 1 ≤ cnt m) (hsum : groupStart cnt M = N) :
    ∃ t, _average_vertex_values N vii cnt vv A = some (Ctl.ret 0 t) ∧
      (∀ m, m < M → t.A m =
        (Finset.sum (Finset.range (cnt m).toNat)
          fun j => vv (vii (groupStart cnt m + j)).toNat) / (cnt m : ℚ)) ∧
      (∀ m, M ≤ m → t.A m = A m) := by
  subst hsum
  have hrun : _average_vertex_values (groupStart cnt M) vii cnt vv A = some (Ctl.ret 0
      { A := fun m => if m < M then groupAverage vii cnt vv m else A m
        k := 0, current_node := M, total := 0 }) := by
    unfold _average_vertex_values
    simp only []
    rw [average_nodes vii cnt vv A M hpos]
    rfl
  refine ⟨_, hrun, ?_, ?_⟩
  · intro m hm
    simp [hm, groupAverage, groupSum]
  · intro m hm
    have : ¬ m < M := by omega
    simp [this]

/-- C15 at one node whose group references the vertex values 1, 2, 3 with count 3: the
call returns 0 and `A[0] = 2`. -/
theorem average_vertex_values_spec_witness :
    ∃ t, _average_vertex_values 3 exVertexValueIndices exTrianglesPerNode exVertexValues
        (fun _ => 0) = some (Ctl.ret 0 t) ∧ t.A 0 = 2 := by
  obtain ⟨t, ht, hA, _⟩ := average_vertex_values_spec 3 1 exVertexValueIndices
    exTrianglesPerNode exVertexValues (fun _ => 0)
    (by intro m hm; interval_cases m; simp [exTrianglesPerNode])
    (by simp [groupStart, exTrianglesPerNode])
  refine ⟨t, ht, ?_⟩
  rw [hA 0 (by decide)]
  simp [groupStart, exTrianglesPerNode, exVertexValueIndices, exVertexValues,
    Finset.sum_range_succ]
  norm_num

/-! ## The `_by_neighbour` limiters, one triangle -/

theorem limit_edges_by_neighbour_phi_body_eq (beta qc : ℚ) (c : Nat → ℚ) (nb : Nat → Int)
    (k3 i : Nat) (s : LimitState) :
    limit_edges_by_neighbour_phi_body beta qc c nb k3 i s = some (Ctl.next
      { s with dqa := Function.update s.dqa i (s.edge_values (k3 + i) - qc)
               qmin := if nb (k3 + i) ≥ 0 then min qc (c (nb (k3 + i)).toNat) else s.qmin
               qmax := if nb (k3 + i) ≥ 0 then max qc (c (nb (k3 + i)).toNat) else s.qmax
               phi := phiStepNb beta qc c nb k3 i (s.edge_values (k3 + i) - qc) s.phi }) := by
  unfold limit_edges_by_neighbour_phi_body phiStepNb phiStep ratio fdiv
  by_cases hn : nb (k3 + i) ≥ 0
  · rcases lt_trichotomy (s.edge_values (k3 + i) - qc) 0 with h | h | h
    · have hn' : ¬ s.edge_values (k3 + i) - qc > 0 := not_lt.2 (le_of_lt h)
      simp [hn, h, hn', ne_of_lt h]
    · simp [hn, h]
    · have hn' : ¬ s.edge_values (k3 + i) - qc < 0 := not_lt.2 (le_of_lt h)
      simp [hn, h, hn', ne_of_gt h]
  · simp [hn]

theorem limit_gradient_by_neighbour_phi_body_eq (beta qc : ℚ) (c : Nat → ℚ) (nb : Nat → Int)
    (k3 i : Nat) (s : GradientLimitState) :
    limit_gradient_by_neighbour_phi_body beta qc c nb k3 i s = some (Ctl.next
      { s with dqa := Function.update s.dqa i (s.edge_values (k3 + i) - qc)
               qmin := if nb (k3 + i) ≥ 0 then min qc (c (nb (k3 + i)).toNat) else s.qmin
               qmax := if nb (k3 + i) ≥ 0 then max qc (c (nb (k3 + i)).toNat) else s.qmax
               phi := phiStepNb beta qc c nb k3 i (s.edge_values (k3 + i) - qc) s.phi }) := by
  unfold limit_gradient_by_neighbour_phi_body phiStepNb phiStep ratio fdiv
  by_cases hn : nb (k3 + i) ≥ 0
  · rcases lt_trichotomy (s.edge_values (k3 + i) - qc) 0 with h | h | h
    · have hn' : ¬ s.edge_values (k3 + i) - qc > 0 := not_lt.2 (le_of_lt h)
      simp [hn, h, hn', ne_of_lt h]
    · simp [hn, h]
    · have hn' : ¬ s.edge_values (k3 + i) - qc < 0 := not_lt.2 (le_of_lt h)
      simp [hn, h, hn', ne_of_gt h]
  · simp [hn]

theorem limit_edges_by_neighbour_triangle (beta : ℚ) (c : Nat → ℚ) (nb : Nat → Int) (k : Nat)
    (t : LimitState) :
    ∃ t', limit_edges_by_neighbour_body beta c nb k t = some (Ctl.next t') ∧
      (∀ i, i < 3 →
        t'.vertex_values (3 * k + i) = verticesOfLimitedNb beta c nb t.edge_values k i ∧
        t'.edge_values (3 * k + i) = limitedNb beta c nb t.edge_values k i) ∧
      (∀ k1 i, k1 ≠ k → i < 3 → t'.vertex_values (3 * k1 + i) = t.vertex_values (3 * k1 + i) ∧
        t'.edge_values (3 * k1 + i) = t.edge_values (3 * k1 + i)) := by
  unfold limit_edges_by_neighbour_body
  simp only [forLoop, andThen, limit_edges_by_neighbour_phi_body_eq]
  refine ⟨_, rfl, ?_, ?_⟩
  · intro i hi
    interval_cases i <;>
      simp [Function.update_apply, limitedNb, verticesOfLimitedNb, phiNb]
  · intro k1 i hk hi
    have e0 : 3 * k1 + i ≠ 3 * k + 0 := by omega
    have e1 : 3 * k1 + i ≠ 3 * k + 1 := by omega
    have e2 : 3 * k1 + i ≠ 3 * k + 2 := by omega
    simp only [Function.update_noteq e0, Function.update_noteq e1, Function.update_noteq e2,
      and_self]

theorem limit_gradient_by_neighbour_triangle (beta : ℚ) (c : Nat → ℚ) (nb : Nat → Int)
    (k : Nat) (t : GradientLimitState) :
    ∃ t', limit_gradient_by_neighbour_body beta c nb k t = some (Ctl.next t') ∧
      (∀ i, i < 3 →
        t'.vertex_values (3 * k + i) = verticesOfLimitedNb beta c nb t.edge_values k i ∧
        t'.edge_values (3 * k + i) = limitedNb beta c nb t.edge_values k i) ∧
      (∀ k1 i, k1 ≠ k → i < 3 → t'.vertex_values (3 * k1 + i) = t.vertex_values (3 * k1 + i) ∧
        t'.edge_values (3 * k1 + i) = t.edge_values (3 * k1 + i)) := by
  unfold limit_gradient_by_neighbour_body
  simp only [forLoop, andThen, limit_gradient_by_neighbour_phi_body_eq]
  refine ⟨_, rfl, ?_, ?_⟩
  · intro i hi
    interval_cases i <;>
      simp [Function.update_apply, limitedNb, verticesOfLimitedNb, phiNb]
  · intro k1 i hk hi
    have e0 : 3 * k1 + i ≠ 3 * k + 0 := by omega
    have e1 : 3 * k1 + i ≠ 3 * k + 1 := by omega
    have e2 : 3 * k1 + i ≠ 3 * k + 2 := by omega
    simp only [Function.update_noteq e0, Function.update_noteq e1, Function.update_noteq e2,
      and_self]

/-! ## The `_by_neighbour` limiters, the whole function -/

theorem limitedNb_congr (beta : ℚ) (c : Nat → ℚ) (nb : Nat → Int) (q1 q2 : Nat → ℚ) (k : Nat)
    (h : ∀ i, i < 3 → q1 (3 * k + i) = q2 (3 * k + i)) (i : Nat) (hi : i < 3) :
    limitedNb beta c nb q1 k i = limitedNb beta c nb q2 k i := by
  unfold limitedNb phiNb
  rw [h 0 (by decide), h 1 (by decide), h 2 (by decide), h i hi]

theorem limit_edges_by_neighbour_spec (N : Nat) (beta : ℚ) (c : Nat → ℚ) (nb : Nat → Int)
    (s : LimitState) :
    ∃ t, _limit_edges_by_neighbour N beta c nb s = some (Ctl.ret 0 t) ∧
      ∀ k i, i < 3 →
        t.vertex_values (3 * k + i) =
          (if k < N then verticesOfLimitedNb beta c nb s.edge_values k i
            else s.vertex_values (3 * k + i)) ∧
        t.edge_values (3 * k + i) =
          (if k < N then limitedNb beta c nb s.edge_values k i
            else s.edge_values (3 * k + i)) := by
  obtain ⟨t, ht, h⟩ := forLoop_triangles LimitState.vertex_values LimitState.edge_values
    (limit_edges_by_neighbour_body beta c nb)
    (fun _ e k i => verticesOfLimitedNb beta c nb e k i)
    (fun _ e k i => limitedNb beta c nb e k i)
    (limit_edges_by_neighbour_triangle beta c nb)
    (by
      intro v1 e1 v2 e2 k h i hi
      have he := limitedNb_congr beta c nb e1 e2 k (fun i hi => (h i hi).2)
      refine ⟨?_, he i hi⟩
      interval_cases i <;>
        simp only [verticesOfLimitedNb, he 0 (by decide), he 1 (by decide), he 2 (by decide)])
    N s
  exact ⟨t, by simp [_limit_edges_by_neighbour, ht, andThen], h⟩

theorem limit_gradient_by_neighbour_spec (N : Nat) (beta : ℚ) (c : Nat → ℚ) (nb : Nat → Int)
    (s : GradientLimitState) :
    ∃ t, _limit_gradient_by_neighbour N beta c nb s = some (Ctl.ret 0 t) ∧
      ∀ k i, i < 3 →
        t.vertex_values (3 * k + i) =
          (if k < N then verticesOfLimitedNb beta c nb s.edge_values k i
            else s.vertex_values (3 * k + i)) ∧
        t.edge_values (3 * k + i) =
          (if k < N then limitedNb beta c nb s.edge_values k i
            else s.edge_values (3 * k + i)) := by
  obtain ⟨t, ht, h⟩ := forLoop_triangles GradientLimitState.vertex_values
    GradientLimitState.edge_values
    (limit_gradient_by_neighbour_body beta c nb)
    (fun _ e k i => verticesOfLimitedNb beta c nb e k i)
    (fun _ e k i => limitedNb beta c nb e k i)
    (limit_gradient_by_neighbour_triangle beta c nb)
    (by
      intro v1 e1 v2 e2 k h i hi
      have he := limitedNb_congr beta c nb e1 e2 k (fun i hi => (h i hi).2)
      refine ⟨?_, he i hi⟩
      interval_cases i <;>
        simp only [verticesOfLimitedNb, he 0 (by decide), he 1 (by decide), he 2 (by decide)])
    N s
  exact ⟨t, by simp [_limit_gradient_by_neighbour, ht, andThen], h⟩

/-! ## Bounds on the multiplier -/

theorem cmin_eq (x y : ℚ) : min x y = Min.min x y := by
  unfold min
  split_ifs with h
  · exact (min_eq_left (le_of_lt h)).symm
  · exact (min_eq_right (not_lt.1 h)).symm

theorem cmax_eq (x y : ℚ) : max x y = Max.max x y := by
  unfold max
  split_ifs with h
  · exact (max_eq_left (le_of_lt h)).symm
  · exact (max_eq_right (not_lt.1 h)).symm

theorem phiStepNb_nonneg (beta qc : ℚ) (c : Nat → ℚ) (nb : Nat → Int) (k3 i : Nat)
    (dq phi : ℚ) (hb : 0 ≤ beta) (hphi : 0 ≤ phi) : 0 ≤ phiStepNb beta qc c nb k3 i dq phi := by
  unfold phiStepNb
  split_ifs
  · exact phiStep_nonneg _ _ _ _ _ _ (cmin_le_left _ _) (le_cmax_left _ _) hb hphi
  · exact hphi

theorem phiStepNb_le_phi (beta qc : ℚ) (c : Nat → ℚ) (nb : Nat → Int) (k3 i : Nat)
    (dq phi : ℚ) : phiStepNb beta qc c nb k3 i dq phi ≤ phi := by
  unfold phiStepNb
  split_ifs
  · exact phiStep_le_phi _ _ _ _ _ _
  · exact le_refl _

theorem phiStepNb_le_ratio (beta qc : ℚ) (c : Nat → ℚ) (nb : Nat → Int) (k3 i : Nat)
    (dq phi : ℚ) (hn : 0 ≤ nb (k3 + i)) :
    phiStepNb beta qc c nb k3 i dq phi ≤
      ratio (min qc (c (nb (k3 + i)).toNat)) (max qc (c (nb (k3 + i)).toNat)) qc dq * beta := by
  unfold phiStepNb
  rw [if_pos hn]
  exact phiStep_le_ratio _ _ _ _ _ _

theorem phiNb_nonneg (beta : ℚ) (c : Nat → ℚ) (nb : Nat → Int) (e : Nat → ℚ) (k : Nat)
    (hb : 0 ≤ beta) : 0 ≤ phiNb beta c nb e k :=
  phiStepNb_nonneg _ _ _ _ _ _ _ _ hb
    (phiStepNb_nonneg _ _ _ _ _ _ _ _ hb (phiStepNb_nonneg _ _ _ _ _ _ _ _ hb zero_le_one))

/-- The multiplier of a `_by_neighbour` limiter is below the ratio of every edge that has
a neighbour. -/
theorem phiNb_le_ratio (beta : ℚ) (c : Nat → ℚ) (nb : Nat → Int) (e : Nat → ℚ) (k i : Nat)
    (hi : i < 3) (hn : 0 ≤ nb (3 * k + i)) :
    phiNb beta c nb e k ≤
      ratio (min (c k) (c (nb (3 * k + i)).toNat)) (max (c k) (c (nb (3 * k + i)).toNat)) (c k)
        (e (3 * k + i) - c k) * beta := by
  unfold phiNb
  interval_cases i
  · exact le_trans (phiStepNb_le_phi _ _ _ _ _ _ _ _)
      (le_trans (phiStepNb_le_phi _ _ _ _ _ _ _ _) (phiStepNb_le_ratio _ _ _ _ _ _ _ _ hn))
  · exact le_trans (phiStepNb_le_phi _ _ _ _ _ _ _ _) (phiStepNb_le_ratio _ _ _ _ _ _ _ _ hn)
  · exact phiStepNb_le_ratio _ _ _ _ _ _ _ _ hn

/-- C17 (as amended): over exact arithmetic, for every `beta` with `0 < beta <= 1` and every
input, `_limit_edges_by_neighbour` returns 0 and afterwards, for every triangle `k < N` and
every edge `i` whose neighbour `n = neighbours[3k+i]` is non-negative, `edge_values[3k+i]`
lies between `centroid_values[k]` and `centroid_values[n]`. -/
theorem limit_edges_by_neighbour_in_edge_envelope (N : Nat) (beta : ℚ) (c : Nat → ℚ)
    (nb : Nat → Int) (s : LimitState) (hb0 : 0 < beta) (hb1 : beta ≤ 1) :
    ∃ t, _limit_edges_by_neighbour N beta c nb s = some (Ctl.ret 0 t) ∧
      ∀ k, k < N → ∀ i, i < 3 → 0 ≤ nb (3 * k + i) →
        Min.min (c k) (c (nb (3 * k + i)).toNat) ≤ t.edge_values (3 * k + i) ∧
          t.edge_values (3 * k + i) ≤ Max.max (c k) (c (nb (3 * k + i)).toNat) := by
  obtain ⟨t, ht, h⟩ := limit_edges_by_neighbour_spec N beta c nb s
  refine ⟨t, ht, ?_⟩
  intro k hk i hi hn
  rw [(h k i hi).2, if_pos hk, ← cmin_eq, ← cmax_eq]
  exact scaled_in_range _ _ _ _ beta _ (cmin_le_left _ _) (le_cmax_left _ _) hb1
    (phiNb_nonneg beta c nb _ k (le_of_lt hb0)) (phiNb_le_ratio beta c nb _ k i hi hn)

/-- C17 (as amended) at the three-triangle mesh with `beta = 1`. -/
theorem limit_edges_by_neighbour_in_edge_envelope_witness :
    ∃ t, _limit_edges_by_neighbour 3 1 exCentroids exNeighbours exLimitState =
        some (Ctl.ret 0 t) ∧
      ∀ k, k < 3 → ∀ i, i < 3 → 0 ≤ exNeighbours (3 * k + i) →
        Min.min (exCentroids k) (exCentroids (exNeighbours (3 * k + i)).toNat) ≤
            t.edge_values (3 * k + i) ∧
          t.edge_values (3 * k + i) ≤
            Max.max (exCentroids k) (exCentroids (exNeighbours (3 * k + i)).toNat) :=
  limit_edges_by_neighbour_in_edge_envelope 3 1 exCentroids exNeighbours exLimitState
    (by norm_num) (by norm_num)

/-! ## The limiters with `beta = 0` -/

theorem phiOf_beta_zero (c : Nat → ℚ) (nb : Nat → Int) (q : Nat → ℚ) (k : Nat) :
    phiOf 0 c nb q k = 0 := by
  simp [phiOf, phiAll, phiStep, min]

theorem phiStepNb_beta_zero_of_zero (qc : ℚ) (c : Nat → ℚ) (nb : Nat → Int) (k3 i : Nat)
    (dq : ℚ) : phiStepNb 0 qc c nb k3 i dq 0 = 0 := by
  simp [phiStepNb, phiStep, min]

theorem phiStepNb_beta_zero_of_neighbour (qc : ℚ) (c : Nat → ℚ) (nb : Nat → Int) (k3 i : Nat)
    (dq phi : ℚ) (hn : 0 ≤ nb (k3 + i)) (hphi : phi = 0 ∨ phi = 1) :
    phiStepNb 0 qc c nb k3 i dq phi = 0 := by
  rcases hphi with h | h <;> simp [phiStepNb, phiStep, min, hn, h]

theorem phiStepNb_beta_zero_cases (qc : ℚ) (c : Nat → ℚ) (nb : Nat → Int) (k3 i : Nat)
    (dq phi : ℚ) (hphi : phi = 0 ∨ phi = 1) :
    phiStepNb 0 qc c nb k3 i dq phi = 0 ∨ phiStepNb 0 qc c nb k3 i dq phi = 1 := by
  by_cases hn : 0 ≤ nb (k3 + i)
  · exact Or.inl (phiStepNb_beta_zero_of_neighbour qc c nb k3 i dq phi hn hphi)
  · rcases hphi with h | h <;> simp [phiStepNb, hn, h]

theorem phiNb_beta_zero (c : Nat → ℚ) (nb : Nat → Int) (e : Nat → ℚ) (k : Nat)
    (h : ∃ i, i < 3 ∧ 0 ≤ nb (3 * k + i)) : phiNb 0 c nb e k = 0 := by
  obtain ⟨i, hi, hn⟩ := h
  unfold phiNb
  have c0 := phiStepNb_beta_zero_cases (c k) c nb (3 * k) 0 (e (3 * k + 0) - c k) 1 (Or.inr rfl)
  have c1 := phiStepNb_beta_zero_cases (c k) c nb (3 * k) 1 (e (3 * k + 1) - c k) _ c0
  interval_cases i
  · have z0 := phiStepNb_beta_zero_of_neighbour (c k) c nb (3 * k) 0 (e (3 * k + 0) - c k) 1 hn
      (Or.inr rfl)
    rw [z0, phiStepNb_beta_zero_of_zero, phiStepNb_beta_zero_of_zero]
  · have z1 := phiStepNb_beta_zero_of_neighbour (c k) c nb (3 * k) 1 (e (3 * k + 1) - c k) _ hn c0
    rw [z1, phiStepNb_beta_zero_of_zero]
  · exact phiStepNb_beta_zero_of_neighbour (c k) c nb (3 * k) 2 (e (3 * k + 2) - c k) _ hn c1

theorem phiStepNb_no_neighbour (beta qc : ℚ) (c : Nat → ℚ) (nb : Nat → Int) (k3 i : Nat)
    (dq phi : ℚ) (hn : nb (k3 + i) < 0) : phiStepNb beta qc c nb k3 i dq phi = phi := by
  unfold phiStepNb
  rw [if_neg (not_le.2 hn)]

theorem phiNb_no_neighbour (beta : ℚ) (c : Nat → ℚ) (nb : Nat → Int) (e : Nat → ℚ) (k : Nat)
    (h : ∀ i, i < 3 → nb (3 * k + i) < 0) : phiNb beta c nb e k = 1 := by
  unfold phiNb
  rw [phiStepNb_no_neighbour _ _ _ _ _ 2 _ _ (h 2 (by decide)),
    phiStepNb_no_neighbour _ _ _ _ _ 1 _ _ (h 1 (by decide)),
    phiStepNb_no_neighbour _ _ _ _ _ 0 _ _ (h 0 (by decide))]

/-- Over exact arithmetic, with `beta = 0`, for both global-envelope limiters and every input,
the call returns 0 and afterwards all three vertex values and all three edge values of every
triangle `k < N` (in particular of every triangle with a non-zero deviation) equal
`centroid_values[k]`. -/
theorem limit_by_all_neighbours_beta_zero (N : Nat) (c : Nat → ℚ) (nb : Nat → Int)
    (s : LimitState) :
    (∃ t, _limit_vertices_by_all_neighbours N 0 c nb s = some (Ctl.ret 0 t) ∧
      ∀ k, k < N → ∀ i, i < 3 →
        t.vertex_values (3 * k + i) = c k ∧ t.edge_values (3 * k + i) = c k) ∧
    (∃ t, _limit_edges_by_all_neighbours N 0 c nb s = some (Ctl.ret 0 t) ∧
      ∀ k, k < N → ∀ i, i < 3 →
        t.vertex_values (3 * k + i) = c k ∧ t.edge_values (3 * k + i) = c k) := by
  constructor
  · obtain ⟨t, ht, h⟩ := limit_vertices_spec N 0 c nb s
    refine ⟨t, ht, ?_⟩
    intro k hk i hi
    rw [(h k i hi).1, (h k i hi).2, if_pos hk, if_pos hk]
    constructor
    · simp [limited, phiOf_beta_zero]
    · interval_cases i <;> simp [edgesOfLimited, limited, phiOf_beta_zero] <;> ring
  · obtain ⟨t, ht, h⟩ := limit_edges_spec N 0 c nb s
    refine ⟨t, ht, ?_⟩
    intro k hk i hi
    rw [(h k i hi).1, (h k i hi).2, if_pos hk, if_pos hk]
    constructor
    · interval_cases i <;> simp [verticesOfLimited, limited, phiOf_beta_zero]
    · simp [limited, phiOf_beta_zero]

/-- Over exact arithmetic, with `beta = 0`, for both per-edge limiters and every input, the
call returns 0 and afterwards all three edge values and all three vertex values of every
triangle `k < N` that has at least one non-negative `neighbours` entry equal
`centroid_values[k]`. -/
theorem limit_by_neighbour_beta_zero (N : Nat) (c : Nat → ℚ) (nb : Nat → Int)
    (s : LimitState) (sg : GradientLimitState) :
    (∃ t, _limit_edges_by_neighbour N 0 c nb s = some (Ctl.ret 0 t) ∧
      ∀ k, k < N → (∃ i, i < 3 ∧ 0 ≤ nb (3 * k + i)) → ∀ i, i < 3 →
        t.edge_values (3 * k + i) = c k ∧ t.vertex_values (3 * k + i) = c k) ∧
    (∃ t, _limit_gradient_by_neighbour N 0 c nb sg = some (Ctl.ret 0 t) ∧
      ∀ k, k < N → (∃ i, i < 3 ∧ 0 ≤ nb (3 * k + i)) → ∀ i, i < 3 →
        t.edge_values (3 * k + i) = c k ∧ t.vertex_values (3 * k + i) = c k) := by
  constructor
  · obtain ⟨t, ht, h⟩ := limit_edges_by_neighbour_spec N 0 c nb s
    refine ⟨t, ht, ?_⟩
    intro k hk hn i hi
    rw [(h k i hi).1, (h k i hi).2, if_pos hk, if_pos hk]
    constructor
    · simp [limitedNb, phiNb_beta_zero c nb _ k hn]
    · interval_cases i <;> simp [verticesOfLimitedNb, limitedNb, phiNb_beta_zero c nb _ k hn]
  · obtain ⟨t, ht, h⟩ := limit_gradient_by_neighbour_spec N 0 c nb sg
    refine ⟨t, ht, ?_⟩
    intro k hk hn i hi
    rw [(h k i hi).1, (h k i hi).2, if_pos hk, if_pos hk]
    constructor
    · simp [limitedNb, phiNb_beta_zero c nb _ k hn]
    · interval_cases i <;> simp [verticesOfLimitedNb, limitedNb, phiNb_beta_zero c nb _ k hn]

/-- C19 fails as stated: with `beta = 0` and no true neighbour, triangle 0 of the store with
centroid value 0 and edge values `-1, 1/2, 1/2` has non-zero edge deviations, yet after
`_limit_edges_by_neighbour` its edge value 0 is still `-1`, not the centroid value. -/
theorem limit_by_neighbour_beta_zero_keeps_isolated :
    exLimitState.edge_values 0 - exCentroids 0 ≠ 0 ∧
    ∃ t, _limit_edges_by_neighbour 1 0 exCentroids exNoNeighbours exLimitState =
        some (Ctl.ret 0 t) ∧
      exCentroids 0 = 0 ∧ t.edge_values 0 = -1 := by
  refine ⟨by simp [exLimitState, exCentroids], ?_⟩
  obtain ⟨t, ht, h⟩ := limit_edges_by_neighbour_spec 1 0 exCentroids exNoNeighbours exLimitState
  refine ⟨t, ht, by simp [exCentroids], ?_⟩
  have h0 := (h 0 0 (by decide)).2
  have hphi : phiNb 0 exCentroids exNoNeighbours exLimitState.edge_values 0 = 1 :=
    phiNb_no_neighbour 0 exCentroids exNoNeighbours _ 0 (fun _ _ => by simp [exNoNeighbours])
  simp only [limitedNb, hphi] at h0
  simpa [exCentroids, exLimitState] using h0

/-- The collapse of `limit_by_neighbour_beta_zero` at the three-triangle mesh, where every
triangle has a true neighbour: with `beta = 0` the edge value 0 and the vertex value 0 of
triangle 0 become the centroid value 0. -/
theorem limit_by_neighbour_beta_zero_witness :
    (∃ i, i < 3 ∧ 0 ≤ exNeighbours (3 * 0 + i)) ∧
    ∃ t, _limit_edges_by_neighbour 3 0 exCentroids exNeighbours exLimitState =
        some (Ctl.ret 0 t) ∧
      t.edge_values (3 * 0 + 0) = exCentroids 0 ∧ t.vertex_values (3 * 0 + 0) = exCentroids 0 := by
  have hn : ∃ i, i < 3 ∧ 0 ≤ exNeighbours (3 * 0 + i) := ⟨0, by decide, by simp [exNeighbours]⟩
  obtain ⟨t, ht, h⟩ := (limit_by_neighbour_beta_zero 3 exCentroids exNeighbours exLimitState
    (gradientLimitStoreOf exLimitState (fun _ => 0) (fun _ => 0))).1
  exact ⟨hn, t, ht, h 0 (by decide) hn 0 (by decide)⟩

/-! ## Limiting a reconstruction -/

theorem backup_loop (n : Nat) (m : CentroidMem) :
    forLoop backup_centroid_values_body n m = some (Ctl.next
      { centroid_values := m.centroid_values
        centroid_backup_values := fun k =>
          if k < n then m.centroid_values k else m.centroid_backup_values k }) := by
  induction n with
  | zero => simp [forLoop]
  | succ n ih =>
    rw [forLoop_succ, ih]
    simp only [andThen, backup_centroid_values_body]
    congr 3
    funext k
    rcases Nat.lt_trichotomy k n with h | h | h
    · have : k ≠ n := by omega
      simp [Function.update_noteq this, h, Nat.lt_succ_of_lt h]
    · subst h
      simp
    · have h1 : k ≠ n := by omega
      have h2 : ¬ k < n := by omega
      have h3 : ¬ k < n + 1 := by omega
      simp [Function.update_noteq h1, h2, h3]

theorem saxpy_loop (a b : ℚ) (n : Nat) (m : CentroidMem) :
    forLoop (saxpy_centroid_values_body a b) n m = some (Ctl.next
      { centroid_values := fun k =>
          if k < n then a * m.centroid_values k + b * m.centroid_backup_values k
          else m.centroid_values k
        centroid_backup_values := m.centroid_backup_values }) := by
  induction n with
  | zero => simp [forLoop]
  | succ n ih =>
    rw [forLoop_succ, ih]
    simp only [andThen, saxpy_centroid_values_body]
    congr 3
    funext k
    rcases Nat.lt_trichotomy k n with h | h | h
    · have : k ≠ n := by omega
      simp [Function.update_noteq this, h, Nat.lt_succ_of_lt h]
    · subst h
      simp
    · have h1 : k ≠ n := by omega
      have h2 : ¬ k < n := by omega
      have h3 : ¬ k < n + 1 := by omega
      simp [Function.update_noteq h1, h2, h3]

theorem backup_run (N : Nat) (m : CentroidMem) :
    _backup_centroid_values N m = some (Ctl.ret 0
      { centroid_values := m.centroid_values
        centroid_backup_values := fun k =>
          if k < N then m.centroid_values k else m.centroid_backup_values k }) := by
  unfold _backup_centroid_values
  rw [backup_loop]
  rfl

theorem saxpy_run (N : Nat) (a b : ℚ) (m : CentroidMem) :
    _saxpy_centroid_values N a b m = some (Ctl.ret 0
      { centroid_values := fun k =>
          if k < N then a * m.centroid_values k + b * m.centroid_backup_values k
          else m.centroid_values k
        centroid_backup_values := m.centroid_backup_values }) := by
  unfold _saxpy_centroid_values
  rw [saxpy_loop]
  rfl

/-! ## Properties of backup and blend -/

/-- C22: for every `N` and buffers, `_backup_centroid_values` returns 0 and afterwards
`centroid_backup_values[k] = centroid_values[k]` for every `k < N`, with `centroid_values`
unchanged. -/
theorem backup_centroid_values_spec (N : Nat) (m : CentroidMem) :
    ∃ m', _backup_centroid_values N m = some (Ctl.ret 0 m') ∧
      (∀ k, k < N → m'.centroid_backup_values k = m.centroid_values k) ∧
      m'.centroid_values = m.centroid_values := by
  refine ⟨_, backup_run N m, ?_, rfl⟩
  intro k hk
  simp [hk]

/-- C23: for every `a`, `b`, `N` and buffers, `_saxpy_centroid_values` returns 0 and
afterwards `centroid_values[k] = a*(old centroid_values[k]) + b*centroid_backup_values[k]` for
every `k < N`, with `centroid_backup_values` unchanged. -/
theorem saxpy_centroid_values_spec (N : Nat) (a b : ℚ) (m : CentroidMem) :
    ∃ m', _saxpy_centroid_values N a b m = some (Ctl.ret 0 m') ∧
      (∀ k, k < N →
        m'.centroid_values k = a * m.centroid_values k + b * m.centroid_backup_values k) ∧
      m'.centroid_backup_values = m.centroid_backup_values := by
  refine ⟨_, saxpy_run N a b m, ?_, rfl⟩
  intro k hk
  simp [hk]

/-- C24: for every centroid buffer `c`: after `_backup_centroid_values`,
`_saxpy_centroid_values` with `a = 1`, `b = 0` returns 0 and leaves `centroid_values` equal to
`c`; and after `_backup_centroid_values` followed by any overwrite `c1` of `centroid_values`,
`_saxpy_centroid_values` with `a = 0`, `b = 1` returns 0 and makes `centroid_values[k]` equal
to `c[k]` again for every `k < N`. -/
theorem backup_then_saxpy (N : Nat) (m : CentroidMem) :
    ∃ m1, _backup_centroid_values N m = some (Ctl.ret 0 m1) ∧
      (∃ m2, _saxpy_centroid_values N 1 0 m1 = some (Ctl.ret 0 m2) ∧
        m2.centroid_values = m.centroid_values) ∧
      (∀ c1 : Nat → ℚ, ∃ m3,
        _saxpy_centroid_values N 0 1 { m1 with centroid_values := c1 } = some (Ctl.ret 0 m3) ∧
        ∀ k, k < N → m3.centroid_values k = m.centroid_values k) := by
  refine ⟨_, backup_run N m, ⟨_, saxpy_run N 1 0 _, ?_⟩, fun c1 => ⟨_, saxpy_run N 0 1 _, ?_⟩⟩
  · funext k
    by_cases hk : k < N <;> simp [hk]
  · intro k hk
    simp [hk]

/-! ## Further properties of the time integrator -/

/-- C25 (as amended): over exact arithmetic, the implicit half-step of `_update` solves the
semi-implicit scheme in every cell it reaches: for every cell `k < N` with centroid value
`q != 0`, semi-implicit term `s` and `explicit_update[k] = 0` such that no cell `i <= k` has
a zero denominator, the call ends in a `return` (0, or -1 at a later cell) and the new value
`q'` of the cell satisfies `q' = q + timestep * H * q'` with `H = s / q`. -/
theorem update_solves_semi_implicit_scheme (N : Nat) (timestep : ℚ) (m : UpdateMem) (k : Nat)
    (hk : k < N) (hq : m.centroid_values k ≠ 0) (he : m.explicit_update k = 0)
    (h : ∀ i, i ≤ k → denom timestep m i ≠ 0) :
    ∃ code m', _update N timestep m = some (Ctl.ret code m') ∧
      m'.centroid_values k = m.centroid_values k +
        timestep * (m.semi_implicit_update k / m.centroid_values k) * m'.centroid_values k := by
  have hd := h k (le_refl k)
  have hrate : rate m k = m.semi_implicit_update k / m.centroid_values k := by
    simp [rate, hq]
  have hden : denom timestep m k = 1 - timestep * rate m k := rfl
  have hsolve : m.centroid_values k / denom timestep m k = m.centroid_values k +
      timestep * (m.semi_implicit_update k / m.centroid_values k) *
        (m.centroid_values k / denom timestep m k) := by
    rw [← hrate]
    field_simp
    rw [hden]
    ring
  rcases update_cases N timestep m with ⟨_, hr⟩ | ⟨j, _, h0, _, hr⟩
  · refine ⟨0, _, hr, ?_⟩
    simp only [updateStepped, if_pos hk, he, mul_zero, add_zero]
    exact hsolve
  · have hkj : k < j := by
      by_contra hc
      exact h j (not_lt.1 hc) h0
    refine ⟨-1, _, hr, ?_⟩
    simp only [updateAborted, if_pos hkj]
    exact hsolve

/-- C25 (as amended) at cell 0 of the store `(c, e, s) = (2, 0, 1), (0, 5, 7)` with
`timestep = 1/2`:
the new value satisfies `q' = 2 + (1/2)*(1/2)*q'`. -/
theorem update_solves_semi_implicit_scheme_witness :
    ∃ code m', _update 2 (1 / 2) exUpdateScheme = some (Ctl.ret code m') ∧
      m'.centroid_values 0 = 2 + 1 / 2 * (1 / 2) * m'.centroid_values 0 := by
  have hd : ∀ i, i ≤ 0 → denom (1 / 2) exUpdateScheme i ≠ 0 := by
    intro i hi
    have : i = 0 := by omega
    subst this
    simp [denom, rate, exUpdateScheme]
    norm_num
  obtain ⟨code, m', hr, hs⟩ := update_solves_semi_implicit_scheme 2 (1 / 2) exUpdateScheme 0
    (by decide) (by simp [exUpdateScheme]) (by simp [exUpdateScheme]) hd
  refine ⟨code, m', hr, ?_⟩
  simpa [exUpdateScheme] using hs

/-- C25 fails as stated: on the store `c = [2, 2]`, `s = [2, 1]` without explicit update and
with `timestep = 1`, cell 1 has `q = 2 != 0`, `H = s/q = 1/2` and the non-zero denominator
`1 - timestep*H = 1/2`; but the denominator of cell 0 is 0, the call returns -1 at cell 0
and cell 1 keeps the value 2, which is not a solution of `q' = q + timestep*H*q'`
(the solution is 4). -/
theorem update_leaves_cells_after_failure :
    exUpdateUnreached.centroid_values 1 ≠ 0 ∧ exUpdateUnreached.explicit_update 1 = 0 ∧
    1 - 1 * (exUpdateUnreached.semi_implicit_update 1 / exUpdateUnreached.centroid_values 1) ≠ 0 ∧
    ∃ m', _update 2 1 exUpdateUnreached = some (Ctl.ret (-1) m') ∧
      m'.centroid_values 1 = 2 ∧
      m'.centroid_values 1 ≠ exUpdateUnreached.centroid_values 1 +
        1 * (exUpdateUnreached.semi_implicit_update 1 / exUpdateUnreached.centroid_values 1) *
          m'.centroid_values 1 := by
  have h0 : denom 1 exUpdateUnreached 0 = 0 := by
    simp [denom, rate, exUpdateUnreached]
  have h1 : ∀ k, k < 0 → denom 1 exUpdateUnreached k ≠ 0 := by
    intro k hk
    omega
  refine ⟨by simp [exUpdateUnreached], by simp [exUpdateUnreached],
    by simp [exUpdateUnreached]; norm_num, updateAborted 2 1 exUpdateUnreached 0,
    update_failure 2 1 exUpdateUnreached 0 (by decide) h0 h1, ?_, ?_⟩
  · simp [updateAborted, exUpdateUnreached]
  · simp [updateAborted, exUpdateUnreached]

/-- C26: when cell `j < N` is the first one whose denominator is 0, `_update` returns -1 and
leaves exactly the partially processed store: `centroid_values[k]` is the entry value divided
by `1 - timestep*h[k]` for every `k < j` and the entry value for every `k >= j` (no explicit
update has been applied), `semi_implicit_update[k]` is the normalised rate `h[k]` for every
`k < N`, and `explicit_update` is unchanged. -/
theorem update_failure_leaves_partial_state (N : Nat) (timestep : ℚ) (m : UpdateMem) (j : Nat)
    (hj : j < N) (h0 : denom timestep m j = 0) (hfirst : ∀ k, k < j → denom timestep m k ≠ 0) :
    ∃ m', _update N timestep m = some (Ctl.ret (-1) m') ∧
      (∀ k, k < j → m'.centroid_values k = m.centroid_values k / denom timestep m k) ∧
      (∀ k, j ≤ k → m'.centroid_values k = m.centroid_values k) ∧
      (∀ k, k < N → m'.semi_implicit_update k = rate m k) ∧
      m'.explicit_update = m.explicit_update := by
  refine ⟨_, update_failure N timestep m j hj h0 hfirst, ?_, ?_, ?_, rfl⟩
  · intro k hk
    simp [updateAborted, hk]
  · intro k hk
    have : ¬ k < j := by omega
    simp [updateAborted, this]
  · intro k hk
    simp [updateAborted, hk]

/-- C26 at the store `c = [1, 2]`, `s = [1/2, 2]`, `timestep = 1`, whose first singular cell
is 1: the call returns -1 with `centroid_values = [2, 2]` and
`semi_implicit_update = [1/2, 1]`. -/
theorem update_failure_leaves_partial_state_witness :
    denom 1 exUpdateFail 1 = 0 ∧ (∀ k, k < 1 → denom 1 exUpdateFail k ≠ 0) ∧
    ∃ m', _update 2 1 exUpdateFail = some (Ctl.ret (-1) m') ∧
      m'.centroid_values 0 = 2 ∧ m'.centroid_values 1 = 2 ∧
      m'.semi_implicit_update 0 = 1 / 2 ∧ m'.semi_implicit_update 1 = 1 ∧
      m'.explicit_update = exUpdateFail.explicit_update := by
  have h0 : denom 1 exUpdateFail 1 = 0 := by
    simp [denom, rate, exUpdateFail]
  have h1 : ∀ k, k < 1 → denom 1 exUpdateFail k ≠ 0 := by
    intro k hk
    interval_cases k
    simp [denom, rate, exUpdateFail]
    norm_num
  obtain ⟨m', hr, hlt, hge, hs, he⟩ :=
    update_failure_leaves_partial_state 2 1 exUpdateFail 1 (by decide) h0 h1
  refine ⟨h0, h1, m', hr, ?_, ?_, ?_, ?_, he⟩
  · rw [hlt 0 (by decide)]
    simp [denom, rate, exUpdateFail]
    norm_num
  · rw [hge 1 (le_refl 1)]
    simp [exUpdateFail]
  · rw [hs 0 (by decide)]
    simp [rate, exUpdateFail]
  · rw [hs 1 (by decide)]
    simp [rate, exUpdateFail]

/-! ## The gradient buffers of `_limit_gradient_by_neighbour` -/

theorem limit_gradient_by_neighbour_body_gradients (beta : ℚ) (c : Nat → ℚ) (nb : Nat → Int)
    (k : Nat) (t : GradientLimitState) :
    ∃ t', limit_gradient_by_neighbour_body beta c nb k t = some (Ctl.next t') ∧
      t'.x_gradient = t.x_gradient ∧ t'.y_gradient = t.y_gradient := by
  unfold limit_gradient_by_neighbour_body
  simp only [forLoop, andThen, limit_gradient_by_neighbour_phi_body_eq]
  exact ⟨_, rfl, rfl, rfl⟩

theorem limit_gradient_by_neighbour_gradients (N : Nat) (beta : ℚ) (c : Nat → ℚ)
    (nb : Nat → Int) (s : GradientLimitState) :
    ∃ t, _limit_gradient_by_neighbour N beta c nb s = some (Ctl.ret 0 t) ∧
      t.x_gradient = s.x_gradient ∧ t.y_gradient = s.y_gradient := by
  obtain ⟨t, ht, h⟩ := forLoop_invariant (limit_gradient_by_neighbour_body beta c nb)
    (fun _ t => t.x_gradient = s.x_gradient ∧ t.y_gradient = s.y_gradient) N s ⟨rfl, rfl⟩
    (by
      intro k _ t ht
      obtain ⟨t', hb, hx, hy⟩ := limit_gradient_by_neighbour_body_gradients beta c nb k t
      exact ⟨t', hb, hx.trans ht.1, hy.trans ht.2⟩)
  exact ⟨t, by simp [_limit_gradient_by_neighbour, ht, andThen], h⟩

/-! ## Further properties of the `_by_neighbour` limiters -/

/-- C21: for every `N`, `beta` and buffers, `_limit_gradient_by_neighbour` and
`_limit_edges_by_neighbour` both return 0 on the same inputs, produce exactly the same
`edge_values` and `vertex_values`, and `x_gradient` and `y_gradient` are left unchanged. -/
theorem limit_gradient_by_neighbour_refines_limit_edges (N : Nat) (beta : ℚ) (c : Nat → ℚ)
    (nb : Nat → Int) (s : LimitState) (xg yg : Nat → ℚ) :
    ∃ t tg, _limit_edges_by_neighbour N beta c nb s = some (Ctl.ret 0 t) ∧
      _limit_gradient_by_neighbour N beta c nb (gradientLimitStoreOf s xg yg) =
        some (Ctl.ret 0 tg) ∧
      tg.edge_values = t.edge_values ∧ tg.vertex_values = t.vertex_values ∧
      tg.x_gradient = xg ∧ tg.y_gradient = yg := by
  obtain ⟨t, ht, h⟩ := limit_edges_by_neighbour_spec N beta c nb s
  obtain ⟨tg, htg, hg⟩ := limit_gradient_by_neighbour_spec N beta c nb
    (gradientLimitStoreOf s xg yg)
  obtain ⟨tg', htg', hx, hy⟩ := limit_gradient_by_neighbour_gradients N beta c nb
    (gradientLimitStoreOf s xg yg)
  have heq : tg' = tg := by
    rw [htg] at htg'
    simp only [Option.some.injEq, Ctl.ret.injEq, true_and] at htg'
    exact htg'.symm
  subst heq
  refine ⟨t, tg', ht, htg, ?_, ?_, hx, hy⟩
  · funext j
    obtain ⟨k, i, hi, rfl⟩ := index_split j
    rw [(hg k i hi).2, (h k i hi).2]
    rfl
  · funext j
    obtain ⟨k, i, hi, rfl⟩ := index_split j
    rw [(hg k i hi).1, (h k i hi).1]
    rfl

/-- Over exact arithmetic, for `_limit_edges_by_neighbour` with any `beta` and any input, the
call returns 0 and for every triangle `k < N` all three of whose `neighbours` entries are
negative, `phi` stays 1, the three edge values after the call (rewritten as
`qc + phi*(e_i - qc)`) equal the input edge values, and the vertex values are
`vertex[i] = edge[j] + edge[l] - edge[i]` computed from those edge values. -/
theorem limit_edges_by_neighbour_isolated (N : Nat) (beta : ℚ) (c : Nat → ℚ) (nb : Nat → Int)
    (s : LimitState) :
    ∃ t, _limit_edges_by_neighbour N beta c nb s = some (Ctl.ret 0 t) ∧
      ∀ k, k < N → (∀ i, i < 3 → nb (3 * k + i) < 0) →
        phiNb beta c nb s.edge_values k = 1 ∧
        (∀ i, i < 3 → t.edge_values (3 * k + i) = s.edge_values (3 * k + i)) ∧
        t.vertex_values (3 * k + 0) =
          s.edge_values (3 * k + 1) + s.edge_values (3 * k + 2) - s.edge_values (3 * k + 0) ∧
        t.vertex_values (3 * k + 1) =
          s.edge_values (3 * k + 2) + s.edge_values (3 * k + 0) - s.edge_values (3 * k + 1) ∧
        t.vertex_values (3 * k + 2) =
          s.edge_values (3 * k + 0) + s.edge_values (3 * k + 1) - s.edge_values (3 * k + 2) := by
  obtain ⟨t, ht, h⟩ := limit_edges_by_neighbour_spec N beta c nb s
  refine ⟨t, ht, ?_⟩
  intro k hk hn
  have hphi := phiNb_no_neighbour beta c nb s.edge_values k hn
  have hl : ∀ i, limitedNb beta c nb s.edge_values k i = s.edge_values (3 * k + i) := by
    intro i
    unfold limitedNb
    rw [hphi]
    ring
  refine ⟨hphi, ?_, ?_, ?_, ?_⟩
  · intro i hi
    rw [(h k i hi).2, if_pos hk, hl]
  · rw [(h k 0 (by decide)).1, if_pos hk]
    simp only [verticesOfLimitedNb, hl]
  · rw [(h k 1 (by decide)).1, if_pos hk]
    simp only [verticesOfLimitedNb, hl]
  · rw [(h k 2 (by decide)).1, if_pos hk]
    simp only [verticesOfLimitedNb, hl]

/-! ## Further properties shared by the limiters -/

/-- C28: a division by zero makes a run `none`, and for each of the four limiters and every
input (any `beta`, any values) the run is `some`: every division executed has a non-zero
divisor; and the limiter returns 0. -/
theorem limiters_never_divide_by_zero (N : Nat) (beta : ℚ) (c : Nat → ℚ) (nb : Nat → Int)
    (s : LimitState) (sg : GradientLimitState) :
    (∀ x : ℚ, fdiv x 0 = none) ∧
    (∃ t, _limit_vertices_by_all_neighbours N beta c nb s = some (Ctl.ret 0 t)) ∧
    (∃ t, _limit_edges_by_all_neighbours N beta c nb s = some (Ctl.ret 0 t)) ∧
    (∃ t, _limit_edges_by_neighbour N beta c nb s = some (Ctl.ret 0 t)) ∧
    (∃ t, _limit_gradient_by_neighbour N beta c nb sg = some (Ctl.ret 0 t)) := by
  refine ⟨fun x => by simp [fdiv], ?_, ?_, ?_, ?_⟩
  · obtain ⟨t, ht, _⟩ := limit_vertices_spec N beta c nb s
    exact ⟨t, ht⟩
  · obtain ⟨t, ht, _⟩ := limit_edges_spec N beta c nb s
    exact ⟨t, ht⟩
  · obtain ⟨t, ht, _⟩ := limit_edges_by_neighbour_spec N beta c nb s
    exact ⟨t, ht⟩
  · obtain ⟨t, ht, _⟩ := limit_gradient_by_neighbour_spec N beta c nb sg
    exact ⟨t, ht⟩

theorem consistent_of_edges (v e : Nat → ℚ) (k : Nat)
    (h0 : e (3 * k + 0) = 0.5 * (v (3 * k + 1) + v (3 * k + 2)))
    (h1 : e (3 * k + 1) = 0.5 * (v (3 * k + 2) + v (3 * k + 0)))
    (h2 : e (3 * k + 2) = 0.5 * (v (3 * k + 0) + v (3 * k + 1))) : consistent v e k := by
  have half : (0.5 : ℚ) = 1 / 2 := by norm_num
  rw [half] at h0 h1 h2
  refine ⟨⟨?_, ?_, ?_⟩, ⟨?_, ?_, ?_⟩⟩ <;> simp only [h0, h1, h2] <;> ring

theorem consistent_of_vertices (v e : Nat → ℚ) (k : Nat)
    (h0 : v (3 * k + 0) = e (3 * k + 1) + e (3 * k + 2) - e (3 * k + 0))
    (h1 : v (3 * k + 1) = e (3 * k + 2) + e (3 * k + 0) - e (3 * k + 1))
    (h2 : v (3 * k + 2) = e (3 * k + 0) + e (3 * k + 1) - e (3 * k + 2)) : consistent v e k := by
  refine ⟨⟨?_, ?_, ?_⟩, ⟨h0, h1, h2⟩⟩ <;> simp only [h0, h1, h2] <;> ring

/-- Over exact arithmetic, after `_extrapolate_from_gradient` and after each of the four
limiters (each of which returns 0), whatever the input vertex and edge values were, every
triangle `k < N` has `edge_values[3k+i]` equal to half the sum of its two vertex values at
the local indices other than `i`, equivalently `vertex[i] = edge[j] + edge[l] - edge[i]`. -/
theorem vertex_edge_consistency (N : Nat) (beta : ℚ) (centroids c X a b : Nat → ℚ)
    (nb : Nat → Int) (m : VEMem) (s : LimitState) (sg : GradientLimitState) :
    (∃ t, _extrapolate_from_gradient N centroids c X a b m = some (Ctl.ret 0 t) ∧
      ∀ k, k < N → consistent t.vertex_values t.edge_values k) ∧
    (∃ t, _limit_vertices_by_all_neighbours N beta c nb s = some (Ctl.ret 0 t) ∧
      ∀ k, k < N → consistent t.vertex_values t.edge_values k) ∧
    (∃ t, _limit_edges_by_all_neighbours N beta c nb s = some (Ctl.ret 0 t) ∧
      ∀ k, k < N → consistent t.vertex_values t.edge_values k) ∧
    (∃ t, _limit_edges_by_neighbour N beta c nb s = some (Ctl.ret 0 t) ∧
      ∀ k, k < N → consistent t.vertex_values t.edge_values k) ∧
    (∃ t, _limit_gradient_by_neighbour N beta c nb sg = some (Ctl.ret 0 t) ∧
      ∀ k, k < N → consistent t.vertex_values t.edge_values k) := by
  refine ⟨?_, ?_, ?_, ?_, ?_⟩
  · obtain ⟨t, ht, h⟩ := extrapolate_spec N centroids c X a b m
    refine ⟨t, ht, fun k hk => ?_⟩
    have h0 := h k 0 (by decide)
    have h1 := h k 1 (by decide)
    have h2 := h k 2 (by decide)
    simp only [if_pos hk] at h0 h1 h2
    apply consistent_of_edges
    · rw [h0.2, h1.1, h2.1]; rfl
    · rw [h1.2, h2.1, h0.1]; rfl
    · rw [h2.2, h0.1, h1.1]; rfl
  · obtain ⟨t, ht, h⟩ := limit_vertices_spec N beta c nb s
    refine ⟨t, ht, fun k hk => ?_⟩
    have h0 := h k 0 (by decide)
    have h1 := h k 1 (by decide)
    have h2 := h k 2 (by decide)
    simp only [if_pos hk] at h0 h1 h2
    apply consistent_of_edges
    · rw [h0.2, h1.1, h2.1]; rfl
    · rw [h1.2, h2.1, h0.1]; rfl
    · rw [h2.2, h0.1, h1.1]; rfl
  · obtain ⟨t, ht, h⟩ := limit_edges_spec N beta c nb s
    refine ⟨t, ht, fun k hk => ?_⟩
    have h0 := h k 0 (by decide)
    have h1 := h k 1 (by decide)
    have h2 := h k 2 (by decide)
    simp only [if_pos hk] at h0 h1 h2
    apply consistent_of_vertices
    · rw [h0.1, h0.2, h1.2, h2.2]; rfl
    · rw [h1.1, h0.2, h1.2, h2.2]; rfl
    · rw [h2.1, h0.2, h1.2, h2.2]; rfl
  · obtain ⟨t, ht, h⟩ := limit_edges_by_neighbour_spec N beta c nb s
    refine ⟨t, ht, fun k hk => ?_⟩
    have h0 := h k 0 (by decide)
    have h1 := h k 1 (by decide)
    have h2 := h k 2 (by decide)
    simp only [if_pos hk] at h0 h1 h2
    apply consistent_of_vertices
    · rw [h0.1, h0.2, h1.2, h2.2]; rfl
    · rw [h1.1, h0.2, h1.2, h2.2]; rfl
    · rw [h2.1, h0.2, h1.2, h2.2]; rfl
  · obtain ⟨t, ht, h⟩ := limit_gradient_by_neighbour_spec N beta c nb sg
    refine ⟨t, ht, fun k hk => ?_⟩
    have h0 := h k 0 (by decide)
    have h1 := h k 1 (by decide)
    have h2 := h k 2 (by decide)
    simp only [if_pos hk] at h0 h1 h2
    apply consistent_of_vertices
    · rw [h0.1, h0.2, h1.2, h2.2]; rfl
    · rw [h1.1, h0.2, h1.2, h2.2]; rfl
    · rw [h2.1, h0.2, h1.2, h2.2]; rfl

/-! ## Monotonicity of the multiplier in `beta` -/

theorem extrapolated_sum (centroids c X a b : Nat → ℚ) (k : Nat)
    (h : centroidIsMean centroids X k) :
    extrapolatedVertex centroids c X a b k 0 + extrapolatedVertex centroids c X a b k 1 +
      extrapolatedVertex centroids c X a b k 2 = 3 * c k := by
  obtain ⟨hx, hy⟩ := h
  simp only [extrapolatedVertex, hx, hy, Nat.mul_zero, Nat.mul_one, Nat.add_zero]
  ring

/-- Scaling three deviations by one multiplier keeps a sum of `3 * qc`. -/
theorem scaled_sum (qc phi q0 q1 q2 : ℚ) (h : q0 + q1 + q2 = 3 * qc) :
    (qc + phi * (q0 - qc)) + (qc + phi * (q1 - qc)) + (qc + phi * (q2 - qc)) = 3 * qc := by
  have : (qc + phi * (q0 - qc)) + (qc + phi * (q1 - qc)) + (qc + phi * (q2 - qc)) =
      3 * qc + phi * (q0 + q1 + q2 - 3 * qc) := by ring
  rw [this, h]
  ring

theorem meanIs_of_vertices (qc : ℚ) (v e : Nat → ℚ) (k : Nat)
    (hs : v (3 * k + 0) + v (3 * k + 1) + v (3 * k + 2) = 3 * qc)
    (hc : consistent v e k) : meanIs qc v e k := by
  obtain ⟨⟨e0, e1, e2⟩, _⟩ := hc
  constructor
  · rw [hs]
    ring
  · rw [e0, e1, e2]
    have : (v (3 * k + 1) + v (3 * k + 2)) / 2 + (v (3 * k + 2) + v (3 * k + 0)) / 2 +
        (v (3 * k + 0) + v (3 * k + 1)) / 2 =
        v (3 * k + 0) + v (3 * k + 1) + v (3 * k + 2) := by ring
    rw [this, hs]
    ring

theorem meanIs_of_edges (qc : ℚ) (v e : Nat → ℚ) (k : Nat)
    (hs : e (3 * k + 0) + e (3 * k + 1) + e (3 * k + 2) = 3 * qc)
    (hc : consistent v e k) : meanIs qc v e k := by
  obtain ⟨_, ⟨v0, v1, v2⟩⟩ := hc
  constructor
  · rw [v0, v1, v2]
    have : e (3 * k + 1) + e (3 * k + 2) - e (3 * k + 0) +
        (e (3 * k + 2) + e (3 * k + 0) - e (3 * k + 1)) +
        (e (3 * k + 0) + e (3 * k + 1) - e (3 * k + 2)) =
        e (3 * k + 0) + e (3 * k + 1) + e (3 * k + 2) := by ring
    rw [this, hs]
    ring
  · rw [hs]
    ring

/-- C31 (as amended): over exact arithmetic, for every gradient `(a, b)`, every `beta` and
every input, `_extrapolate_from_gradient` returns 0, each of the four limiters applied to the
values it produced returns 0, and for every triangle `k < N` whose centroid coordinate is the
mean of its three vertex coordinates, the extrapolated values and the values after each
limiter satisfy `(v0 + v1 + v2)/3 = centroid_values[k]` and
`(e0 + e1 + e2)/3 = centroid_values[k]`. -/
theorem cell_mean_conserved (N : Nat) (beta : ℚ) (centroids c X a b : Nat → ℚ)
    (nb : Nat → Int) (m : VEMem) (l : LimitState) (xg yg : Nat → ℚ) :
    ∃ m1, _extrapolate_from_gradient N centroids c X a b m = some (Ctl.ret 0 m1) ∧
      (∀ k, k < N → centroidIsMean centroids X k →
        meanIs (c k) m1.vertex_values m1.edge_values k) ∧
      (∃ t, _limit_vertices_by_all_neighbours N beta c nb (limitStoreOf m1 l) =
          some (Ctl.ret 0 t) ∧
        ∀ k, k < N → centroidIsMean centroids X k →
          meanIs (c k) t.vertex_values t.edge_values k) ∧
      (∃ t, _limit_edges_by_all_neighbours N beta c nb (limitStoreOf m1 l) =
          some (Ctl.ret 0 t) ∧
        ∀ k, k < N → centroidIsMean centroids X k →
          meanIs (c k) t.vertex_values t.edge_values k) ∧
      (∃ t, _limit_edges_by_neighbour N beta c nb (limitStoreOf m1 l) = some (Ctl.ret 0 t) ∧
        ∀ k, k < N → centroidIsMean centroids X k →
          meanIs (c k) t.vertex_values t.edge_values k) ∧
      (∃ t, _limit_gradient_by_neighbour N beta c nb
          (gradientLimitStoreOf (limitStoreOf m1 l) xg yg) = some (Ctl.ret 0 t) ∧
        ∀ k, k < N → centroidIsMean centroids X k →
          meanIs (c k) t.vertex_values t.edge_values k) := by
  obtain ⟨m1, hm1, hx⟩ := extrapolate_spec N centroids c X a b m
  have hmean : ∀ k, k < N → centroidIsMean centroids X k →
      meanIs (c k) m1.vertex_values m1.edge_values k := by
    intro k hk hc
    have h0 := hx k 0 (by decide)
    have h1 := hx k 1 (by decide)
    have h2 := hx k 2 (by decide)
    simp only [if_pos hk] at h0 h1 h2
    refine meanIs_of_vertices _ _ _ k ?_ (consistent_of_edges _ _ k ?_ ?_ ?_)
    · rw [h0.1, h1.1, h2.1]
      exact extrapolated_sum centroids c X a b k hc
    · rw [h0.2, h1.1, h2.1]; rfl
    · rw [h1.2, h2.1, h0.1]; rfl
    · rw [h2.2, h0.1, h1.1]; rfl
  have hvsum : ∀ k, k < N → centroidIsMean centroids X k →
      m1.vertex_values (3 * k + 0) + m1.vertex_values (3 * k + 1) +
        m1.vertex_values (3 * k + 2) = 3 * c k := by
    intro k hk hc
    have h3 := (div_eq_iff (by norm_num : (3 : ℚ) ≠ 0)).1 (hmean k hk hc).1
    rw [h3]
    ring
  have hesum : ∀ k, k < N → centroidIsMean centroids X k →
      m1.edge_values (3 * k + 0) + m1.edge_values (3 * k + 1) +
        m1.edge_values (3 * k + 2) = 3 * c k := by
    intro k hk hc
    have h3 := (div_eq_iff (by norm_num : (3 : ℚ) ≠ 0)).1 (hmean k hk hc).2
    rw [h3]
    ring
  refine ⟨m1, hm1, hmean, ?_, ?_, ?_, ?_⟩
  · obtain ⟨t, ht, h⟩ := limit_vertices_spec N beta c nb (limitStoreOf m1 l)
    refine ⟨t, ht, fun k hk hc => ?_⟩
    have h0 := h k 0 (by decide)
    have h1 := h k 1 (by decide)
    have h2 := h k 2 (by decide)
    simp only [if_pos hk] at h0 h1 h2
    refine meanIs_of_vertices _ _ _ k ?_ (consistent_of_edges _ _ k ?_ ?_ ?_)
    · rw [h0.1, h1.1, h2.1]
      exact scaled_sum _ _ _ _ _ (hvsum k hk hc)
    · rw [h0.2, h1.1, h2.1]; rfl
    · rw [h1.2, h2.1, h0.1]; rfl
    · rw [h2.2, h0.1, h1.1]; rfl
  · obtain ⟨t, ht, h⟩ := limit_edges_spec N beta c nb (limitStoreOf m1 l)
    refine ⟨t, ht, fun k hk hc => ?_⟩
    have h0 := h k 0 (by decide)
    have h1 := h k 1 (by decide)
    have h2 := h k 2 (by decide)
    simp only [if_pos hk] at h0 h1 h2
    refine meanIs_of_edges _ _ _ k ?_ (consistent_of_vertices _ _ k ?_ ?_ ?_)
    · rw [h0.2, h1.2, h2.2]
      exact scaled_sum _ _ _ _ _ (hesum k hk hc)
    · rw [h0.1, h0.2, h1.2, h2.2]; rfl
    · rw [h1.1, h0.2, h1.2, h2.2]; rfl
    · rw [h2.1, h0.2, h1.2, h2.2]; rfl
  · obtain ⟨t, ht, h⟩ := limit_edges_by_neighbour_spec N beta c nb (limitStoreOf m1 l)
    refine ⟨t, ht, fun k hk hc => ?_⟩
    have h0 := h k 0 (by decide)
    have h1 := h k 1 (by decide)
    have h2 := h k 2 (by decide)
    simp only [if_pos hk] at h0 h1 h2
    refine meanIs_of_edges _ _ _ k ?_ (consistent_of_vertices _ _ k ?_ ?_ ?_)
    · rw [h0.2, h1.2, h2.2]
      exact scaled_sum _ _ _ _ _ (hesum k hk hc)
    · rw [h0.1, h0.2, h1.2, h2.2]; rfl
    · rw [h1.1, h0.2, h1.2, h2.2]; rfl
    · rw [h2.1, h0.2, h1.2, h2.2]; rfl
  · obtain ⟨t, ht, h⟩ := limit_gradient_by_neighbour_spec N beta c nb
      (gradientLimitStoreOf (limitStoreOf m1 l) xg yg)
    refine ⟨t, ht, fun k hk hc => ?_⟩
    have h0 := h k 0 (by decide)
    have h1 := h k 1 (by decide)
    have h2 := h k 2 (by decide)
    simp only [if_pos hk] at h0 h1 h2
    refine meanIs_of_edges _ _ _ k ?_ (consistent_of_vertices _ _ k ?_ ?_ ?_)
    · rw [h0.2, h1.2, h2.2]
      exact scaled_sum _ _ _ _ _ (hesum k hk hc)
    · rw [h0.1, h0.2, h1.2, h2.2]; rfl
    · rw [h1.1, h0.2, h1.2, h2.2]; rfl
    · rw [h2.1, h0.2, h1.2, h2.2]; rfl

theorem exMesh_centroidIsMean : ∀ k, k < 2 → centroidIsMean exCentroidsPair exVertexCoordinates k := by
  intro k hk
  interval_cases k <;> simp [centroidIsMean, exCentroidsPair, exVertexCoordinates] <;> norm_num

/-- C31 (as amended) on the two-triangle mesh, whose centroids `(0, 0)` and `(2, 0)` are the means of
the vertex coordinates, with slope `a = 1` on triangle 0, centroid values `0, 1` and
`beta = 1`: the mean of triangle 0 is its centroid value after extrapolation and after the
vertex limiter and the per-edge limiter. -/
theorem cell_mean_conserved_witness :
    centroidIsMean exCentroidsPair exVertexCoordinates 0 ∧
    ∃ m1, _extrapolate_from_gradient 2 exCentroidsPair exCentroids exVertexCoordinates exSlope
        (fun _ => 0) exVEMem = some (Ctl.ret 0 m1) ∧
      meanIs (exCentroids 0) m1.vertex_values m1.edge_values 0 ∧
      (∃ t, _limit_vertices_by_all_neighbours 2 1 exCentroids exNeighboursPair
          (limitStoreOf m1 exLimitState) = some (Ctl.ret 0 t) ∧
        meanIs (exCentroids 0) t.vertex_values t.edge_values 0) ∧
      (∃ t, _limit_edges_by_neighbour 2 1 exCentroids exNeighboursPair
          (limitStoreOf m1 exLimitState) = some (Ctl.ret 0 t) ∧
        meanIs (exCentroids 0) t.vertex_values t.edge_values 0) := by
  have hc := exMesh_centroidIsMean 0 (by decide)
  obtain ⟨m1, hm1, hx, ⟨t1, ht1, h1⟩, _, ⟨t3, ht3, h3⟩, _⟩ := cell_mean_conserved 2 1
    exCentroidsPair exCentroids exVertexCoordinates exSlope (fun _ => 0) exNeighboursPair
    exVEMem exLimitState (fun _ => 0) (fun _ => 0)
  exact ⟨hc, m1, hm1, hx 0 (by decide) hc, ⟨t1, ht1, h1 0 (by decide) hc⟩,
    ⟨t3, ht3, h3 0 (by decide) hc⟩⟩

/-! ## A node without triangles -/

/-- At a node `m` with count 0 the loop only counts and sums, however many indices it is
given: the count never equals `k >= 1`. -/
theorem average_stalled (vii cnt : Nat → Int) (vv : Nat → ℚ) (start m : Nat) (A : Nat → ℚ)
    (r : Nat) (hz : cnt m = 0) :
    forLoop (fun i => average_vertex_values_body vii cnt vv (start + i)) r
        { A := A, k := 0, current_node := m, total := 0 } =
      some (Ctl.next { A := A, k := r, current_node := m, total := groupSum vii vv start r }) := by
  induction r with
  | zero => simp [forLoop, groupSum]
  | succ n ih =>
    rw [forLoop_succ, ih]
    have hne : cnt m ≠ ((n + 1 : Nat) : Int) := by omega
    simp only [andThen, average_vertex_values_body, if_neg hne, groupSum_succ]

/-- C32: if the nodes `0..M-1` all have counts at least 1, node `M` has count 0 and the
index list is long enough for the groups of the nodes before `M`, then
`_average_vertex_values` still returns 0, the current node is still `M` at the end, and
`A[M]` and every `A[m]` with `m > M` keep their values from before the call, however many
indices remain; the nodes before `M` hold their averages. -/
theorem average_vertex_values_stalls (N M : Nat) (vii cnt : Nat → Int) (vv A : Nat → ℚ)
    (hpos : ∀ m, m < M → 1 ≤ cnt m) (hzero : cnt M = 0) (hN : groupStart cnt M ≤ N) :
    ∃ t, _average_vertex_values N vii cnt vv A = some (Ctl.ret 0 t) ∧
      (∀ m, M ≤ m → t.A m = A m) ∧ t.current_node = M ∧
      (∀ m, m < M → t.A m =
        (Finset.sum (Finset.range (cnt m).toNat)
          fun j => vv (vii (groupStart cnt m + j)).toNat) / (cnt m : ℚ)) := by
  obtain ⟨r, hr⟩ : ∃ r, N = groupStart cnt M + r := ⟨N - groupStart cnt M, by omega⟩
  subst hr
  have hrun : _average_vertex_values (groupStart cnt M + r) vii cnt vv A = some (Ctl.ret 0
      { A := fun m => if m < M then groupAverage vii cnt vv m else A m
        k := r, current_node := M
        total := groupSum vii vv (groupStart cnt M) r }) := by
    unfold _average_vertex_values
    simp only []
    rw [forLoop_add, average_nodes vii cnt vv A M hpos]
    simp only [andThen]
    rw [average_stalled vii cnt vv (groupStart cnt M) M _ r hzero]
  refine ⟨_, hrun, ?_, rfl, ?_⟩
  · intro m hm
    have : ¬ m < M := by omega
    simp [this]
  · intro m hm
    simp [hm, groupAverage, groupSum]

/-- C32 at three indices referencing the values 1, 2, 3 with the counts `1, 0, 2`: node 0
gets its average 1, and `A[1]`, `A[2]` keep their entry value 7. -/
theorem average_vertex_values_stalls_witness :
    exStalledCounts 1 = 0 ∧
    ∃ t, _average_vertex_values 3 exVertexValueIndices exStalledCounts exVertexValues
        (fun _ => 7) = some (Ctl.ret 0 t) ∧
      t.A 0 = 1 ∧ t.A 1 = 7 ∧ t.A 2 = 7 ∧ t.current_node = 1 := by
  have hz : exStalledCounts 1 = 0 := by simp [exStalledCounts]
  obtain ⟨t, ht, hA, hcur, hlow⟩ := average_vertex_values_stalls 3 1 exVertexValueIndices
    exStalledCounts exVertexValues (fun _ => 7)
    (by intro m hm; interval_cases m; simp [exStalledCounts]) hz
    (by simp [groupStart, exStalledCounts])
  refine ⟨hz, t, ht, ?_, hA 1 (le_refl 1), hA 2 (by decide), hcur⟩
  rw [hlow 0 (by decide)]
  simp [groupStart, exStalledCounts, exVertexValueIndices, exVertexValues]

/-! ## Double precision: rounding and overflow in the limiters and the extrapolator -/

/-- A run that passes the test `returnsWith` has returned `code` with a store passing `p`. -/
theorem exists_of_returnsWith {σ : Type} (r : Exec σ) (code : Int) (p : σ → Bool)
    (h : returnsWith r code p = true) : ∃ s, r = some (Ctl.ret code s) ∧ p s = true := by
  unfold returnsWith at h
  split at h
  · rename_i c s
    simp only [Bool.and_eq_true, decide_eq_true_eq] at h
    exact ⟨s, by rw [h.1], h.2⟩
  · exact absurd h (by decide)

/-- Sample values of the rounding: `0.1` and `-0.3` are not doubles and round to the
neighbouring ones, `0.5` and `1` are doubles, `0.1 + 0.2` is not `0.3`, `1e400` overflows
and `1e-400` underflows to zero. -/
theorem double_round_samples :
    dbl 0.1 = Double.fin (3602879701896397 / 2 ^ 55) ∧
    dbl (-0.3) = Double.fin (-5404319552844595 / 2 ^ 54) ∧
    dbl 0.5 = Double.fin 0.5 ∧ dbl 1 = Double.fin 1 ∧
    Double.add (dbl 0.1) (dbl 0.2) = dbl 0.30000000000000004 ∧
    Double.add (dbl 0.1) (dbl 0.2) ≠ dbl 0.3 ∧
    dbl 1e400 = Double.inf false ∧ dbl 1e-400 = Double.fin 0 := by
  decide!

/-- C1 fails as stated: with `beta = 1` on the three-triangle mesh with centroid values
`1.76, -0.06, -0.3`, triangle 0 has the neighbours 1 and 2, so `qmin_0` is the double `-0.3`;
its vertex values `0.231, 1.72, -0.3` give `phi = 1` and `_limit_vertices_by_all_neighbours`
stores `1.76 + 1*(-0.3 - 1.76)`, which in doubles is `-0.30000000000000004`, below the
centroid value of triangle 0 and of both its neighbours. -/
theorem limit_vertices_rounds_out_of_envelope :
    (∀ j, j < 3 * 3 → exNeighbours j < 0 ∨ exNeighbours j < (3 : Nat)) ∧
    ∃ t, _limit_vertices_by_all_neighbours_double 3 (dbl 1) exRoundingCentroids exNeighbours
        exRoundingStore = some (Ctl.ret 0 t) ∧
      t.vertex_values 2 = dbl (-0.30000000000000004) ∧
      Double.lt (t.vertex_values 2) (exRoundingCentroids 0) = true ∧
      Double.lt (t.vertex_values 2) (exRoundingCentroids 1) = true ∧
      Double.lt (t.vertex_values 2) (exRoundingCentroids 2) = true := by
  refine ⟨exNeighbours_valid, ?_⟩
  obtain ⟨t, ht, hp⟩ := exists_of_returnsWith
    (_limit_vertices_by_all_neighbours_double 3 (dbl 1) exRoundingCentroids exNeighbours
      exRoundingStore) 0
    (fun t => decide (t.vertex_values 2 = dbl (-0.30000000000000004)) &&
      (Double.lt (t.vertex_values 2) (exRoundingCentroids 0) &&
        (Double.lt (t.vertex_values 2) (exRoundingCentroids 1) &&
          Double.lt (t.vertex_values 2) (exRoundingCentroids 2)))) (by decide!)
  simp only [Bool.and_eq_true, decide_eq_true_eq] at hp
  exact ⟨t, ht, hp⟩

/-- C2 fails as stated: on the same mesh with the edge values `0.231, 1.72, -0.3` on
triangle 0 and `beta = 1`, `_limit_edges_by_all_neighbours` finds `phi = 1` and stores the
edge value `1.76 + 1*(-0.3 - 1.76)`, in doubles `-0.30000000000000004`, below `qmin_0`,
the double `-0.3`: it is below the centroid value of triangle 0 and of both its
neighbours. -/
theorem limit_edges_rounds_out_of_envelope :
    (∀ j, j < 3 * 3 → exNeighbours j < 0 ∨ exNeighbours j < (3 : Nat)) ∧
    ∃ t, _limit_edges_by_all_neighbours_double 3 (dbl 1) exRoundingCentroids exNeighbours
        exRoundingStore = some (Ctl.ret 0 t) ∧
      t.edge_values 2 = dbl (-0.30000000000000004) ∧
      Double.lt (t.edge_values 2) (exRoundingCentroids 0) = true ∧
      Double.lt (t.edge_values 2) (exRoundingCentroids 1) = true ∧
      Double.lt (t.edge_values 2) (exRoundingCentroids 2) = true := by
  refine ⟨exNeighbours_valid, ?_⟩
  obtain ⟨t, ht, hp⟩ := exists_of_returnsWith
    (_limit_edges_by_all_neighbours_double 3 (dbl 1) exRoundingCentroids exNeighbours
      exRoundingStore) 0
    (fun t => decide (t.edge_values 2 = dbl (-0.30000000000000004)) &&
      (Double.lt (t.edge_values 2) (exRoundingCentroids 0) &&
        (Double.lt (t.edge_values 2) (exRoundingCentroids 1) &&
          Double.lt (t.edge_values 2) (exRoundingCentroids 2)))) (by decide!)
  simp only [Bool.and_eq_true, decide_eq_true_eq] at hp
  exact ⟨t, ht, hp⟩

/-- In doubles the bounds of the edge variant hold up to rounding only: with `beta = 1`,
centroid values `0.745, 1.801, 1.257` and the edge values `0.745, 1.801, 1.801` on
triangle 0 (neighbours 1 and 2, so `qmin_0 = 0.745` and `qmax_0 = 1.801`), edge 1 is stored
as `1.8010000000000002 > qmax_0` and vertex 0 as `2.857`, above `2*qmax_0 - qmin_0`. -/
theorem limit_edges_vertices_round_out_of_bound :
    ∃ t, _limit_edges_by_all_neighbours_double 3 (dbl 1) exRoundingCentroidsUp exNeighbours
        exRoundingStoreUp = some (Ctl.ret 0 t) ∧
      t.edge_values 1 = dbl 1.8010000000000002 ∧
      Double.lt (exRoundingCentroidsUp 1) (t.edge_values 1) = true ∧
      t.vertex_values 0 = dbl 2.857 ∧
      2 * (exRoundingCentroidsUp 1).value - (exRoundingCentroidsUp 0).value <
        (t.vertex_values 0).value := by
  obtain ⟨t, ht, hp⟩ := exists_of_returnsWith
    (_limit_edges_by_all_neighbours_double 3 (dbl 1) exRoundingCentroidsUp exNeighbours
      exRoundingStoreUp) 0
    (fun t => decide (t.edge_values 1 = dbl 1.8010000000000002) &&
      (Double.lt (exRoundingCentroidsUp 1) (t.edge_values 1) &&
        (decide (t.vertex_values 0 = dbl 2.857) &&
          decide (2 * (exRoundingCentroidsUp 1).value - (exRoundingCentroidsUp 0).value <
            (t.vertex_values 0).value)))) (by decide!)
  simp only [Bool.and_eq_true, decide_eq_true_eq] at hp
  exact ⟨t, ht, hp⟩

/-- C17 fails as stated: on the two-triangle mesh with centroid values `1.76, -0.3` and
`beta = 1`, edge 0 of triangle 0 has the neighbour 1 and the input value `-0.3`, the
neighbour's centroid value. `_limit_edges_by_neighbour` finds `phi = 1` and stores
`1.76 + 1*(-0.3 - 1.76)`, in doubles `-0.30000000000000004`, below both centroid values. -/
theorem limit_edges_by_neighbour_rounds_past_neighbour :
    exNeighboursPair 0 = 1 ∧
    ∃ t, _limit_edges_by_neighbour_double 2 (dbl 1) exRoundingCentroidsPair exNeighboursPair
        exRoundingStorePair = some (Ctl.ret 0 t) ∧
      t.edge_values 0 = dbl (-0.30000000000000004) ∧
      Double.lt (t.edge_values 0) (exRoundingCentroidsPair 0) = true ∧
      Double.lt (t.edge_values 0) (exRoundingCentroidsPair 1) = true := by
  refine ⟨by decide, ?_⟩
  obtain ⟨t, ht, hp⟩ := exists_of_returnsWith
    (_limit_edges_by_neighbour_double 2 (dbl 1) exRoundingCentroidsPair exNeighboursPair
      exRoundingStorePair) 0
    (fun t => decide (t.edge_values 0 = dbl (-0.30000000000000004)) &&
      (Double.lt (t.edge_values 0) (exRoundingCentroidsPair 0) &&
        Double.lt (t.edge_values 0) (exRoundingCentroidsPair 1))) (by decide!)
  simp only [Bool.and_eq_true, decide_eq_true_eq] at hp
  exact ⟨t, ht, hp⟩

/-- C18 fails as stated: with `beta = 0`, centroid values `0, 1e300, -1e300` and the values
`1e-300, -1e-300, 1e-300` on triangle 0 (neighbours 1 and 2), the ratio
`(qmax - qc)/dq = 1e300/1e-300` overflows to an infinity, `r*beta` is a NaN, `min(NaN, 1.0)`
is `1.0` and `phi` stays 1: both `_by_all_neighbours` limiters leave the limited values at
`1e-300, -1e-300, 1e-300` instead of the centroid value 0. -/
theorem limit_by_all_neighbours_beta_zero_overflow :
    (∃ t, _limit_vertices_by_all_neighbours_double 3 (dbl 0) exOverflowCentroids exNeighbours
        exOverflowStore = some (Ctl.ret 0 t) ∧
      t.vertex_values 0 = dbl 1e-300 ∧ t.vertex_values 1 = dbl (-1e-300) ∧
      t.vertex_values 2 = dbl 1e-300 ∧ t.vertex_values 0 ≠ exOverflowCentroids 0) ∧
    (∃ t, _limit_edges_by_all_neighbours_double 3 (dbl 0) exOverflowCentroids exNeighbours
        exOverflowStore = some (Ctl.ret 0 t) ∧
      t.edge_values 0 = dbl 1e-300 ∧ t.edge_values 1 = dbl (-1e-300) ∧
      t.edge_values 2 = dbl 1e-300 ∧ t.edge_values 0 ≠ exOverflowCentroids 0) := by
  constructor
  · obtain ⟨t, ht, hp⟩ := exists_of_returnsWith
      (_limit_vertices_by_all_neighbours_double 3 (dbl 0) exOverflowCentroids exNeighbours
        exOverflowStore) 0
      (fun t => decide (t.vertex_values 0 = dbl 1e-300) &&
        (decide (t.vertex_values 1 = dbl (-1e-300)) &&
          (decide (t.vertex_values 2 = dbl 1e-300) &&
            decide (t.vertex_values 0 ≠ exOverflowCentroids 0)))) (by decide!)
    simp only [Bool.and_eq_true, decide_eq_true_eq] at hp
    exact ⟨t, ht, hp⟩
  · obtain ⟨t, ht, hp⟩ := exists_of_returnsWith
      (_limit_edges_by_all_neighbours_double 3 (dbl 0) exOverflowCentroids exNeighbours
        exOverflowStore) 0
      (fun t => decide (t.edge_values 0 = dbl 1e-300) &&
        (decide (t.edge_values 1 = dbl (-1e-300)) &&
          (decide (t.edge_values 2 = dbl 1e-300) &&
            decide (t.edge_values 0 ≠ exOverflowCentroids 0)))) (by decide!)
    simp only [Bool.and_eq_true, decide_eq_true_eq] at hp
    exact ⟨t, ht, hp⟩

/-- In doubles the collapse of the per-edge limiter at `beta = 0` also needs the ratio
not to overflow: on the input of `limit_by_all_neighbours_beta_zero_overflow`, edge 0 of
triangle 0 has the neighbour 1, yet `_limit_edges_by_neighbour` leaves its value at
`1e-300` instead of the centroid value 0. -/
theorem limit_by_neighbour_beta_zero_overflow :
    exNeighbours 0 = 1 ∧
    ∃ t, _limit_edges_by_neighbour_double 3 (dbl 0) exOverflowCentroids exNeighbours
        exOverflowStore = some (Ctl.ret 0 t) ∧
      t.edge_values 0 = dbl 1e-300 ∧ t.edge_values 0 ≠ exOverflowCentroids 0 := by
  refine ⟨by decide, ?_⟩
  obtain ⟨t, ht, hp⟩ := exists_of_returnsWith
    (_limit_edges_by_neighbour_double 3 (dbl 0) exOverflowCentroids exNeighbours
      exOverflowStore) 0
    (fun t => decide (t.edge_values 0 = dbl 1e-300) &&
      decide (t.edge_values 0 ≠ exOverflowCentroids 0)) (by decide!)
  simp only [Bool.and_eq_true, decide_eq_true_eq] at hp
  exact ⟨t, ht, hp⟩

/-- C27 fails as stated: for one triangle without neighbours, centroid value `1.76` and
edge values `0.231, 1.72, -0.3`, `_limit_edges_by_neighbour` keeps `phi = 1` and rewrites
every edge value as `1.76 + 1*(e - 1.76)`; in doubles edge 0 becomes `0.2310000000000001`
and edge 2 becomes `-0.30000000000000004`, not the input values. -/
theorem limit_edges_by_neighbour_isolated_rounds :
    (∀ j, exNoNeighbours j < 0) ∧
    ∃ t, _limit_edges_by_neighbour_double 1 (dbl 1) (doubles [1.76]) exNoNeighbours
        exRoundingStoreOne = some (Ctl.ret 0 t) ∧
      t.edge_values 0 = dbl 0.2310000000000001 ∧
      t.edge_values 0 ≠ exRoundingStoreOne.edge_values 0 ∧
      t.edge_values 2 = dbl (-0.30000000000000004) ∧
      t.edge_values 2 ≠ exRoundingStoreOne.edge_values 2 := by
  refine ⟨fun j => by simp [exNoNeighbours], ?_⟩
  obtain ⟨t, ht, hp⟩ := exists_of_returnsWith
    (_limit_edges_by_neighbour_double 1 (dbl 1) (doubles [1.76]) exNoNeighbours
      exRoundingStoreOne) 0
    (fun t => decide (t.edge_values 0 = dbl 0.2310000000000001) &&
      (decide (t.edge_values 0 ≠ exRoundingStoreOne.edge_values 0) &&
        (decide (t.edge_values 2 = dbl (-0.30000000000000004)) &&
          decide (t.edge_values 2 ≠ exRoundingStoreOne.edge_values 2)))) (by decide!)
  simp only [Bool.and_eq_true, decide_eq_true_eq] at hp
  exact ⟨t, ht, hp⟩

/-- C30 fails as stated: after `_limit_edges_by_all_neighbours` with `beta = 1` on the mesh
of `limit_edges_rounds_out_of_envelope`, triangle 0 holds the edge value
`e0 = 0.2310000000000001` and the vertex values `v1 = -1.789`, `v2 = 2.2510000000000003`
(written as `e2 + e0 - e1` and `e0 + e1 - e2`); half their sum is `0.2310000000000002` when
computed in doubles, and it differs from `e0` when computed exactly too. -/
theorem limit_edges_breaks_half_sum :
    ∃ t, _limit_edges_by_all_neighbours_double 3 (dbl 1) exRoundingCentroids exNeighbours
        exRoundingStore = some (Ctl.ret 0 t) ∧
      t.edge_values 0 = dbl 0.2310000000000001 ∧
      t.vertex_values 1 = dbl (-1.789) ∧ t.vertex_values 2 = dbl 2.2510000000000003 ∧
      Double.mul (Double.fin 0.5) (Double.add (t.vertex_values 1) (t.vertex_values 2)) =
        dbl 0.2310000000000002 ∧
      Double.mul (Double.fin 0.5) (Double.add (t.vertex_values 1) (t.vertex_values 2)) ≠
        t.edge_values 0 ∧
      ((t.vertex_values 1).value + (t.vertex_values 2).value) / 2 ≠
        (t.edge_values 0).value := by
  obtain ⟨t, ht, hp⟩ := exists_of_returnsWith
    (_limit_edges_by_all_neighbours_double 3 (dbl 1) exRoundingCentroids exNeighbours
      exRoundingStore) 0
    (fun t => decide (t.edge_values 0 = dbl 0.2310000000000001) &&
      (decide (t.vertex_values 1 = dbl (-1.789)) &&
        (decide (t.vertex_values 2 = dbl 2.2510000000000003) &&
          (decide (Double.mul (Double.fin 0.5)
              (Double.add (t.vertex_values 1) (t.vertex_values 2)) = dbl 0.2310000000000002) &&
            (decide (Double.mul (Double.fin 0.5)
                (Double.add (t.vertex_values 1) (t.vertex_values 2)) ≠ t.edge_values 0) &&
              decide (((t.vertex_values 1).value + (t.vertex_values 2).value) / 2 ≠
                (t.edge_values 0).value)))))) (by decide!)
  simp only [Bool.and_eq_true, decide_eq_true_eq] at hp
  exact ⟨t, ht, hp⟩

/-- C31 fails as stated: on the triangle `(0,0), (3,0), (0,3)` with centroid `(1,1)`, the
mean of the vertex coordinates, centroid value `0.1` and gradient `(0.1, 0.7)`,
`_extrapolate_from_gradient` stores in doubles the vertex values
`-0.7, -0.3999999999999999, 1.4`: their mean is `0.10000000000000002` when computed in
doubles, and it differs from the centroid value when computed exactly too. -/
theorem extrapolate_rounds_cell_mean :
    (exTriangleCoordinates 0).value + (exTriangleCoordinates 2).value +
      (exTriangleCoordinates 4).value = 3 * (doubles [1, 1] 0).value ∧
    (exTriangleCoordinates 1).value + (exTriangleCoordinates 3).value +
      (exTriangleCoordinates 5).value = 3 * (doubles [1, 1] 1).value ∧
    ∃ t, _extrapolate_from_gradient_double 1 (doubles [1, 1]) (doubles [0.1])
        exTriangleCoordinates (doubles [0.1]) (doubles [0.7]) exDoubleVEMem =
          some (Ctl.ret 0 t) ∧
      t.vertex_values 0 = dbl (-0.7) ∧ t.vertex_values 1 = dbl (-0.3999999999999999) ∧
      t.vertex_values 2 = dbl 1.4 ∧
      fdiv_double (Double.add (Double.add (t.vertex_values 0) (t.vertex_values 1))
        (t.vertex_values 2)) (dbl 3) = some (dbl 0.10000000000000002) ∧
      dbl 0.10000000000000002 ≠ doubles [0.1] 0 ∧
      ((t.vertex_values 0).value + (t.vertex_values 1).value + (t.vertex_values 2).value) / 3 ≠
        (doubles [0.1] 0).value := by
  refine ⟨by decide!, by decide!, ?_⟩
  obtain ⟨t, ht, hp⟩ := exists_of_returnsWith
    (_extrapolate_from_gradient_double 1 (doubles [1, 1]) (doubles [0.1])
      exTriangleCoordinates (doubles [0.1]) (doubles [0.7]) exDoubleVEMem) 0
    (fun t => decide (t.vertex_values 0 = dbl (-0.7)) &&
      (decide (t.vertex_values 1 = dbl (-0.3999999999999999)) &&
        (decide (t.vertex_values 2 = dbl 1.4) &&
          (decide (fdiv_double (Double.add (Double.add (t.vertex_values 0) (t.vertex_values 1))
              (t.vertex_values 2)) (dbl 3) = some (dbl 0.10000000000000002)) &&
            (decide (dbl 0.10000000000000002 ≠ doubles [0.1] 0) &&
              decide (((t.vertex_values 0).value + (t.vertex_values 1).value +
                (t.vertex_values 2).value) / 3 ≠ (doubles [0.1] 0).value)))))) (by decide!)
  simp only [Bool.and_eq_true, decide_eq_true_eq] at hp
  exact ⟨t, ht, hp⟩

/-- In double arithmetic the implicit half-step of `_update` solves the semi-implicit scheme
up to rounding only: on one cell with `q = 3`, `s = 1`, no explicit update and
`timestep = 1`, `H = s/q` is `0.3333333333333333`, the denominator `0.6666666666666667` and
the new value `q' = 4.499999999999999`, while `q + timestep*H*q'` is `4.5` when computed in
doubles and differs from `q'` when computed exactly too. -/
theorem update_rounds_semi_implicit_scheme :
    ∃ m', _update_double 1 (Double.fin 1) exDoubleUpdate = some (Ctl.ret 0 m') ∧
      m'.centroid_values 0 = dbl 4.499999999999999 ∧
      Double.add (Double.fin 3) (Double.mul (Double.mul (Double.fin 1)
        (Double.div (Double.fin 1) (Double.fin 3))) (m'.centroid_values 0)) = Double.fin 4.5 ∧
      (m'.centroid_values 0).value ≠ 3 + 1 * (1 / 3) * (m'.centroid_values 0).value := by
  obtain ⟨t, ht, hp⟩ := exists_of_returnsWith
    (_update_double 1 (Double.fin 1) exDoubleUpdate) 0
    (fun t => decide (t.centroid_values 0 = dbl 4.499999999999999) &&
      (decide (Double.add (Double.fin 3) (Double.mul (Double.mul (Double.fin 1)
        (Double.div (Double.fin 1) (Double.fin 3))) (t.centroid_values 0)) = Double.fin 4.5) &&
        decide ((t.centroid_values 0).value ≠ 3 + 1 * (1 / 3) * (t.centroid_values 0).value)))
    (by decide!)
  simp only [Bool.and_eq_true, decide_eq_true_eq] at hp
  exact ⟨t, ht, hp⟩

/-- In doubles the collapse at `beta = 0` also needs `qc + qc` not to overflow: on one
triangle without neighbours, with centroid value `1e308` and the values `0, 1e308, 1e308`,
`phi` is 0 and the limited values are the centroid value, but the values derived from them
are infinite: the half-sum `0.5*(qc + qc)` in the vertex variant, and `qc + qc - qc` in the
edge variant. -/
theorem limit_by_all_neighbours_beta_zero_sum_overflow :
    (∃ t, _limit_vertices_by_all_neighbours_double 1 (dbl 0) (doubles [1e308]) exNoNeighbours
        exDoublingStore = some (Ctl.ret 0 t) ∧
      t.vertex_values 0 = dbl 1e308 ∧ t.vertex_values 1 = dbl 1e308 ∧
      t.vertex_values 2 = dbl 1e308 ∧ t.edge_values 0 = Double.inf false) ∧
    (∃ t, _limit_edges_by_all_neighbours_double 1 (dbl 0) (doubles [1e308]) exNoNeighbours
        exDoublingStore = some (Ctl.ret 0 t) ∧
      t.edge_values 0 = dbl 1e308 ∧ t.edge_values 1 = dbl 1e308 ∧
      t.edge_values 2 = dbl 1e308 ∧ t.vertex_values 0 = Double.inf false) := by
  constructor
  · obtain ⟨t, ht, hp⟩ := exists_of_returnsWith
      (_limit_vertices_by_all_neighbours_double 1 (dbl 0) (doubles [1e308]) exNoNeighbours
        exDoublingStore) 0
      (fun t => decide (t.vertex_values 0 = dbl 1e308) &&
        (decide (t.vertex_values 1 = dbl 1e308) &&
          (decide (t.vertex_values 2 = dbl 1e308) &&
            decide (t.edge_values 0 = Double.inf false)))) (by decide!)
    simp only [Bool.and_eq_true, decide_eq_true_eq] at hp
    exact ⟨t, ht, hp⟩
  · obtain ⟨t, ht, hp⟩ := exists_of_returnsWith
      (_limit_edges_by_all_neighbours_double 1 (dbl 0) (doubles [1e308]) exNoNeighbours
        exDoublingStore) 0
      (fun t => decide (t.edge_values 0 = dbl 1e308) &&
        (decide (t.edge_values 1 = dbl 1e308) &&
          (decide (t.edge_values 2 = dbl 1e308) &&
            decide (t.vertex_values 0 = Double.inf false)))) (by decide!)
    simp only [Bool.and_eq_true, decide_eq_true_eq] at hp
    exact ⟨t, ht, hp⟩

/-! ## Double precision: closed forms of the limiters and the extrapolator -/

theorem Double.ne_zero_of_pos (x : Double) (h : Double.lt (Double.fin 0) x = true) :
    x ≠ Double.fin 0 := by
  intro e
  subst e
  simp [Double.lt] at h

theorem Double.ne_zero_of_neg (x : Double) (h : Double.lt x (Double.fin 0) = true) :
    x ≠ Double.fin 0 := by
  intro e
  subst e
  simp [Double.lt] at h

theorem envelope_body_double_eq (c : Nat → Double) (nb : Nat → Int) (k3 i : Nat)
    (s : DoubleLimitState) :
    envelope_body_double c nb k3 i s = some (Ctl.next
      { s with qmin := (envStep_double c nb k3 i (s.qmin, s.qmax)).1
               qmax := (envStep_double c nb k3 i (s.qmin, s.qmax)).2 }) := by
  unfold envelope_body_double envStep_double
  by_cases h : nb (k3 + i) ≥ 0 <;> simp [h]

theorem envelope_loop_double_eq (c : Nat → Double) (nb : Nat → Int) (k3 : Nat)
    (s : DoubleLimitState) :
    forLoop (envelope_body_double c nb k3) 3 s = some (Ctl.next
      { s with
        qmin := (envStep_double c nb k3 2 (envStep_double c nb k3 1
          (envStep_double c nb k3 0 (s.qmin, s.qmax)))).1
        qmax := (envStep_double c nb k3 2 (envStep_double c nb k3 1
          (envStep_double c nb k3 0 (s.qmin, s.qmax)))).2 }) := by
  simp only [forLoop, andThen, envelope_body_double_eq]

/-- The two guarded divisions of a `phi` loop on doubles never fault, and leave in `r` the
ratio `ratio_double`. -/
theorem guarded_ratio_double (lo hi qc dq : Double) :
    (match (if Double.lt (Double.fin 0) dq then fdiv_double (Double.sub hi qc) dq
        else some (Double.fin 1)) with
      | none => none
      | some r =>
        (if Double.lt dq (Double.fin 0) then fdiv_double (Double.sub lo qc) dq else some r)) =
      some (ratio_double lo hi qc dq) := by
  unfold ratio_double fdiv_double
  by_cases h1 : Double.lt (Double.fin 0) dq = true
  · have n1 := Double.ne_zero_of_pos _ h1
    by_cases h2 : Double.lt dq (Double.fin 0) = true
    · simp [h1, h2, n1]
    · simp [h1, h2, n1]
  · by_cases h2 : Double.lt dq (Double.fin 0) = true
    · have n2 := Double.ne_zero_of_neg _ h2
      simp [h1, h2, n2]
    · simp [h1, h2]

theorem limit_vertices_phi_body_double_eq (beta qc : Double) (k3 i : Nat)
    (s : DoubleLimitState) :
    limit_vertices_phi_body_double beta qc k3 i s = some (Ctl.next
      { s with dqa := Function.update s.dqa i (Double.sub (s.vertex_values (k3 + i)) qc)
               phi := phiStep_double beta s.qmin s.qmax qc
                 (Double.sub (s.vertex_values (k3 + i)) qc) s.phi }) := by
  have h := guarded_ratio_double s.qmin s.qmax qc (Double.sub (s.vertex_values (k3 + i)) qc)
  unfold limit_vertices_phi_body_double phiStep_double
  simp only []
  split
  · rename_i h1
    rw [h1] at h
    exact absurd h (by simp)
  · rename_i r h1
    rw [h1] at h
    simp only [] at h
    rw [h]

theorem limit_edges_phi_body_double_eq (beta qc : Double) (k3 i : Nat)
    (s : DoubleLimitState) :
    limit_edges_phi_body_double beta qc k3 i s = some (Ctl.next
      { s with dqa := Function.update s.dqa i (Double.sub (s.edge_values (k3 + i)) qc)
               phi := phiStep_double beta s.qmin s.qmax qc
                 (Double.sub (s.edge_values (k3 + i)) qc) s.phi }) := by
  have h := guarded_ratio_double s.qmin s.qmax qc (Double.sub (s.edge_values (k3 + i)) qc)
  unfold limit_edges_phi_body_double phiStep_double
  simp only []
  split
  · rename_i h1
    rw [h1] at h
    exact absurd h (by simp)
  · rename_i r h1
    rw [h1] at h
    simp only [] at h
    rw [h]

theorem limit_edges_by_neighbour_phi_body_double_eq (beta qc : Double) (c : Nat → Double)
    (nb : Nat → Int) (k3 i : Nat) (s : DoubleLimitState) :
    limit_edges_by_neighbour_phi_body_double beta qc c nb k3 i s = some (Ctl.next
      { s with dqa := Function.update s.dqa i (Double.sub (s.edge_values (k3 + i)) qc)
               qmin := if nb (k3 + i) ≥ 0 then min_double qc (c (nb (k3 + i)).toNat)
                 else s.qmin
               qmax := if nb (k3 + i) ≥ 0 then max_double qc (c (nb (k3 + i)).toNat)
                 else s.qmax
               phi := phiStepNb_double beta qc c nb k3 i
                 (Double.sub (s.edge_values (k3 + i)) qc) s.phi }) := by
  unfold limit_edges_by_neighbour_phi_body_double phiStepNb_double phiStep_double
  by_cases hn : nb (k3 + i) ≥ 0
  · have h := guarded_ratio_double (min_double qc (c (nb (k3 + i)).toNat))
      (max_double qc (c (nb (k3 + i)).toNat)) qc (Double.sub (s.edge_values (k3 + i)) qc)
    simp only [hn, if_true]
    split
    · rename_i h1
      rw [h1] at h
      exact absurd h (by simp)
    · rename_i r h1
      rw [h1] at h
      simp only [] at h
      rw [h]
  · simp only [hn, if_false]

theorem limit_gradient_by_neighbour_phi_body_double_eq (beta qc : Double) (c : Nat → Double)
    (nb : Nat → Int) (k3 i : Nat) (s : DoubleGradientLimitState) :
    limit_gradient_by_neighbour_phi_body_double beta qc c nb k3 i s = some (Ctl.next
      { s with dqa := Function.update s.dqa i (Double.sub (s.edge_values (k3 + i)) qc)
               qmin := if nb (k3 + i) ≥ 0 then min_double qc (c (nb (k3 + i)).toNat)
                 else s.qmin
               qmax := if nb (k3 + i) ≥ 0 then max_double qc (c (nb (k3 + i)).toNat)
                 else s.qmax
               phi := phiStepNb_double beta qc c nb k3 i
                 (Double.sub (s.edge_values (k3 + i)) qc) s.phi }) := by
  unfold limit_gradient_by_neighbour_phi_body_double phiStepNb_double phiStep_double
  by_cases hn : nb (k3 + i) ≥ 0
  · have h := guarded_ratio_double (min_double qc (c (nb (k3 + i)).toNat))
      (max_double qc (c (nb (k3 + i)).toNat)) qc (Double.sub (s.edge_values (k3 + i)) qc)
    simp only [hn, if_true]
    split
    · rename_i h1
      rw [h1] at h
      exact absurd h (by simp)
    · rename_i r h1
      rw [h1] at h
      simp only [] at h
      rw [h]
  · simp only [hn, if_false]

/-- One triangle of the vertex limiter on doubles: the iteration falls through, the vertex
values of the triangle are the entry ones scaled by `phi`, its edge values are the half-sums
of the new vertex values, and no other triangle is touched. -/
theorem limit_vertices_triangle_double (beta : Double) (c : Nat → Double) (nb : Nat → Int)
    (k : Nat) (t : DoubleLimitState) :
    ∃ t', limit_vertices_by_all_neighbours_body_double beta c nb k t = some (Ctl.next t') ∧
      (scaledBy_double (phiOf_double beta c nb t.vertex_values k) (c k) t.vertex_values
          t'.vertex_values k ∧
        edgesHalfSums t'.vertex_values t'.edge_values k) ∧
      ∀ k1 i, k1 ≠ k → i < 3 → t'.vertex_values (3 * k1 + i) = t.vertex_values (3 * k1 + i) ∧
        t'.edge_values (3 * k1 + i) = t.edge_values (3 * k1 + i) := by
  unfold limit_vertices_by_all_neighbours_body_double
  simp only [envelope_loop_double_eq, andThen]
  simp only [forLoop, andThen, limit_vertices_phi_body_double_eq]
  refine ⟨_, rfl, ⟨?_, ?_⟩, ?_⟩
  · intro i hi
    interval_cases i <;>
      simp [DoubleLimitState.setVertex, DoubleLimitState.setEdge, Function.update_apply,
        phiOf_double, envAll_double]
  · simp [edgesHalfSums, DoubleLimitState.setVertex, DoubleLimitState.setEdge,
      Function.update_apply]
  · intro k1 i hk hi
    have e0 : 3 * k1 + i ≠ 3 * k + 0 := by omega
    have e1 : 3 * k1 + i ≠ 3 * k + 1 := by omega
    have e2 : 3 * k1 + i ≠ 3 * k + 2 := by omega
    simp only [DoubleLimitState.setVertex, DoubleLimitState.setEdge,
      Function.update_noteq e0, Function.update_noteq e1, Function.update_noteq e2, and_self]

/-- One triangle of the edge limiter on doubles: the iteration falls through, the edge
values of the triangle are the entry ones scaled by `phi`, its vertex values are
`e_j + e_l - e_i` of the new edge values, and no other triangle is touched. -/
theorem limit_edges_triangle_double (beta : Double) (c : Nat → Double) (nb : Nat → Int)
    (k : Nat) (t : DoubleLimitState) :
    ∃ t', limit_edges_by_all_neighbours_body_double beta c nb k t = some (Ctl.next t') ∧
      (scaledBy_double (phiOf_double beta c nb t.edge_values k) (c k) t.edge_values
          t'.edge_values k ∧
        verticesFromEdges t'.vertex_values t'.edge_values k) ∧
      ∀ k1 i, k1 ≠ k → i < 3 → t'.vertex_values (3 * k1 + i) = t.vertex_values (3 * k1 + i) ∧
        t'.edge_values (3 * k1 + i) = t.edge_values (3 * k1 + i) := by
  unfold limit_edges_by_all_neighbours_body_double
  simp only [envelope_loop_double_eq, andThen]
  simp only [forLoop, andThen, limit_edges_phi_body_double_eq]
  refine ⟨_, rfl, ⟨?_, ?_⟩, ?_⟩
  · intro i hi
    interval_cases i <;>
      simp [DoubleLimitState.setVertex, DoubleLimitState.setEdge, Function.update_apply,
        phiOf_double, envAll_double]
  · simp [verticesFromEdges, DoubleLimitState.setVertex, DoubleLimitState.setEdge,
      Function.update_apply]
  · intro k1 i hk hi
    have e0 : 3 * k1 + i ≠ 3 * k + 0 := by omega
    have e1 : 3 * k1 + i ≠ 3 * k + 1 := by omega
    have e2 : 3 * k1 + i ≠ 3 * k + 2 := by omega
    simp only [DoubleLimitState.setVertex, DoubleLimitState.setEdge,
      Function.update_noteq e0, Function.update_noteq e1, Function.update_noteq e2, and_self]

/-- One triangle of `_limit_edges_by_neighbour` on doubles: the iteration falls through,
the edge values of the triangle are the entry ones scaled by `phi`, its vertex values are
`e_j + e_l - e_i` of the new edge values, and no other triangle is touched. -/
theorem limit_edges_by_neighbour_triangle_double (beta : Double) (c : Nat → Double)
    (nb : Nat → Int) (k : Nat) (t : DoubleLimitState) :
    ∃ t', limit_edges_by_neighbour_body_double beta c nb k t = some (Ctl.next t') ∧
      (scaledBy_double (phiNb_double beta c nb t.edge_values k) (c k) t.edge_values
          t'.edge_values k ∧
        verticesFromEdges t'.vertex_values t'.edge_values k) ∧
      ∀ k1 i, k1 ≠ k → i < 3 → t'.vertex_values (3 * k1 + i) = t.vertex_values (3 * k1 + i) ∧
        t'.edge_values (3 * k1 + i) = t.edge_values (3 * k1 + i) := by
  unfold limit_edges_by_neighbour_body_double
  simp only [forLoop, andThen, limit_edges_by_neighbour_phi_body_double_eq]
  refine ⟨_, rfl, ⟨?_, ?_⟩, ?_⟩
  · intro i hi
    interval_cases i <;>
      simp [DoubleLimitState.setVertex, DoubleLimitState.setEdge, Function.update_apply,
        phiNb_double]
  · simp [verticesFromEdges, DoubleLimitState.setVertex, DoubleLimitState.setEdge,
      Function.update_apply]
  · intro k1 i hk hi
    have e0 : 3 * k1 + i ≠ 3 * k + 0 := by omega
    have e1 : 3 * k1 + i ≠ 3 * k + 1 := by omega
    have e2 : 3 * k1 + i ≠ 3 * k + 2 := by omega
    simp only [DoubleLimitState.setVertex, DoubleLimitState.setEdge,
      Function.update_noteq e0, Function.update_noteq e1, Function.update_noteq e2, and_self]

/-- One triangle of `_limit_gradient_by_neighbour` on doubles, as for
`_limit_edges_by_neighbour`. -/
theorem limit_gradient_by_neighbour_triangle_double (beta : Double) (c : Nat → Double)
    (nb : Nat → Int) (k : Nat) (t : DoubleGradientLimitState) :
    ∃ t', limit_gradient_by_neighbour_body_double beta c nb k t = some (Ctl.next t') ∧
      (scaledBy_double (phiNb_double beta c nb t.edge_values k) (c k) t.edge_values
          t'.edge_values k ∧
        verticesFromEdges t'.vertex_values t'.edge_values k) ∧
      ∀ k1 i, k1 ≠ k → i < 3 → t'.vertex_values (3 * k1 + i) = t.vertex_values (3 * k1 + i) ∧
        t'.edge_values (3 * k1 + i) = t.edge_values (3 * k1 + i) := by
  unfold limit_gradient_by_neighbour_body_double
  simp only [forLoop, andThen, limit_gradient_by_neighbour_phi_body_double_eq]
  refine ⟨_, rfl, ⟨?_, ?_⟩, ?_⟩
  · intro i hi
    interval_cases i <;>
      simp [DoubleGradientLimitState.setVertex, DoubleGradientLimitState.setEdge,
        Function.update_apply, phiNb_double]
  · simp [verticesFromEdges, DoubleGradientLimitState.setVertex,
      DoubleGradientLimitState.setEdge, Function.update_apply]
  · intro k1 i hk hi
    have e0 : 3 * k1 + i ≠ 3 * k + 0 := by omega
    have e1 : 3 * k1 + i ≠ 3 * k + 1 := by omega
    have e2 : 3 * k1 + i ≠ 3 * k + 2 := by omega
    simp only [DoubleGradientLimitState.setVertex, DoubleGradientLimitState.setEdge,
      Function.update_noteq e0, Function.update_noteq e1, Function.update_noteq e2, and_self]

/-- One triangle of `_extrapolate_from_gradient` on doubles: the iteration falls through,
the edge values of the triangle are the half-sums of its new vertex values, and no other
triangle is touched. -/
theorem extrapolate_triangle_double (centroids c X a b : Nat → Double) (k : Nat)
    (t : DoubleVEMem) :
    ∃ t', extrapolate_from_gradient_body_double centroids c X a b k t = some (Ctl.next t') ∧
      edgesHalfSums t'.vertex_values t'.edge_values k ∧
      ∀ k1 i, k1 ≠ k → i < 3 → t'.vertex_values (3 * k1 + i) = t.vertex_values (3 * k1 + i) ∧
        t'.edge_values (3 * k1 + i) = t.edge_values (3 * k1 + i) := by
  unfold extrapolate_from_gradient_body_double
  refine ⟨_, rfl, ?_, ?_⟩
  · simp [edgesHalfSums, DoubleVEMem.setVertex, DoubleVEMem.setEdge, Function.update_apply]
  · intro k1 i hk hi
    have n0 : 3 * k1 + i ≠ 3 * k + 0 := by omega
    have n1 : 3 * k1 + i ≠ 3 * k + 1 := by omega
    have n2 : 3 * k1 + i ≠ 3 * k + 2 := by omega
    simp only [DoubleVEMem.setVertex, DoubleVEMem.setEdge,
      Function.update_noteq n0, Function.update_noteq n1, Function.update_noteq n2, and_self]

/-- Loop rule for a loop over triangles on any store: when iteration `k` always falls
through, relates the slots `3k..3k+2` of the two buffers before and after it by `P k`, and
leaves every other slot alone, then after `N` iterations `P k` relates the entry store and
the final store for every `k < N`, and the slots of the other triangles are untouched. -/
theorem forLoop_triangles_rel {σ α : Type} (V E : σ → Nat → α) (body : Nat → σ → Exec σ)
    (P : Nat → (Nat → α) → (Nat → α) → (Nat → α) → (Nat → α) → Prop)
    (hP : ∀ k v1 e1 w1 f1 v2 e2 w2 f2,
      (∀ i, i < 3 → v1 (3 * k + i) = v2 (3 * k + i) ∧ e1 (3 * k + i) = e2 (3 * k + i) ∧
        w1 (3 * k + i) = w2 (3 * k + i) ∧ f1 (3 * k + i) = f2 (3 * k + i)) →
      P k v1 e1 w1 f1 → P k v2 e2 w2 f2)
    (hbody : ∀ k t, ∃ t', body k t = some (Ctl.next t') ∧ P k (V t) (E t) (V t') (E t') ∧
      ∀ k1 i, k1 ≠ k → i < 3 → V t' (3 * k1 + i) = V t (3 * k1 + i) ∧
        E t' (3 * k1 + i) = E t (3 * k1 + i))
    (N : Nat) (s : σ) :
    ∃ t, forLoop body N s = some (Ctl.next t) ∧
      (∀ k, k < N → P k (V s) (E s) (V t) (E t)) ∧
      ∀ k i, N ≤ k → i < 3 → V t (3 * k + i) = V s (3 * k + i) ∧
        E t (3 * k + i) = E s (3 * k + i) := by
  refine forLoop_invariant body
    (fun n t => (∀ k, k < n → P k (V s) (E s) (V t) (E t)) ∧
      ∀ k i, n ≤ k → i < 3 → V t (3 * k + i) = V s (3 * k + i) ∧
        E t (3 * k + i) = E s (3 * k + i))
    N s ⟨fun k hk => absurd hk (Nat.not_lt_zero k), fun k i _ _ => ⟨rfl, rfl⟩⟩ ?_
  intro k _ t ht
  obtain ⟨hdone, hrest⟩ := ht
  obtain ⟨t', hrun, hnew, hframe⟩ := hbody k t
  refine ⟨t', hrun, ?_, ?_⟩
  · intro k1 hk1
    by_cases hlt : k1 < k
    · refine hP k1 _ _ _ _ _ _ _ _ ?_ (hdone k1 hlt)
      intro i hi
      have hf := hframe k1 i (by omega) hi
      exact ⟨rfl, rfl, hf.1.symm, hf.2.symm⟩
    · have heq : k1 = k := by omega
      subst heq
      refine hP k1 _ _ _ _ _ _ _ _ ?_ hnew
      intro i hi
      have hr := hrest k1 i (le_refl k1) hi
      exact ⟨hr.1, hr.2, rfl, rfl⟩
  · intro k1 i hk1 hi
    have hf := hframe k1 i (by omega) hi
    have hr := hrest k1 i (by omega) hi
    exact ⟨hf.1.trans hr.1, hf.2.trans hr.2⟩

theorem edgesHalfSums_local (k : Nat) (v1 e1 v2 e2 : Nat → Double)
    (h : ∀ i, i < 3 → v1 (3 * k + i) = v2 (3 * k + i) ∧ e1 (3 * k + i) = e2 (3 * k + i))
    (hf : edgesHalfSums v1 e1 k) : edgesHalfSums v2 e2 k := by
  unfold edgesHalfSums at *
  rw [← (h 0 (by decide)).1, ← (h 1 (by decide)).1, ← (h 2 (by decide)).1,
    ← (h 0 (by decide)).2, ← (h 1 (by decide)).2, ← (h 2 (by decide)).2]
  exact hf

theorem verticesFromEdges_local (k : Nat) (v1 e1 v2 e2 : Nat → Double)
    (h : ∀ i, i < 3 → v1 (3 * k + i) = v2 (3 * k + i) ∧ e1 (3 * k + i) = e2 (3 * k + i))
    (hf : verticesFromEdges v1 e1 k) : verticesFromEdges v2 e2 k := by
  unfold verticesFromEdges at *
  rw [← (h 0 (by decide)).1, ← (h 1 (by decide)).1, ← (h 2 (by decide)).1,
    ← (h 0 (by decide)).2, ← (h 1 (by decide)).2, ← (h 2 (by decide)).2]
  exact hf

theorem phiOf_double_congr (beta : Double) (c : Nat → Double) (nb : Nat → Int)
    (q1 q2 : Nat → Double) (k : Nat) (h : ∀ i, i < 3 → q1 (3 * k + i) = q2 (3 * k + i)) :
    phiOf_double beta c nb q1 k = phiOf_double beta c nb q2 k := by
  unfold phiOf_double
  rw [h 0 (by decide), h 1 (by decide), h 2 (by decide)]

theorem phiNb_double_congr (beta : Double) (c : Nat → Double) (nb : Nat → Int)
    (q1 q2 : Nat → Double) (k : Nat) (h : ∀ i, i < 3 → q1 (3 * k + i) = q2 (3 * k + i)) :
    phiNb_double beta c nb q1 k = phiNb_double beta c nb q2 k := by
  unfold phiNb_double
  rw [h 0 (by decide), h 1 (by decide), h 2 (by decide)]

theorem scaledBy_double_local (phi qc : Double) (k : Nat) (o1 n1 o2 n2 : Nat → Double)
    (h : ∀ i, i < 3 → o1 (3 * k + i) = o2 (3 * k + i) ∧ n1 (3 * k + i) = n2 (3 * k + i))
    (hf : scaledBy_double phi qc o1 n1 k) : scaledBy_double phi qc o2 n2 k := by
  intro i hi
  rw [← (h i hi).1, ← (h i hi).2]
  exact hf i hi

/-- The vertex limiter on doubles returns 0; in every triangle `k < N` the vertex values are
the entry ones scaled by the multiplier of the triangle and the edge values are the
half-sums of the new vertex values, each as the C operations compute it. -/
theorem limit_vertices_double_spec (N : Nat) (beta : Double) (c : Nat → Double)
    (nb : Nat → Int) (s : DoubleLimitState) :
    ∃ t, _limit_vertices_by_all_neighbours_double N beta c nb s = some (Ctl.ret 0 t) ∧
      ∀ k, k < N →
        scaledBy_double (phiOf_double beta c nb s.vertex_values k) (c k) s.vertex_values
          t.vertex_values k ∧
        edgesHalfSums t.vertex_values t.edge_values k := by
  obtain ⟨t, ht, h, _⟩ := forLoop_triangles_rel DoubleLimitState.vertex_values
    DoubleLimitState.edge_values (limit_vertices_by_all_neighbours_body_double beta c nb)
    (fun k v _ w f => scaledBy_double (phiOf_double beta c nb v k) (c k) v w k ∧
      edgesHalfSums w f k)
    (fun k v1 _ w1 f1 v2 _ w2 f2 h hf => by
      refine ⟨?_, edgesHalfSums_local k w1 f1 w2 f2
        (fun i hi => ⟨(h i hi).2.2.1, (h i hi).2.2.2⟩) hf.2⟩
      rw [← phiOf_double_congr beta c nb v1 v2 k (fun i hi => (h i hi).1)]
      exact scaledBy_double_local _ _ k v1 w1 v2 w2
        (fun i hi => ⟨(h i hi).1, (h i hi).2.2.1⟩) hf.1)
    (limit_vertices_triangle_double beta c nb) N s
  exact ⟨t, by simp [_limit_vertices_by_all_neighbours_double, ht, andThen], h⟩

/-- The edge limiter on doubles returns 0; in every triangle `k < N` the edge values are the
entry ones scaled by the multiplier of the triangle and the vertex values are
`e_j + e_l - e_i` of the new edge values, each as the C operations compute it. -/
theorem limit_edges_double_spec (N : Nat) (beta : Double) (c : Nat → Double)
    (nb : Nat → Int) (s : DoubleLimitState) :
    ∃ t, _limit_edges_by_all_neighbours_double N beta c nb s = some (Ctl.ret 0 t) ∧
      ∀ k, k < N →
        scaledBy_double (phiOf_double beta c nb s.edge_values k) (c k) s.edge_values
          t.edge_values k ∧
        verticesFromEdges t.vertex_values t.edge_values k := by
  obtain ⟨t, ht, h, _⟩ := forLoop_triangles_rel DoubleLimitState.vertex_values
    DoubleLimitState.edge_values (limit_edges_by_all_neighbours_body_double beta c nb)
    (fun k _ e w f => scaledBy_double (phiOf_double beta c nb e k) (c k) e f k ∧
      verticesFromEdges w f k)
    (fun k _ e1 w1 f1 _ e2 w2 f2 h hf => by
      refine ⟨?_, verticesFromEdges_local k w1 f1 w2 f2
        (fun i hi => ⟨(h i hi).2.2.1, (h i hi).2.2.2⟩) hf.2⟩
      rw [← phiOf_double_congr beta c nb e1 e2 k (fun i hi => (h i hi).2.1)]
      exact scaledBy_double_local _ _ k e1 f1 e2 f2
        (fun i hi => ⟨(h i hi).2.1, (h i hi).2.2.2⟩) hf.1)
    (limit_edges_triangle_double beta c nb) N s
  exact ⟨t, by simp [_limit_edges_by_all_neighbours_double, ht, andThen], h⟩

/-- `_limit_edges_by_neighbour` on doubles returns 0; in every triangle `k < N` the edge
values are the entry ones scaled by the multiplier of the triangle and the vertex values are
`e_j + e_l - e_i` of the new edge values, each as the C operations compute it. -/
theorem limit_edges_by_neighbour_double_spec (N : Nat) (beta : Double) (c : Nat → Double)
    (nb : Nat → Int) (s : DoubleLimitState) :
    ∃ t, _limit_edges_by_neighbour_double N beta c nb s = some (Ctl.ret 0 t) ∧
      ∀ k, k < N →
        scaledBy_double (phiNb_double beta c nb s.edge_values k) (c k) s.edge_values
          t.edge_values k ∧
        verticesFromEdges t.vertex_values t.edge_values k := by
  obtain ⟨t, ht, h, _⟩ := forLoop_triangles_rel DoubleLimitState.vertex_values
    DoubleLimitState.edge_values (limit_edges_by_neighbour_body_double beta c nb)
    (fun k _ e w f => scaledBy_double (phiNb_double beta c nb e k) (c k) e f k ∧
      verticesFromEdges w f k)
    (fun k _ e1 w1 f1 _ e2 w2 f2 h hf => by
      refine ⟨?_, verticesFromEdges_local k w1 f1 w2 f2
        (fun i hi => ⟨(h i hi).2.2.1, (h i hi).2.2.2⟩) hf.2⟩
      rw [← phiNb_double_congr beta c nb e1 e2 k (fun i hi => (h i hi).2.1)]
      exact scaledBy_double_local _ _ k e1 f1 e2 f2
        (fun i hi => ⟨(h i hi).2.1, (h i hi).2.2.2⟩) hf.1)
    (limit_edges_by_neighbour_triangle_double beta c nb) N s
  exact ⟨t, by simp [_limit_edges_by_neighbour_double, ht, andThen], h⟩

/-- `_limit_gradient_by_neighbour` on doubles returns 0, with the same values as
`_limit_edges_by_neighbour`. -/
theorem limit_gradient_by_neighbour_double_spec (N : Nat) (beta : Double) (c : Nat → Double)
    (nb : Nat → Int) (s : DoubleGradientLimitState) :
    ∃ t, _limit_gradient_by_neighbour_double N beta c nb s = some (Ctl.ret 0 t) ∧
      ∀ k, k < N →
        scaledBy_double (phiNb_double beta c nb s.edge_values k) (c k) s.edge_values
          t.edge_values k ∧
        verticesFromEdges t.vertex_values t.edge_values k := by
  obtain ⟨t, ht, h, _⟩ := forLoop_triangles_rel DoubleGradientLimitState.vertex_values
    DoubleGradientLimitState.edge_values
    (limit_gradient_by_neighbour_body_double beta c nb)
    (fun k _ e w f => scaledBy_double (phiNb_double beta c nb e k) (c k) e f k ∧
      verticesFromEdges w f k)
    (fun k _ e1 w1 f1 _ e2 w2 f2 h hf => by
      refine ⟨?_, verticesFromEdges_local k w1 f1 w2 f2
        (fun i hi => ⟨(h i hi).2.2.1, (h i hi).2.2.2⟩) hf.2⟩
      rw [← phiNb_double_congr beta c nb e1 e2 k (fun i hi => (h i hi).2.1)]
      exact scaledBy_double_local _ _ k e1 f1 e2 f2
        (fun i hi => ⟨(h i hi).2.1, (h i hi).2.2.2⟩) hf.1)
    (limit_gradient_by_neighbour_triangle_double beta c nb) N s
  exact ⟨t, by simp [_limit_gradient_by_neighbour_double, ht, andThen], h⟩

/-- `_extrapolate_from_gradient` on doubles returns 0 and leaves, in every triangle
`k < N`, the edge values equal to the half-sums of the vertex values as computed. -/
theorem extrapolate_double_spec (N : Nat) (centroids c X a b : Nat → Double)
    (m : DoubleVEMem) :
    ∃ t, _extrapolate_from_gradient_double N centroids c X a b m = some (Ctl.ret 0 t) ∧
      ∀ k, k < N → edgesHalfSums t.vertex_values t.edge_values k := by
  obtain ⟨t, ht, h, _⟩ := forLoop_triangles_rel DoubleVEMem.vertex_values
    DoubleVEMem.edge_values (extrapolate_from_gradient_body_double centroids c X a b)
    (fun k _ _ w f => edgesHalfSums w f k)
    (fun k _ _ w1 f1 _ _ w2 f2 h hf =>
      edgesHalfSums_local k w1 f1 w2 f2 (fun i hi => ⟨(h i hi).2.2.1, (h i hi).2.2.2⟩) hf)
    (extrapolate_triangle_double centroids c X a b) N m
  exact ⟨t, by simp [_extrapolate_from_gradient_double, ht, andThen], h⟩

/-! ## Double precision: doubling a double is exact unless it overflows -/

/-- With enough fuel, `bitLength` is the number of binary digits: `2^(b-1) <= n < 2^b`. -/
theorem bitLength_spec (fuel : Nat) : ∀ n, 0 < n → n ≤ fuel →
    0 < bitLength fuel n ∧ 2 ^ (bitLength fuel n - 1) ≤ n ∧ n < 2 ^ bitLength fuel n := by
  induction fuel with
  | zero => intro n h0 hf; omega
  | succ f ih =>
    intro n h0 hf
    have hn : n ≠ 0 := by omega
    simp only [bitLength, if_neg hn]
    by_cases h2 : n / 2 = 0
    · have h1 : n = 1 := by omega
      subst h1
      have : bitLength f (1 / 2) = 0 := by cases f <;> simp [bitLength]
      simp [this]
    · obtain ⟨hpos, hlo, hhi⟩ := ih (n / 2) (by omega) (by omega)
      refine ⟨by omega, ?_, ?_⟩
      · have : bitLength f (n / 2) + 1 - 1 = (bitLength f (n / 2) - 1) + 1 := by omega
        rw [this, pow_succ]
        omega
      · rw [pow_succ]
        omega

/-- A power of two with a non-negative integer exponent, as a rational. -/
theorem cast_pow_toNat (e : ℤ) (h : 0 ≤ e) : ((2 ^ e.toNat : ℕ) : ℚ) = (2 : ℚ) ^ e := by
  lift e to ℕ using h
  simp

/-- A power of two with a negative integer exponent, as a rational. -/
theorem cast_pow_toNat_neg (e : ℤ) (h : e < 0) :
    ((2 ^ (-e).toNat : ℕ) : ℚ) = ((2 : ℚ) ^ e)⁻¹ := by
  rw [cast_pow_toNat (-e) (by omega), zpow_neg]

/-- The value of `floorLog2`: `2^fl <= n/d < 2^(fl+1)`. -/
theorem floorLog2_spec (n d : Nat) (hn : 0 < n) (hd : 0 < d) :
    (2 : ℚ) ^ (floorLog2 n d) ≤ (n : ℚ) / d ∧ (n : ℚ) / d < (2 : ℚ) ^ (floorLog2 n d + 1) := by
  obtain ⟨hbn, hnlo, hnhi⟩ := bitLength_spec n n hn le_rfl
  obtain ⟨hbd, hdlo, hdhi⟩ := bitLength_spec d d hd le_rfl
  have hdq : (0 : ℚ) < d := by exact_mod_cast hd
  have two : (0 : ℚ) < 2 := by norm_num
  have hnlo' : (2 : ℚ) ^ ((bitLength n n : ℤ) - 1) ≤ n := by
    have : ((2 ^ (bitLength n n - 1) : ℕ) : ℚ) ≤ n := by exact_mod_cast hnlo
    have e : ((bitLength n n : ℤ) - 1) = ((bitLength n n - 1 : ℕ) : ℤ) := by omega
    rw [e, zpow_natCast]
    exact_mod_cast hnlo
  have hnhi' : (n : ℚ) < (2 : ℚ) ^ (bitLength n n : ℤ) := by
    rw [zpow_natCast]
    exact_mod_cast hnhi
  have hdlo' : (2 : ℚ) ^ ((bitLength d d : ℤ) - 1) ≤ d := by
    have e : ((bitLength d d : ℤ) - 1) = ((bitLength d d - 1 : ℕ) : ℤ) := by omega
    rw [e, zpow_natCast]
    exact_mod_cast hdlo
  have hdhi' : (d : ℚ) < (2 : ℚ) ^ (bitLength d d : ℤ) := by
    rw [zpow_natCast]
    exact_mod_cast hdhi
  set k : ℤ := (bitLength n n : ℤ) - (bitLength d d : ℤ) with hk
  have lower : (2 : ℚ) ^ (k - 1) * d ≤ n := by
    calc (2 : ℚ) ^ (k - 1) * d ≤ (2 : ℚ) ^ (k - 1) * (2 : ℚ) ^ (bitLength d d : ℤ) :=
          mul_le_mul_of_nonneg_left hdhi'.le (zpow_pos two _).le
      _ = (2 : ℚ) ^ ((bitLength n n : ℤ) - 1) := by
          rw [← zpow_add₀ (by norm_num : (2 : ℚ) ≠ 0)]
          congr 1
          omega
      _ ≤ n := hnlo'
  have upper : (n : ℚ) < (2 : ℚ) ^ (k + 1) * d := by
    calc (n : ℚ) < (2 : ℚ) ^ (bitLength n n : ℤ) := hnhi'
      _ = (2 : ℚ) ^ (k + 1) * (2 : ℚ) ^ ((bitLength d d : ℤ) - 1) := by
          rw [← zpow_add₀ (by norm_num : (2 : ℚ) ≠ 0)]
          congr 1
          omega
      _ ≤ (2 : ℚ) ^ (k + 1) * d := mul_le_mul_of_nonneg_left hdlo' (zpow_pos two _).le
  have test : (if 0 ≤ k then decide (d * 2 ^ k.toNat ≤ n) else decide (d ≤ n * 2 ^ (-k).toNat)) =
      decide ((2 : ℚ) ^ k * d ≤ n) := by
    by_cases h0 : 0 ≤ k
    · rw [if_pos h0]
      congr 1
      rw [← cast_pow_toNat k h0]
      apply propext
      constructor
      · intro h
        have : ((d * 2 ^ k.toNat : ℕ) : ℚ) ≤ n := by exact_mod_cast h
        push_cast at this ⊢
        linarith
      · intro h
        have : ((d * 2 ^ k.toNat : ℕ) : ℚ) ≤ n := by
          push_cast at h ⊢
          linarith
        exact_mod_cast this
    · rw [if_neg h0]
      congr 1
      have hp := cast_pow_toNat_neg k (by omega)
      have hpos : (0 : ℚ) < (2 : ℚ) ^ k := zpow_pos two _
      apply propext
      constructor
      · intro h
        have : (d : ℚ) ≤ ((n * 2 ^ (-k).toNat : ℕ) : ℚ) := by exact_mod_cast h
        rw [Nat.cast_mul, hp] at this
        rw [← div_eq_mul_inv, le_div_iff₀ hpos] at this
        linarith
      · intro h
        have : (d : ℚ) ≤ ((n * 2 ^ (-k).toNat : ℕ) : ℚ) := by
          rw [Nat.cast_mul, hp, ← div_eq_mul_inv, le_div_iff₀ hpos]
          linarith
        exact_mod_cast this
  have hfl : floorLog2 n d = if (2 : ℚ) ^ k * d ≤ n then k else k - 1 := by
    unfold floorLog2
    simp only []
    rw [← hk]
    by_cases h0 : 0 ≤ k
    · simp only [if_pos h0] at test ⊢
      by_cases ht : d * 2 ^ k.toNat ≤ n
      · have := test
        simp only [ht, decide_True] at this
        rw [if_pos ht, if_pos (of_decide_eq_true this.symm)]
      · have := test
        simp only [ht, decide_False] at this
        rw [if_neg ht, if_neg (of_decide_eq_false this.symm)]
    · simp only [if_neg h0] at test ⊢
      by_cases ht : d ≤ n * 2 ^ (-k).toNat
      · have := test
        simp only [ht, decide_True] at this
        rw [if_pos ht, if_pos (of_decide_eq_true this.symm)]
      · have := test
        simp only [ht, decide_False] at this
        rw [if_neg ht, if_neg (of_decide_eq_false this.symm)]
  rw [hfl]
  by_cases ht : (2 : ℚ) ^ k * d ≤ n
  · rw [if_pos ht]
    exact ⟨by rw [le_div_iff₀ hdq]; exact ht, by rw [div_lt_iff₀ hdq]; exact upper⟩
  · rw [if_neg ht]
    refine ⟨by rw [le_div_iff₀ hdq]; exact lower, ?_⟩
    rw [div_lt_iff₀ hdq]
    have : k - 1 + 1 = k := by omega
    rw [this]
    exact not_le.1 ht

/-- An exact quotient is its own nearest integer. -/
theorem nearestEven_exact (K D : Nat) (hD : 0 < D) : nearestEven (K * D) D = K := by
  unfold nearestEven
  simp only []
  rw [Nat.mul_div_cancel K hD, Nat.mul_mod_left]
  simp [hD]

/-- The nearest integer to a quotient below `B` is at most `B`. -/
theorem nearestEven_le (n D B : Nat) (hD : 0 < D) (h : n < B * D) : nearestEven n D ≤ B := by
  unfold nearestEven
  have : n / D < B := (Nat.div_lt_iff_lt_mul hD).2 h
  simp only []
  split_ifs <;> omega

/-- The magnitude of a rational from its numerator and denominator. -/
theorem rat_abs_eq (q : ℚ) : (q.num.natAbs : ℚ) / q.den = |q| := by
  conv_rhs => rw [← Rat.num_div_den q]
  rw [abs_div, Nat.abs_cast, Nat.cast_natAbs, Int.cast_abs]

/-- The result of rounding a rational other than zero, in terms of the rounded significand
`m` and the exponent `e` of its last bit. -/
theorem Double.round_of_ne_zero (q : ℚ) (hq : q ≠ 0) :
    ∃ (m : Nat) (e : ℤ),
      e = Max.max (floorLog2 q.num.natAbs q.den - 52) (-1074) ∧
      m = (if 0 ≤ e then nearestEven q.num.natAbs (q.den * 2 ^ e.toNat)
            else nearestEven (q.num.natAbs * 2 ^ (-e).toNat) q.den) ∧
      Double.round q =
        if (2 : ℚ) ^ (1024 : ℕ) ≤ (m : ℚ) * (2 : ℚ) ^ e then Double.inf (decide (q < 0))
        else if q < 0 then Double.fin (-((m : ℚ) * (2 : ℚ) ^ e))
        else Double.fin ((m : ℚ) * (2 : ℚ) ^ e) := by
  refine ⟨_, _, rfl, rfl, ?_⟩
  unfold Double.round
  rw [if_neg hq]
  simp only []
  by_cases h0 : 0 ≤ Max.max (floorLog2 q.num.natAbs q.den - 52) (-1074)
  · simp only [if_pos h0, Rat.mkRat_eq_div, Nat.cast_mul, Int.cast_natCast, Int.cast_mul,
      cast_pow_toNat _ h0, Nat.cast_one, div_one]
    norm_num
  · have hp := cast_pow_toNat_neg _ (not_le.1 h0)
    simp only [if_neg h0, Rat.mkRat_eq_div, Nat.cast_mul, Int.cast_natCast, Int.cast_mul,
      Nat.cast_one, div_one, hp, div_inv_eq_mul]
    norm_num

/-- A rational of magnitude `K * 2^E` with `K < 2^53` and `E ≥ -1074` is a double unless it
is `2^1024` or more: rounding returns it unchanged or overflows. -/
theorem Double.round_representable (q : ℚ) (K : Nat) (E : ℤ) (hK0 : 0 < K) (hK : K < 2 ^ 53)
    (hE : -1074 ≤ E) (hq : |q| = (K : ℚ) * (2 : ℚ) ^ E) :
    Double.round q =
      if (2 : ℚ) ^ (1024 : ℕ) ≤ |q| then Double.inf (decide (q < 0)) else Double.fin q := by
  have two : (0 : ℚ) < 2 := by norm_num
  have hK0' : (0 : ℚ) < K := by exact_mod_cast hK0
  have hp : (0 : ℚ) < |q| := by
    rw [hq]
    exact mul_pos hK0' (zpow_pos two _)
  have hq0 : q ≠ 0 := abs_pos.1 hp
  obtain ⟨m, e, he, hm, hr⟩ := Double.round_of_ne_zero q hq0
  have hn : 0 < q.num.natAbs := Int.natAbs_pos.2 (Rat.num_ne_zero.2 hq0)
  have hd : 0 < q.den := q.den_pos
  obtain ⟨hlo, hhi⟩ := floorLog2_spec _ _ hn hd
  rw [rat_abs_eq] at hlo hhi
  have hfl : floorLog2 q.num.natAbs q.den - 52 ≤ E := by
    by_contra hc
    have hc' : 53 + E ≤ floorLog2 q.num.natAbs q.den := by omega
    have h1 : (2 : ℚ) ^ (53 + E) ≤ (2 : ℚ) ^ (floorLog2 q.num.natAbs q.den) :=
      zpow_le_zpow_right₀ (by norm_num) hc'
    have h2 : |q| < (2 : ℚ) ^ (53 + E) := by
      rw [hq, zpow_add₀ (by norm_num : (2 : ℚ) ≠ 0)]
      apply mul_lt_mul_of_pos_right _ (zpow_pos two _)
      have : ((K : ℕ) : ℚ) < ((2 ^ 53 : ℕ) : ℚ) := by exact_mod_cast hK
      have e53 : (2 : ℚ) ^ (53 : ℤ) = ((2 ^ 53 : ℕ) : ℚ) := by norm_num
      rw [e53]
      exact this
    linarith
  have heE : e ≤ E := by
    rw [he]
    exact max_le hfl hE
  obtain ⟨j, hj⟩ : ∃ j : ℕ, E = e + j := ⟨(E - e).toNat, by omega⟩
  have habs : |q| = ((K * 2 ^ j : ℕ) : ℚ) * (2 : ℚ) ^ e := by
    rw [hq, hj, zpow_add₀ (by norm_num : (2 : ℚ) ≠ 0), zpow_natCast]
    push_cast
    ring
  have hdq : (q.den : ℚ) ≠ 0 := by exact_mod_cast hd.ne'
  have hnd : (q.num.natAbs : ℚ) = ((K * 2 ^ j : ℕ) : ℚ) * (2 : ℚ) ^ e * q.den := by
    rw [← habs, ← rat_abs_eq]
    field_simp
  have hm' : m = K * 2 ^ j := by
    rw [hm]
    by_cases h0 : 0 ≤ e
    · rw [if_pos h0]
      have hnat : q.num.natAbs = (K * 2 ^ j) * (q.den * 2 ^ e.toNat) := by
        have : (q.num.natAbs : ℚ) = (((K * 2 ^ j) * (q.den * 2 ^ e.toNat) : ℕ) : ℚ) := by
          rw [hnd, Nat.cast_mul (K * 2 ^ j), Nat.cast_mul q.den, cast_pow_toNat e h0]
          ring
        exact_mod_cast this
      rw [hnat]
      exact nearestEven_exact _ _ (Nat.mul_pos hd (Nat.pow_pos (by norm_num)))
    · rw [if_neg h0]
      have hnat : q.num.natAbs * 2 ^ (-e).toNat = (K * 2 ^ j) * q.den := by
        have : ((q.num.natAbs * 2 ^ (-e).toNat : ℕ) : ℚ) = (((K * 2 ^ j) * q.den : ℕ) : ℚ) := by
          rw [Nat.cast_mul, cast_pow_toNat_neg e (not_le.1 h0), hnd, Nat.cast_mul (K * 2 ^ j)]
          have : (2 : ℚ) ^ e ≠ 0 := (zpow_pos two _).ne'
          field_simp
          ring
        exact_mod_cast this
      rw [hnat]
      exact nearestEven_exact _ _ hd
  rw [hr, hm', ← habs]
  by_cases hbig : (2 : ℚ) ^ (1024 : ℕ) ≤ |q|
  · rw [if_pos hbig, if_pos hbig]
  · rw [if_neg hbig, if_neg hbig]
    by_cases hneg : q < 0
    · rw [if_pos hneg, abs_of_neg hneg, neg_neg]
    · rw [if_neg hneg, abs_of_nonneg (not_lt.1 hneg)]

/-- A rational that rounding returns unchanged has magnitude `K * 2^E` with `K ≤ 2^53` and
`E ≥ -1074`. -/
theorem Double.representable_of_round (q : ℚ) (hq0 : q ≠ 0) (h : Double.round q = Double.fin q) :
    ∃ (K : Nat) (E : ℤ), K ≤ 2 ^ 53 ∧ -1074 ≤ E ∧ |q| = (K : ℚ) * (2 : ℚ) ^ E := by
  have two : (0 : ℚ) < 2 := by norm_num
  obtain ⟨m, e, he, hm, hr⟩ := Double.round_of_ne_zero q hq0
  have hn : 0 < q.num.natAbs := Int.natAbs_pos.2 (Rat.num_ne_zero.2 hq0)
  have hd : 0 < q.den := q.den_pos
  have hdq : (0 : ℚ) < q.den := by exact_mod_cast hd
  obtain ⟨hlo, hhi⟩ := floorLog2_spec _ _ hn hd
  have hfe : floorLog2 q.num.natAbs q.den + 1 ≤ 53 + e := by
    have := le_max_left (floorLog2 q.num.natAbs q.den - 52) (-1074)
    rw [← he] at this
    omega
  have hhi' : (q.num.natAbs : ℚ) / q.den < (2 : ℚ) ^ (53 + e) :=
    lt_of_lt_of_le hhi (zpow_le_zpow_right₀ (by norm_num) hfe)
  have e53 : (2 : ℚ) ^ (53 : ℤ) = ((2 ^ 53 : ℕ) : ℚ) := by norm_num
  rw [zpow_add₀ (by norm_num : (2 : ℚ) ≠ 0), e53, div_lt_iff₀ hdq] at hhi'
  refine ⟨m, e, ?_, ?_, ?_⟩
  · rw [hm]
    by_cases h0 : 0 ≤ e
    · rw [if_pos h0]
      apply nearestEven_le _ _ _ (Nat.mul_pos hd (Nat.pow_pos (by norm_num)))
      have : (q.num.natAbs : ℚ) < ((2 ^ 53 * (q.den * 2 ^ e.toNat) : ℕ) : ℚ) := by
        rw [Nat.cast_mul, Nat.cast_mul q.den, cast_pow_toNat e h0]
        linarith
      exact_mod_cast this
    · rw [if_neg h0]
      apply nearestEven_le _ _ _ hd
      have hpos : (0 : ℚ) < (2 : ℚ) ^ e := zpow_pos two _
      have : ((q.num.natAbs * 2 ^ (-e).toNat : ℕ) : ℚ) < ((2 ^ 53 * q.den : ℕ) : ℚ) := by
        rw [Nat.cast_mul, cast_pow_toNat_neg e (not_le.1 h0), Nat.cast_mul, ← div_eq_mul_inv,
          div_lt_iff₀ hpos]
        linarith
      exact_mod_cast this
  · rw [he]
    exact le_max_right _ _
  · rw [hr] at h
    by_cases hbig : (2 : ℚ) ^ (1024 : ℕ) ≤ (m : ℚ) * (2 : ℚ) ^ e
    · rw [if_pos hbig] at h
      exact absurd h (by simp)
    · rw [if_neg hbig] at h
      by_cases hneg : q < 0
      · rw [if_pos hneg] at h
        have : -((m : ℚ) * (2 : ℚ) ^ e) = q := by
          injection h
        rw [abs_of_neg hneg, ← this, neg_neg]
      · rw [if_neg hneg] at h
        have : (m : ℚ) * (2 : ℚ) ^ e = q := by
          injection h
        rw [abs_of_nonneg (not_lt.1 hneg), this]

/-- Doubling a double is exact unless it overflows. -/
theorem Double.round_add_self (q : ℚ) (h : Double.round q = Double.fin q)
    (hf : (Double.round (q + q)).isFinite = true) :
    Double.round (q + q) = Double.fin (q + q) := by
  by_cases hq0 : q = 0
  · subst hq0
    simp [Double.round]
  obtain ⟨K, E, hK, hE, hq⟩ := Double.representable_of_round q hq0 h
  have two : (0 : ℚ) < 2 := by norm_num
  have habs : |q + q| = 2 * |q| := by
    rw [← two_mul, abs_mul, abs_of_pos two]
  have hK0 : 0 < K := by
    rcases Nat.eq_zero_or_pos K with h0 | h0
    · subst h0
      rw [Nat.cast_zero, zero_mul] at hq
      exact absurd (abs_eq_zero.1 hq) hq0
    · exact h0
  have key : Double.round (q + q) =
      if (2 : ℚ) ^ (1024 : ℕ) ≤ |q + q| then Double.inf (decide (q + q < 0))
      else Double.fin (q + q) := by
    rcases Nat.lt_or_ge K (2 ^ 53) with hlt | hge
    · apply Double.round_representable (q + q) K (E + 1) hK0 hlt (by omega)
      rw [habs, hq, zpow_add₀ (by norm_num : (2 : ℚ) ≠ 0)]
      ring
    · have hKe : K = 2 ^ 53 := le_antisymm hK hge
      apply Double.round_representable (q + q) (2 ^ 52) (E + 2) (by norm_num) (by norm_num)
        (by omega)
      rw [habs, hq, hKe, zpow_add₀ (by norm_num : (2 : ℚ) ≠ 0)]
      norm_num
      ring
  rw [key] at hf ⊢
  by_cases hbig : (2 : ℚ) ^ (1024 : ℕ) ≤ |q + q|
  · rw [if_pos hbig] at hf
    simp [Double.isFinite] at hf
  · rw [if_neg hbig]

/-- For a finite double `qc`, the sum `qc + qc` is exact unless it overflows. -/
theorem Double.add_self_of_finite (qc : Double) (hq : Double.round qc.value = qc)
    (hf : (Double.add qc qc).isFinite = true) :
    Double.add qc qc = Double.fin (qc.value + qc.value) := by
  cases qc with
  | fin q =>
    simp only [Double.value] at hq ⊢
    simp only [Double.add] at hf ⊢
    exact Double.round_add_self q hq hf
  | inf s => simp [Double.value, Double.round] at hq
  | nan => simp [Double.value, Double.round] at hq

/-! ## Double precision: the limiters at `beta = 0` -/

theorem Double.round_zero : Double.round 0 = Double.fin 0 := by
  simp [Double.round]

theorem Double.isFinite_iff (x : Double) : x.isFinite = true ↔ ∃ r, x = Double.fin r := by
  cases x with
  | fin q => simp [Double.isFinite]
  | inf s => simp [Double.isFinite]
  | nan => simp [Double.isFinite]

/-- A finite double times zero is zero. -/
theorem Double.mul_zero_of_finite (x : Double) (h : x.isFinite = true) :
    Double.mul x (Double.fin 0) = Double.fin 0 := by
  obtain ⟨r, rfl⟩ := (Double.isFinite_iff x).1 h
  simp [Double.mul, Double.round_zero]

/-- Zero times a finite double is zero. -/
theorem Double.zero_mul_of_finite (x : Double) (h : x.isFinite = true) :
    Double.mul (Double.fin 0) x = Double.fin 0 := by
  obtain ⟨r, rfl⟩ := (Double.isFinite_iff x).1 h
  simp [Double.mul, Double.round_zero]

/-- With `beta = 0` and a finite ratio, an iteration of the `phi` loop on doubles turns a
`phi` of 1 or 0 into 0. -/
theorem phiStep_double_beta_zero (lo hi qc dq phi : Double)
    (hr : (ratio_double lo hi qc dq).isFinite = true)
    (hphi : phi = Double.fin 1 ∨ phi = Double.fin 0) :
    phiStep_double (Double.fin 0) lo hi qc dq phi = Double.fin 0 := by
  unfold phiStep_double
  rw [Double.mul_zero_of_finite _ hr]
  rcases hphi with h | h <;> subst h <;> simp [min_double, Double.lt]

/-- With `beta = 0` and no overflow, the multiplier of a `_by_all_neighbours` limiter on
doubles is 0. -/
theorem phiOf_double_beta_zero (c : Nat → Double) (nb : Nat → Int) (q : Nat → Double)
    (k : Nat) (h : noOverflow c nb q k) :
    phiOf_double (Double.fin 0) c nb q k = Double.fin 0 := by
  obtain ⟨_, _, hfin⟩ := h
  unfold phiOf_double
  rw [phiStep_double_beta_zero _ _ _ _ (Double.fin 1) (hfin 0 (by decide)).2 (Or.inl rfl),
    phiStep_double_beta_zero _ _ _ _ (Double.fin 0) (hfin 1 (by decide)).2 (Or.inr rfl),
    phiStep_double_beta_zero _ _ _ _ (Double.fin 0) (hfin 2 (by decide)).2 (Or.inr rfl)]

/-- With `beta = 0`, an iteration of the `phi` loop of a `_by_neighbour` limiter on doubles
keeps a `phi` of 1 or 0 at 1 or 0, and turns it into 0 when the edge has a neighbour and
the ratio is finite. -/
theorem phiStepNb_double_beta_zero (qc : Double) (c : Nat → Double) (nb : Nat → Int)
    (k3 i : Nat) (dq phi : Double)
    (hr : nb (k3 + i) ≥ 0 →
      (ratio_double (min_double qc (c (nb (k3 + i)).toNat))
        (max_double qc (c (nb (k3 + i)).toNat)) qc dq).isFinite = true)
    (hphi : phi = Double.fin 1 ∨ phi = Double.fin 0) :
    (nb (k3 + i) ≥ 0 → phiStepNb_double (Double.fin 0) qc c nb k3 i dq phi = Double.fin 0) ∧
    (phi = Double.fin 0 → phiStepNb_double (Double.fin 0) qc c nb k3 i dq phi = Double.fin 0) ∧
    (phiStepNb_double (Double.fin 0) qc c nb k3 i dq phi = Double.fin 1 ∨
      phiStepNb_double (Double.fin 0) qc c nb k3 i dq phi = Double.fin 0) := by
  unfold phiStepNb_double
  by_cases hn : nb (k3 + i) ≥ 0
  · have h0 := phiStep_double_beta_zero _ _ qc dq phi (hr hn) hphi
    rw [if_pos hn, h0]
    exact ⟨fun _ => rfl, fun _ => rfl, Or.inr rfl⟩
  · rw [if_neg hn]
    exact ⟨fun h => absurd h hn, fun h => h, hphi⟩

/-- With `beta = 0`, no overflow and at least one neighbour, the multiplier of a
`_by_neighbour` limiter on doubles is 0. -/
theorem phiNb_double_beta_zero (c : Nat → Double) (nb : Nat → Int) (e : Nat → Double)
    (k : Nat) (h : noOverflowNb c nb e k) (hn : ∃ i, i < 3 ∧ 0 ≤ nb (3 * k + i)) :
    phiNb_double (Double.fin 0) c nb e k = Double.fin 0 := by
  obtain ⟨_, _, hfin⟩ := h
  obtain ⟨a0, b0, c0⟩ := phiStepNb_double_beta_zero (c k) c nb (3 * k) 0
    (Double.sub (e (3 * k + 0)) (c k)) (Double.fin 1) (hfin 0 (by decide)).2 (Or.inl rfl)
  obtain ⟨a1, b1, c1⟩ := phiStepNb_double_beta_zero (c k) c nb (3 * k) 1
    (Double.sub (e (3 * k + 1)) (c k)) _ (hfin 1 (by decide)).2 c0
  obtain ⟨a2, b2, _⟩ := phiStepNb_double_beta_zero (c k) c nb (3 * k) 2
    (Double.sub (e (3 * k + 2)) (c k)) _ (hfin 2 (by decide)).2 c1
  unfold phiNb_double
  obtain ⟨i, hi, hpos⟩ := hn
  have hi' : i = 0 ∨ i = 1 ∨ i = 2 := by omega
  rcases hi' with rfl | rfl | rfl
  · exact b2 (b1 (a0 hpos))
  · exact b2 (a1 hpos)
  · exact a2 hpos

/-- A finite double `qc` plus zero times a finite deviation is `qc`. -/
theorem Double.add_zero_mul (qc dq : Double) (hq : Double.round qc.value = qc)
    (hd : dq.isFinite = true) :
    Double.add qc (Double.mul (Double.fin 0) dq) = qc := by
  rw [Double.zero_mul_of_finite dq hd]
  cases qc with
  | fin q =>
    simp only [Double.value] at hq
    simp [Double.add, hq]
  | inf s => simp [Double.value, Double.round_zero] at hq
  | nan => simp [Double.value, Double.round_zero] at hq

/-- The half-sum of a finite double `qc` with itself is `qc` unless `qc + qc` overflows. -/
theorem Double.half_sum_self (qc : Double) (hq : Double.round qc.value = qc)
    (h2 : (Double.add qc qc).isFinite = true) :
    Double.mul (Double.fin 0.5) (Double.add qc qc) = qc := by
  rw [Double.add_self_of_finite qc hq h2]
  have : (0.5 : ℚ) * (qc.value + qc.value) = qc.value := by
    norm_num
    ring
  simp only [Double.mul, this]
  exact hq

/-- For a finite double `qc`, `qc + qc - qc` is `qc` unless `qc + qc` overflows. -/
theorem Double.sum_sub_self (qc : Double) (hq : Double.round qc.value = qc)
    (h2 : (Double.add qc qc).isFinite = true) :
    Double.sub (Double.add qc qc) qc = qc := by
  rw [Double.add_self_of_finite qc hq h2]
  cases qc with
  | fin q =>
    simp only [Double.value] at hq
    have : q + q + -q = q := by ring
    simp [Double.sub, Double.add, Double.neg, Double.value, this, hq]
  | inf s => simp [Double.value, Double.round_zero] at hq
  | nan => simp [Double.value, Double.round_zero] at hq

/-- Without neighbours the multiplier of a `_by_neighbour` limiter on doubles stays 1. -/
theorem phiNb_double_no_neighbour (beta : Double) (c : Nat → Double) (nb : Nat → Int)
    (e : Nat → Double) (k : Nat) (h : ∀ i, i < 3 → nb (3 * k + i) < 0) :
    phiNb_double beta c nb e k = Double.fin 1 := by
  have h0 : ¬ nb (3 * k + 0) ≥ 0 := not_le.2 (h 0 (by decide))
  have h1 : ¬ nb (3 * k + 1) ≥ 0 := not_le.2 (h 1 (by decide))
  have h2 : ¬ nb (3 * k + 2) ≥ 0 := not_le.2 (h 2 (by decide))
  unfold phiNb_double phiStepNb_double
  rw [if_neg h2, if_neg h1, if_neg h0]

/-! ## Double precision: what the limiters and the extrapolator guarantee -/

/-- C3 (as amended): for every input, the call of `_limit_edges_by_all_neighbours` returns 0
and afterwards, for every triangle `k < N` (in particular every one with at least 2 true
neighbours), each vertex value is re-derived from the limited edge values
`qc + phi*(e_i - qc)` as `e_j + e_l - e_i` and need not lie in `[qmin_k, qmax_k]`: in double
arithmetic, for every `beta`, it is that expression as the C operations compute it; over
exact arithmetic, for `0 < beta <= 1`, it lies in `[2*qmin_k - qmax_k, 2*qmax_k - qmin_k]`. -/
theorem limit_edges_by_all_neighbours_rederives_vertices (N : Nat) (nb : Nat → Int)
    (beta_d : Double) (c_d : Nat → Double) (s_d : DoubleLimitState)
    (beta : ℚ) (c : Nat → ℚ) (s : LimitState) (hb0 : 0 < beta) (hb1 : beta ≤ 1) :
    (∃ t, _limit_edges_by_all_neighbours_double N beta_d c_d nb s_d = some (Ctl.ret 0 t) ∧
      ∀ k, k < N →
        scaledBy_double (phiOf_double beta_d c_d nb s_d.edge_values k) (c_d k) s_d.edge_values
          t.edge_values k ∧
        verticesFromEdges t.vertex_values t.edge_values k) ∧
    (∃ t, _limit_edges_by_all_neighbours N beta c nb s = some (Ctl.ret 0 t) ∧
      ∀ k, k < N →
        (t.vertex_values (3 * k + 0) =
          t.edge_values (3 * k + 1) + t.edge_values (3 * k + 2) - t.edge_values (3 * k + 0) ∧
         t.vertex_values (3 * k + 1) =
          t.edge_values (3 * k + 2) + t.edge_values (3 * k + 0) - t.edge_values (3 * k + 1) ∧
         t.vertex_values (3 * k + 2) =
          t.edge_values (3 * k + 0) + t.edge_values (3 * k + 1) - t.edge_values (3 * k + 2)) ∧
        ∀ i, i < 3 →
          2 * qminOf c nb k - qmaxOf c nb k ≤ t.vertex_values (3 * k + i) ∧
            t.vertex_values (3 * k + i) ≤ 2 * qmaxOf c nb k - qminOf c nb k) :=
  ⟨limit_edges_double_spec N beta_d c_d nb s_d,
    limit_edges_by_all_neighbours_vertices N beta c nb s hb0 hb1⟩

/-- C18 (as amended): in double arithmetic with `beta = 0`, both global-envelope limiters
return 0 and afterwards, for every triangle `k < N` whose run raises no overflow (the
centroid value is a finite double, `qc + qc` does not overflow, the deviations and the
ratios are finite), all three vertex values and all three edge values equal
`centroid_values[k]`. -/
theorem limit_by_all_neighbours_beta_zero_no_overflow (N : Nat) (c : Nat → Double)
    (nb : Nat → Int) (s : DoubleLimitState) :
    (∃ t, _limit_vertices_by_all_neighbours_double N (Double.fin 0) c nb s =
        some (Ctl.ret 0 t) ∧
      ∀ k, k < N → noOverflow c nb s.vertex_values k → ∀ i, i < 3 →
        t.vertex_values (3 * k + i) = c k ∧ t.edge_values (3 * k + i) = c k) ∧
    (∃ t, _limit_edges_by_all_neighbours_double N (Double.fin 0) c nb s =
        some (Ctl.ret 0 t) ∧
      ∀ k, k < N → noOverflow c nb s.edge_values k → ∀ i, i < 3 →
        t.vertex_values (3 * k + i) = c k ∧ t.edge_values (3 * k + i) = c k) := by
  constructor
  · obtain ⟨t, ht, h⟩ := limit_vertices_double_spec N (Double.fin 0) c nb s
    refine ⟨t, ht, ?_⟩
    intro k hk hno i hi
    obtain ⟨hs, he0, he1, he2⟩ := h k hk
    rw [phiOf_double_beta_zero c nb _ k hno] at hs
    obtain ⟨hq, h2, hfin⟩ := hno
    have hv : ∀ j, j < 3 → t.vertex_values (3 * k + j) = c k := by
      intro j hj
      rw [hs j hj]
      exact Double.add_zero_mul _ _ hq (hfin j hj).1
    refine ⟨hv i hi, ?_⟩
    have hh := Double.half_sum_self (c k) hq h2
    interval_cases i
    · rw [he0, hv 1 (by decide), hv 2 (by decide)]
      exact hh
    · rw [he1, hv 2 (by decide), hv 0 (by decide)]
      exact hh
    · rw [he2, hv 0 (by decide), hv 1 (by decide)]
      exact hh
  · obtain ⟨t, ht, h⟩ := limit_edges_double_spec N (Double.fin 0) c nb s
    refine ⟨t, ht, ?_⟩
    intro k hk hno i hi
    obtain ⟨hs, hv0, hv1, hv2⟩ := h k hk
    rw [phiOf_double_beta_zero c nb _ k hno] at hs
    obtain ⟨hq, h2, hfin⟩ := hno
    have he : ∀ j, j < 3 → t.edge_values (3 * k + j) = c k := by
      intro j hj
      rw [hs j hj]
      exact Double.add_zero_mul _ _ hq (hfin j hj).1
    refine ⟨?_, he i hi⟩
    have hh := Double.sum_sub_self (c k) hq h2
    interval_cases i
    · rw [hv0, he 0 (by decide), he 1 (by decide), he 2 (by decide)]
      exact hh
    · rw [hv1, he 0 (by decide), he 1 (by decide), he 2 (by decide)]
      exact hh
    · rw [hv2, he 0 (by decide), he 1 (by decide), he 2 (by decide)]
      exact hh

/-- Collapse of one triangle of a `_by_neighbour` limiter on doubles at `beta = 0`. -/
theorem collapse_by_neighbour_double (c : Nat → Double) (nb : Nat → Int)
    (old v e : Nat → Double) (k : Nat)
    (hs : scaledBy_double (phiNb_double (Double.fin 0) c nb old k) (c k) old e k)
    (hv : verticesFromEdges v e k) (hn : ∃ i, i < 3 ∧ 0 ≤ nb (3 * k + i))
    (hno : noOverflowNb c nb old k) (i : Nat) (hi : i < 3) :
    e (3 * k + i) = c k ∧ v (3 * k + i) = c k := by
  obtain ⟨hv0, hv1, hv2⟩ := hv
  rw [phiNb_double_beta_zero c nb _ k hno hn] at hs
  obtain ⟨hq, h2, hfin⟩ := hno
  have he : ∀ j, j < 3 → e (3 * k + j) = c k := by
    intro j hj
    rw [hs j hj]
    exact Double.add_zero_mul _ _ hq (hfin j hj).1
  refine ⟨he i hi, ?_⟩
  have hh := Double.sum_sub_self (c k) hq h2
  interval_cases i
  · rw [hv0, he 0 (by decide), he 1 (by decide), he 2 (by decide)]
    exact hh
  · rw [hv1, he 0 (by decide), he 1 (by decide), he 2 (by decide)]
    exact hh
  · rw [hv2, he 0 (by decide), he 1 (by decide), he 2 (by decide)]
    exact hh

/-- C19 (as amended): in double arithmetic with `beta = 0`, both per-edge limiters return 0
and afterwards, for every triangle `k < N` that has at least one non-negative `neighbours`
entry and whose run raises no overflow (the centroid value is a finite double, `qc + qc`
does not overflow, the deviations and the ratios of the edges with a neighbour are finite),
all three edge values and all three vertex values equal `centroid_values[k]`. -/
theorem limit_by_neighbour_beta_zero_no_overflow (N : Nat) (c : Nat → Double)
    (nb : Nat → Int) (s : DoubleLimitState) (sg : DoubleGradientLimitState) :
    (∃ t, _limit_edges_by_neighbour_double N (Double.fin 0) c nb s = some (Ctl.ret 0 t) ∧
      ∀ k, k < N → (∃ i, i < 3 ∧ 0 ≤ nb (3 * k + i)) → noOverflowNb c nb s.edge_values k →
        ∀ i, i < 3 → t.edge_values (3 * k + i) = c k ∧ t.vertex_values (3 * k + i) = c k) ∧
    (∃ t, _limit_gradient_by_neighbour_double N (Double.fin 0) c nb sg =
        some (Ctl.ret 0 t) ∧
      ∀ k, k < N → (∃ i, i < 3 ∧ 0 ≤ nb (3 * k + i)) → noOverflowNb c nb sg.edge_values k →
        ∀ i, i < 3 → t.edge_values (3 * k + i) = c k ∧ t.vertex_values (3 * k + i) = c k) := by
  constructor
  · obtain ⟨t, ht, h⟩ := limit_edges_by_neighbour_double_spec N (Double.fin 0) c nb s
    exact ⟨t, ht, fun k hk hn hno i hi =>
      collapse_by_neighbour_double c nb _ _ _ k (h k hk).1 (h k hk).2 hn hno i hi⟩
  · obtain ⟨t, ht, h⟩ := limit_gradient_by_neighbour_double_spec N (Double.fin 0) c nb sg
    exact ⟨t, ht, fun k hk hn hno i hi =>
      collapse_by_neighbour_double c nb _ _ _ k (h k hk).1 (h k hk).2 hn hno i hi⟩

/-- C27 (as amended): in double arithmetic, for `_limit_edges_by_neighbour` with any `beta`
and any input, the call returns 0 and for every triangle `k < N` all three of whose
`neighbours` entries are negative, `phi` stays 1, each edge value after the call is the
input one rewritten as `qc + 1.0*(e_i - qc)`, and the vertex values are
`vertex[i] = edge[j] + edge[l] - edge[i]` computed from the rewritten edge values. -/
theorem limit_edges_by_neighbour_isolated_rewrites (N : Nat) (beta : Double)
    (c : Nat → Double) (nb : Nat → Int) (s : DoubleLimitState) :
    ∃ t, _limit_edges_by_neighbour_double N beta c nb s = some (Ctl.ret 0 t) ∧
      ∀ k, k < N → (∀ i, i < 3 → nb (3 * k + i) < 0) →
        phiNb_double beta c nb s.edge_values k = Double.fin 1 ∧
        scaledBy_double (Double.fin 1) (c k) s.edge_values t.edge_values k ∧
        verticesFromEdges t.vertex_values t.edge_values k := by
  obtain ⟨t, ht, h⟩ := limit_edges_by_neighbour_double_spec N beta c nb s
  refine ⟨t, ht, ?_⟩
  intro k hk hiso
  have hphi := phiNb_double_no_neighbour beta c nb s.edge_values k hiso
  obtain ⟨hs, hv⟩ := h k hk
  rw [hphi] at hs
  exact ⟨hphi, hs, hv⟩

/-- C30 (as amended): in double arithmetic each of the five functions returns 0 and leaves
every triangle `k < N` in the relation it stores, whatever the input vertex and edge values
were: after `_extrapolate_from_gradient` and `_limit_vertices_by_all_neighbours` each edge
value is half the sum `0.5*(v_j + v_l)` of the two other vertex values, and after the three
edge limiters each vertex value is `edge[j] + edge[l] - edge[i]`, each as the C operations
compute it. -/
theorem vertex_edge_stored_relation (N : Nat) (beta : Double)
    (centroids c X a b : Nat → Double) (nb : Nat → Int) (m : DoubleVEMem)
    (s : DoubleLimitState) (sg : DoubleGradientLimitState) :
    (∃ t, _extrapolate_from_gradient_double N centroids c X a b m = some (Ctl.ret 0 t) ∧
      ∀ k, k < N → edgesHalfSums t.vertex_values t.edge_values k) ∧
    (∃ t, _limit_vertices_by_all_neighbours_double N beta c nb s = some (Ctl.ret 0 t) ∧
      ∀ k, k < N → edgesHalfSums t.vertex_values t.edge_values k) ∧
    (∃ t, _limit_edges_by_all_neighbours_double N beta c nb s = some (Ctl.ret 0 t) ∧
      ∀ k, k < N → verticesFromEdges t.vertex_values t.edge_values k) ∧
    (∃ t, _limit_edges_by_neighbour_double N beta c nb s = some (Ctl.ret 0 t) ∧
      ∀ k, k < N → verticesFromEdges t.vertex_values t.edge_values k) ∧
    (∃ t, _limit_gradient_by_neighbour_double N beta c nb sg = some (Ctl.ret 0 t) ∧
      ∀ k, k < N → verticesFromEdges t.vertex_values t.edge_values k) := by
  refine ⟨extrapolate_double_spec N centroids c X a b m, ?_, ?_, ?_, ?_⟩
  · obtain ⟨t, ht, h⟩ := limit_vertices_double_spec N beta c nb s
    exact ⟨t, ht, fun k hk => (h k hk).2⟩
  · obtain ⟨t, ht, h⟩ := limit_edges_double_spec N beta c nb s
    exact ⟨t, ht, fun k hk => (h k hk).2⟩
  · obtain ⟨t, ht, h⟩ := limit_edges_by_neighbour_double_spec N beta c nb s
    exact ⟨t, ht, fun k hk => (h k hk).2⟩
  · obtain ⟨t, ht, h⟩ := limit_gradient_by_neighbour_double_spec N beta c nb sg
    exact ⟨t, ht, fun k hk => (h k hk).2⟩

/-- C18 (as amended) at triangle 0 of the three-triangle mesh with centroid values
`1.76, -0.06, -0.3` and vertex values `0.231, 1.72, -0.3`: no overflow is raised, and with
`beta = 0` the vertex value `0.231` and the edge value at local index 0 both become the
centroid value `1.76`. -/
theorem limit_by_all_neighbours_beta_zero_no_overflow_witness :
    noOverflow exRoundingCentroids exNeighbours exRoundingStore.vertex_values 0 ∧
    exRoundingStore.vertex_values (3 * 0 + 0) ≠ exRoundingCentroids 0 ∧
    ∃ t, _limit_vertices_by_all_neighbours_double 3 (Double.fin 0) exRoundingCentroids
        exNeighbours exRoundingStore = some (Ctl.ret 0 t) ∧
      t.vertex_values (3 * 0 + 0) = exRoundingCentroids 0 ∧
      t.edge_values (3 * 0 + 0) = exRoundingCentroids 0 := by
  have hno : noOverflow exRoundingCentroids exNeighbours exRoundingStore.vertex_values 0 := by
    unfold noOverflow
    decide!
  obtain ⟨t, ht, h⟩ := (limit_by_all_neighbours_beta_zero_no_overflow 3 exRoundingCentroids
    exNeighbours exRoundingStore).1
  exact ⟨hno, by decide!, t, ht, h 0 (by decide) hno 0 (by decide)⟩

/-- C19 (as amended) at triangle 0 of the three-triangle mesh with centroid values
`1.76, -0.06, -0.3` and edge values `0.231, 1.72, -0.3`: the triangle has neighbours, no
overflow is raised, and with `beta = 0` the edge value `0.231` and the vertex value at local
index 0 both become the centroid value `1.76`. -/
theorem limit_by_neighbour_beta_zero_no_overflow_witness :
    (∃ i, i < 3 ∧ 0 ≤ exNeighbours (3 * 0 + i)) ∧
    noOverflowNb exRoundingCentroids exNeighbours exRoundingStore.edge_values 0 ∧
    exRoundingStore.edge_values (3 * 0 + 0) ≠ exRoundingCentroids 0 ∧
    ∃ t, _limit_edges_by_neighbour_double 3 (Double.fin 0) exRoundingCentroids
        exNeighbours exRoundingStore = some (Ctl.ret 0 t) ∧
      t.edge_values (3 * 0 + 0) = exRoundingCentroids 0 ∧
      t.vertex_values (3 * 0 + 0) = exRoundingCentroids 0 := by
  have hn : ∃ i, i < 3 ∧ 0 ≤ exNeighbours (3 * 0 + i) := ⟨0, by decide, by decide⟩
  have hno : noOverflowNb exRoundingCentroids exNeighbours exRoundingStore.edge_values 0 := by
    unfold noOverflowNb
    decide!
  obtain ⟨t, ht, h⟩ := (limit_by_neighbour_beta_zero_no_overflow 3 exRoundingCentroids
    exNeighbours exRoundingStore
    { vertex_values := fun _ => Double.fin 0, edge_values := fun _ => Double.fin 0,
      x_gradient := fun _ => Double.fin 0, y_gradient := fun _ => Double.fin 0,
      qmin := Double.fin 0, qmax := Double.fin 0, phi := Double.fin 0,
      dqa := fun _ => Double.fin 0 }).1
  exact ⟨hn, hno, by decide!, t, ht, h 0 (by decide) hn hno 0 (by decide)⟩

/-- C27 (as amended) at one triangle without neighbours with centroid value `1.76` and
edge values `0.231, 1.72, -0.3`: edge 0 is rewritten as `1.76 + 1.0*(0.231 - 1.76)`, which
is `0.2310000000000001` in doubles. -/
theorem limit_edges_by_neighbour_isolated_rewrites_witness :
    (∀ i, i < 3 → exNoNeighbours (3 * 0 + i) < 0) ∧
    ∃ t, _limit_edges_by_neighbour_double 1 (dbl 1) (doubles [1.76]) exNoNeighbours
        exRoundingStoreOne = some (Ctl.ret 0 t) ∧
      t.edge_values (3 * 0 + 0) = Double.add (dbl 1.76)
        (Double.mul (Double.fin 1) (Double.sub (dbl 0.231) (dbl 1.76))) ∧
      t.edge_values (3 * 0 + 0) = dbl 0.2310000000000001 := by
  have hiso : ∀ i, i < 3 → exNoNeighbours (3 * 0 + i) < 0 := by
    intro i _
    simp [exNoNeighbours]
  obtain ⟨t, ht, h⟩ := limit_edges_by_neighbour_isolated_rewrites 1 (dbl 1) (doubles [1.76])
    exNoNeighbours exRoundingStoreOne
  have he := (h 0 (by decide) hiso).2.1 0 (by decide)
  have e1 : doubles [1.76] 0 = dbl 1.76 := by decide!
  have e2 : exRoundingStoreOne.edge_values (3 * 0 + 0) = dbl 0.231 := by decide!
  have e3 : Double.add (dbl 1.76)
      (Double.mul (Double.fin 1) (Double.sub (dbl 0.231) (dbl 1.76))) =
        dbl 0.2310000000000001 := by decide!
  rw [e1, e2] at he
  exact ⟨hiso, t, ht, he, he.trans e3⟩

/-- C3 (as amended) on the three-triangle mesh with `beta = 1`: in doubles with the centroid
values `0.745, 1.801, 1.257`, and over exact arithmetic with the centroid values
`0, 1, -1`. -/
theorem limit_edges_by_all_neighbours_rederives_vertices_witness :
    (0 : ℚ) < 1 ∧ (1 : ℚ) ≤ 1 ∧
    (∃ t, _limit_edges_by_all_neighbours_double 3 (dbl 1) exRoundingCentroidsUp exNeighbours
        exRoundingStoreUp = some (Ctl.ret 0 t) ∧
      ∀ k, k < 3 →
        scaledBy_double (phiOf_double (dbl 1) exRoundingCentroidsUp exNeighbours
          exRoundingStoreUp.edge_values k) (exRoundingCentroidsUp k) exRoundingStoreUp.edge_values
          t.edge_values k ∧
        verticesFromEdges t.vertex_values t.edge_values k) ∧
    (∃ t, _limit_edges_by_all_neighbours 3 1 exCentroids exNeighbours exLimitState =
        some (Ctl.ret 0 t) ∧
      ∀ k, k < 3 →
        (t.vertex_values (3 * k + 0) =
          t.edge_values (3 * k + 1) + t.edge_values (3 * k + 2) - t.edge_values (3 * k + 0) ∧
         t.vertex_values (3 * k + 1) =
          t.edge_values (3 * k + 2) + t.edge_values (3 * k + 0) - t.edge_values (3 * k + 1) ∧
         t.vertex_values (3 * k + 2) =
          t.edge_values (3 * k + 0) + t.edge_values (3 * k + 1) - t.edge_values (3 * k + 2)) ∧
        ∀ i, i < 3 →
          2 * qminOf exCentroids exNeighbours k - qmaxOf exCentroids exNeighbours k ≤
              t.vertex_values (3 * k + i) ∧
            t.vertex_values (3 * k + i) ≤
              2 * qmaxOf exCentroids exNeighbours k - qminOf exCentroids exNeighbours k) :=
  ⟨by norm_num, by norm_num,
    limit_edges_by_all_neighbours_rederives_vertices 3 exNeighbours (dbl 1)
      exRoundingCentroidsUp exRoundingStoreUp 1 exCentroids exLimitState
      (by norm_num) (by norm_num)⟩

end QuantityExt
